import Mathlib

/-!
# CHIP-8 execution engine: a shallow embedding of `chip8.cpp`

Every instruction handler of `chip8.cpp` is a state transition
`Chip8 → Option Chip8`.  Arrays are lists; an access outside the array
(undefined behaviour in C++) makes the handler return `none`.  Machine
integers are natural numbers reduced modulo `2 ^ w` wherever the C++ type
truncates.
-/

namespace Chip8Emu

/-! ## Constants and the machine state -/

/-- The constant `START_ADDRESS` of `chip8.cpp`. -/
def START_ADDRESS : Nat := 0x200

/-- The constant `FONTSET_START_ADDRESS` of `chip8.cpp`. -/
def FONTSET_START_ADDRESS : Nat := 0x50

/-- Modelled from the spec: the constant `VIDEO_WIDTH` is declared in `chip8.h`,
which is not among the sources; the framebuffer is a 64 x 32 grid. -/
def VIDEO_WIDTH : Nat := 64

/-- Modelled from the spec: the constant `VIDEO_HEIGHT` is declared in `chip8.h`,
which is not among the sources; the framebuffer is a 64 x 32 grid. -/
def VIDEO_HEIGHT : Nat := 32

/-- Modelled from the spec: the data members of class `Chip8` are declared in
`chip8.h`, which is not among the sources.  Sixteen 8-bit registers, 4096 bytes
of memory, a 16-bit index register, a 16-bit program counter, a stack of sixteen
16-bit return addresses with an 8-bit stack pointer, two 8-bit timers, sixteen
key states, a framebuffer of 64 * 32 32-bit cells and the 16-bit instruction
word being executed. -/
structure Chip8 where
  registers : List Nat
  memory : List Nat
  index : Nat
  pc : Nat
  stack : List Nat
  sp : Nat
  delayTimer : Nat
  soundTimer : Nat
  keypad : List Bool
  video : List Nat
  opcode : Nat
deriving DecidableEq, Repr

/-- The declared array sizes and integer widths of the data members. -/
structure Chip8.WF (s : Chip8) : Prop where
  registers_length : s.registers.length = 16
  registers_byte : ∀ v ∈ s.registers, v < 256
  memory_length : s.memory.length = 4096
  memory_byte : ∀ v ∈ s.memory, v < 256
  index_lt : s.index < 65536
  pc_lt : s.pc < 65536
  stack_length : s.stack.length = 16
  stack_word : ∀ v ∈ s.stack, v < 65536
  sp_lt : s.sp < 256
  delayTimer_lt : s.delayTimer < 256
  soundTimer_lt : s.soundTimer < 256
  keypad_length : s.keypad.length = 16
  video_length : s.video.length = 2048
  video_word : ∀ v ∈ s.video, v < 4294967296
  opcode_lt : s.opcode < 65536

/-- An array write `a[i] = v`: undefined (`none`) outside the array. -/
def writeAt {α : Type} (a : List α) (i : Nat) (v : α) : Option (List α) :=
  if i < a.length then some (a.set i v) else none

/-- A counted loop `for (i = 0; i < n; ++i) body`, the body run on the state in
the order `0, 1, ..., n - 1`; it stops with `none` as soon as the body does. -/
def forLoop {σ : Type} (n : Nat) (body : Nat → σ → Option σ) (init : σ) : Option σ :=
  match n with
  | 0 => some init
  | k + 1 => (forLoop k body init).bind (body k)

/-- The assignment `registers[i] = v`. -/
def setReg (s : Chip8) (i v : Nat) : Option Chip8 :=
  (writeAt s.registers i v).map fun regs => { s with registers := regs }

/-- The assignment `memory[i] = v`. -/
def setMem (s : Chip8) (i v : Nat) : Option Chip8 :=
  (writeAt s.memory i v).map fun mem => { s with memory := mem }

/-- The 8-bit result of `a - b` on two unsigned bytes (computed in `int`,
stored in a `uint8_t`). -/
def sub8 (a b : Nat) : Nat := (((a : Int) - (b : Int)) % 256).toNat

/-! ## Instruction handlers -/

/-- Handler `Chip8::OP_00E0`: `memset(video, 0, sizeof(video))`. -/
def OP_00E0 (s : Chip8) : Option Chip8 :=
  some { s with video := List.replicate s.video.length 0 }

/-- Handler `Chip8::OP_00EE`: `--sp; pc = stack[sp];`. -/
def OP_00EE (s : Chip8) : Option Chip8 :=
  let sp := (s.sp + 255) % 256
  (s.stack[sp]?).map fun top => { s with sp := sp, pc := top }

/-- Handler `Chip8::OP_1nnn`. -/
def OP_1nnn (s : Chip8) : Option Chip8 :=
  let address := s.opcode &&& 0x0FFF
  some { s with pc := address }

/-- Handler `Chip8::OP_2nnn`: `stack[sp] = pc; ++sp; pc = address;`. -/
def OP_2nnn (s : Chip8) : Option Chip8 :=
  let address := s.opcode &&& 0x0FFF
  (writeAt s.stack s.sp s.pc).map fun stk =>
    { s with stack := stk, sp := (s.sp + 1) % 256, pc := address }

/-- Handler `Chip8::OP_3xkk`. -/
def OP_3xkk (s : Chip8) : Option Chip8 :=
  let Vx := ((s.opcode &&& 0x0F00) >>> 8) % 256
  let byte := (s.opcode &&& 0x00FF) % 256
  (s.registers[Vx]?).map fun rx =>
    if rx = byte then { s with pc := (s.pc + 2) % 65536 } else s

/-- Handler `Chip8::OP_4xkk`. -/
def OP_4xkk (s : Chip8) : Option Chip8 :=
  let Vx := ((s.opcode &&& 0x0F00) >>> 8) % 256
  let byte := (s.opcode &&& 0x00FF) % 256
  (s.registers[Vx]?).map fun rx =>
    if rx ≠ byte then { s with pc := (s.pc + 2) % 65536 } else s

/-- Handler `Chip8::OP_5xy0`. -/
def OP_5xy0 (s : Chip8) : Option Chip8 :=
  let Vx := ((s.opcode &&& 0x0F00) >>> 8) % 256
  let Vy := ((s.opcode &&& 0x00F0) >>> 4) % 256
  (s.registers[Vx]?).bind fun rx =>
  (s.registers[Vy]?).map fun ry =>
    if rx = ry then { s with pc := (s.pc + 2) % 65536 } else s

/-- Handler `Chip8::OP_6xkk`. -/
def OP_6xkk (s : Chip8) : Option Chip8 :=
  let Vx := ((s.opcode &&& 0x0F00) >>> 8) % 256
  let byte := (s.opcode &&& 0x00FF) % 256
  setReg s Vx byte

/-- Handler `Chip8::OP_7xkk`: `registers[Vx] += byte`. -/
def OP_7xkk (s : Chip8) : Option Chip8 :=
  let Vx := ((s.opcode &&& 0x0F00) >>> 8) % 256
  let byte := (s.opcode &&& 0x00FF) % 256
  (s.registers[Vx]?).bind fun rx => setReg s Vx ((rx + byte) % 256)

/-- Handler `Chip8::OP_8xy0`. -/
def OP_8xy0 (s : Chip8) : Option Chip8 :=
  let Vx := ((s.opcode &&& 0x0F00) >>> 8) % 256
  let Vy := ((s.opcode &&& 0x00F0) >>> 4) % 256
  (s.registers[Vy]?).bind fun ry => setReg s Vx ry

/-- Handler `Chip8::OP_8xy1`: `registers[Vx] |= registers[Vy]`. -/
def OP_8xy1 (s : Chip8) : Option Chip8 :=
  let Vx := ((s.opcode &&& 0x0F00) >>> 8) % 256
  let Vy := ((s.opcode &&& 0x00F0) >>> 4) % 256
  (s.registers[Vx]?).bind fun rx =>
  (s.registers[Vy]?).bind fun ry => setReg s Vx ((rx ||| ry) % 256)

/-- Handler `Chip8::OP_8xy2`: `registers[Vx] &= registers[Vy]`. -/
def OP_8xy2 (s : Chip8) : Option Chip8 :=
  let Vx := ((s.opcode &&& 0x0F00) >>> 8) % 256
  let Vy := ((s.opcode &&& 0x00F0) >>> 4) % 256
  (s.registers[Vx]?).bind fun rx =>
  (s.registers[Vy]?).bind fun ry => setReg s Vx ((rx &&& ry) % 256)

/-- Handler `Chip8::OP_8xy3`: `registers[Vx] ^= registers[Vy]`. -/
def OP_8xy3 (s : Chip8) : Option Chip8 :=
  let Vx := ((s.opcode &&& 0x0F00) >>> 8) % 256
  let Vy := ((s.opcode &&& 0x00F0) >>> 4) % 256
  (s.registers[Vx]?).bind fun rx =>
  (s.registers[Vy]?).bind fun ry => setReg s Vx ((rx ^^^ ry) % 256)

/-- Handler `Chip8::OP_8xy4`: the 16-bit `sum` is computed first, then the flag is
written, then `registers[Vx]`. -/
def OP_8xy4 (s : Chip8) : Option Chip8 :=
  let Vx := ((s.opcode &&& 0x0F00) >>> 8) % 256
  let Vy := ((s.opcode &&& 0x00F0) >>> 4) % 256
  (s.registers[Vx]?).bind fun rx =>
  (s.registers[Vy]?).bind fun ry =>
  let sum := (rx + ry) % 65536
  (if sum > 255 then setReg s 0xF 1 else setReg s 0xF 0).bind fun s1 =>
  setReg s1 Vx ((sum &&& 0xFF) % 256)

/-- Handler `Chip8::OP_8xy5`: the flag is written first; `registers[Vx] -= registers[Vy]`
then reads both registers again. -/
def OP_8xy5 (s : Chip8) : Option Chip8 :=
  let Vx := ((s.opcode &&& 0x0F00) >>> 8) % 256
  let Vy := ((s.opcode &&& 0x00F0) >>> 4) % 256
  (s.registers[Vx]?).bind fun rx =>
  (s.registers[Vy]?).bind fun ry =>
  (if rx > ry then setReg s 0xF 1 else setReg s 0xF 0).bind fun s1 =>
  (s1.registers[Vx]?).bind fun rx1 =>
  (s1.registers[Vy]?).bind fun ry1 =>
  setReg s1 Vx (sub8 rx1 ry1)

/-- Handler `Chip8::OP_8xy6`. -/
def OP_8xy6 (s : Chip8) : Option Chip8 :=
  let Vx := ((s.opcode &&& 0x0F00) >>> 8) % 256
  (s.registers[Vx]?).bind fun rx =>
  (setReg s 0xF ((rx &&& 0x1) % 256)).bind fun s1 =>
  (s1.registers[Vx]?).bind fun rx1 =>
  setReg s1 Vx ((rx1 >>> 1) % 256)

/-- Handler `Chip8::OP_8xy7`. -/
def OP_8xy7 (s : Chip8) : Option Chip8 :=
  let Vx := ((s.opcode &&& 0x0F00) >>> 8) % 256
  let Vy := ((s.opcode &&& 0x00F0) >>> 4) % 256
  (s.registers[Vy]?).bind fun ry =>
  (s.registers[Vx]?).bind fun rx =>
  (if ry > rx then setReg s 0xF 1 else setReg s 0xF 0).bind fun s1 =>
  (s1.registers[Vy]?).bind fun ry1 =>
  (s1.registers[Vx]?).bind fun rx1 =>
  setReg s1 Vx (sub8 ry1 rx1)

/-- Handler `Chip8::OP_8xyE`. -/
def OP_8xyE (s : Chip8) : Option Chip8 :=
  let Vx := ((s.opcode &&& 0x0F00) >>> 8) % 256
  (s.registers[Vx]?).bind fun rx =>
  (setReg s 0xF (((rx &&& 0x80) >>> 7) % 256)).bind fun s1 =>
  (s1.registers[Vx]?).bind fun rx1 =>
  setReg s1 Vx ((rx1 <<< 1) % 256)

/-- Handler `Chip8::OP_9xy0`. -/
def OP_9xy0 (s : Chip8) : Option Chip8 :=
  let Vx := ((s.opcode &&& 0x0F00) >>> 8) % 256
  let Vy := ((s.opcode &&& 0x00F0) >>> 4) % 256
  (s.registers[Vx]?).bind fun rx =>
  (s.registers[Vy]?).map fun ry =>
    if rx ≠ ry then { s with pc := (s.pc + 2) % 65536 } else s

/-- Handler `Chip8::OP_Annn`. -/
def OP_Annn (s : Chip8) : Option Chip8 :=
  let address := s.opcode &&& 0x0FFF
  some { s with index := address }

/-- Handler `Chip8::OP_Bnnn`. -/
def OP_Bnnn (s : Chip8) : Option Chip8 :=
  let address := s.opcode &&& 0x0FFF
  (s.registers[0]?).map fun r0 => { s with pc := (r0 + address) % 65536 }

/-- Handler `Chip8::OP_Cnnn`; `rnd` is the value drawn by `randByte(randGen)`. -/
def OP_Cnnn (rnd : Nat) (s : Chip8) : Option Chip8 :=
  let Vx := ((s.opcode &&& 0x0F00) >>> 8) % 256
  let byte := (s.opcode &&& 0x00FF) % 256
  setReg s Vx ((rnd &&& byte) % 256)

/-- Handler `Chip8::OP_Cxkk`; `rnd` is the value drawn by `randByte(randGen)`. -/
def OP_Cxkk (rnd : Nat) (s : Chip8) : Option Chip8 :=
  let Vx := ((s.opcode &&& 0x0F00) >>> 8) % 256
  let byte := (s.opcode &&& 0x00FF) % 256
  setReg s Vx ((rnd &&& byte) % 256)

/-- The register index `Vy` as `Chip8::OP_Dxyn` extracts it: the mask is
`0x0FF0`, and the shifted value is stored in a `uint8_t`. -/
def dxynVy (opcode : Nat) : Nat := ((opcode &&& 0x0FF0) >>> 4) % 256

/-- The body of the inner loop of `Chip8::OP_Dxyn` for column `col`; the
framebuffer cell is read and written only when the sprite bit is set. -/
def drawPixel (xPos yPos row spriteByte col : Nat) (s : Chip8) : Option Chip8 :=
  let spritePixel := (spriteByte &&& (0x80 >>> col)) % 256
  let screenPixel := (yPos + row) * VIDEO_WIDTH + (xPos + col)
  if spritePixel ≠ 0 then
    (s.video[screenPixel]?).bind fun cell =>
    (if cell = 0xFFFFFFFF then setReg s 0xF 1 else some s).bind fun s1 =>
    (writeAt s1.video screenPixel ((cell ^^^ 0xFFFFFFFF) % 4294967296)).map fun vid =>
      { s1 with video := vid }
  else some s

/-- The body of the outer loop of `Chip8::OP_Dxyn` for sprite row `row`. -/
def drawRow (xPos yPos row : Nat) (s : Chip8) : Option Chip8 :=
  (s.memory[s.index + row]?).bind fun spriteByte =>
  forLoop 8 (drawPixel xPos yPos row spriteByte) s

/-- The sprite origin `(xPos, yPos)` computed at the start of `Chip8::OP_Dxyn`. -/
def dxynOrigin (s : Chip8) : Option (Nat × Nat) :=
  let Vx := ((s.opcode &&& 0x0F00) >>> 8) % 256
  let Vy := dxynVy s.opcode
  (s.registers[Vx]?).bind fun rx =>
  (s.registers[Vy]?).map fun ry =>
    ((rx % VIDEO_WIDTH) % 256, (ry % VIDEO_HEIGHT) % 256)

/-- Handler `Chip8::OP_Dxyn`. -/
def OP_Dxyn (s : Chip8) : Option Chip8 :=
  let height := (s.opcode &&& 0x000F) % 256
  (dxynOrigin s).bind fun origin =>
  (setReg s 0xF 0).bind fun s1 =>
  forLoop height (drawRow origin.1 origin.2) s1

/-- Handler `Chip8::OP_Ex9E`. -/
def OP_Ex9E (s : Chip8) : Option Chip8 :=
  let Vx := ((s.opcode &&& 0x0F00) >>> 8) % 256
  (s.registers[Vx]?).bind fun key =>
  (s.keypad[key]?).map fun pressed =>
    if pressed then { s with pc := (s.pc + 2) % 65536 } else s

/-- Handler `Chip8::OP_ExA1`. -/
def OP_ExA1 (s : Chip8) : Option Chip8 :=
  let Vx := ((s.opcode &&& 0x0F00) >>> 8) % 256
  (s.registers[Vx]?).bind fun key =>
  (s.keypad[key]?).map fun pressed =>
    if !pressed then { s with pc := (s.pc + 2) % 65536 } else s

/-- Handler `Chip8::OP_Fx07`. -/
def OP_Fx07 (s : Chip8) : Option Chip8 :=
  let Vx := ((s.opcode &&& 0x0F00) >>> 8) % 256
  setReg s Vx s.delayTimer

/-- One link `if (keypad[k]) { registers[Vx] = k; } else ...` of the chain in
`Chip8::OP_Fx0A`. -/
def keyBranch (s : Chip8) (Vx k : Nat) (otherwise : Unit → Option Chip8) : Option Chip8 :=
  (s.keypad[k]?).bind fun pressed => if pressed then setReg s Vx k else otherwise ()

/-- Handler `Chip8::OP_Fx0A`: the chain of sixteen tests `keypad[0]`, ..., `keypad[15]`,
and `pc -= 2` when none holds. -/
def OP_Fx0A (s : Chip8) : Option Chip8 :=
  let Vx := ((s.opcode &&& 0x0F00) >>> 8) % 256
  keyBranch s Vx 0 fun _ =>
  keyBranch s Vx 1 fun _ =>
  keyBranch s Vx 2 fun _ =>
  keyBranch s Vx 3 fun _ =>
  keyBranch s Vx 4 fun _ =>
  keyBranch s Vx 5 fun _ =>
  keyBranch s Vx 6 fun _ =>
  keyBranch s Vx 7 fun _ =>
  keyBranch s Vx 8 fun _ =>
  keyBranch s Vx 9 fun _ =>
  keyBranch s Vx 10 fun _ =>
  keyBranch s Vx 11 fun _ =>
  keyBranch s Vx 12 fun _ =>
  keyBranch s Vx 13 fun _ =>
  keyBranch s Vx 14 fun _ =>
  keyBranch s Vx 15 fun _ =>
  some { s with pc := (s.pc + 65534) % 65536 }

/-- Handler `Chip8::OP_Fx15`. -/
def OP_Fx15 (s : Chip8) : Option Chip8 :=
  let Vx := ((s.opcode &&& 0x0F00) >>> 8) % 256
  (s.registers[Vx]?).map fun rx => { s with delayTimer := rx }

/-- Handler `Chip8::OP_Fx18`. -/
def OP_Fx18 (s : Chip8) : Option Chip8 :=
  let Vx := ((s.opcode &&& 0x0F00) >>> 8) % 256
  (s.registers[Vx]?).map fun rx => { s with soundTimer := rx }

/-- Handler `Chip8::OP_Fx1E`: `index += registers[Vx]`. -/
def OP_Fx1E (s : Chip8) : Option Chip8 :=
  let Vx := ((s.opcode &&& 0x0F00) >>> 8) % 256
  (s.registers[Vx]?).map fun rx => { s with index := (s.index + rx) % 65536 }

/-- Handler `Chip8::OP_Fx29`. -/
def OP_Fx29 (s : Chip8) : Option Chip8 :=
  let Vx := ((s.opcode &&& 0x0F00) >>> 8) % 256
  (s.registers[Vx]?).map fun digit =>
    { s with index := (FONTSET_START_ADDRESS + 5 * digit) % 65536 }

/-- Handler `Chip8::OP_Fx33`: ones, tens and hundreds are stored in this order, the
local `value` divided by ten in between. -/
def OP_Fx33 (s : Chip8) : Option Chip8 :=
  let Vx := ((s.opcode &&& 0x0F00) >>> 8) % 256
  (s.registers[Vx]?).bind fun value =>
  (setMem s (s.index + 2) (value % 10)).bind fun s1 =>
  let value1 := (value / 10) % 256
  (setMem s1 (s1.index + 1) (value1 % 10)).bind fun s2 =>
  let value2 := (value1 / 10) % 256
  setMem s2 s2.index (value2 % 10)

/-- Handler `Chip8::OP_Fx55`: `for (i = 0; i <= Vx; ++i) memory[index + i] = registers[i]`. -/
def OP_Fx55 (s : Chip8) : Option Chip8 :=
  let Vx := ((s.opcode &&& 0x0F00) >>> 8) % 256
  forLoop (Vx + 1) (fun i t => (t.registers[i]?).bind fun ri => setMem t (t.index + i) ri) s

/-- Handler `Chip8::OP_Fx65`: `for (i = 0; i <= Vx; ++i) registers[i] = memory[index + i]`. -/
def OP_Fx65 (s : Chip8) : Option Chip8 :=
  let Vx := ((s.opcode &&& 0x0F00) >>> 8) % 256
  forLoop (Vx + 1) (fun i t => (t.memory[t.index + i]?).bind fun mi => setReg t i mi) s

/-- The instruction handlers of `chip8.cpp`. -/
inductive Handler where
  | op00E0 | op00EE | op1nnn | op2nnn | op3xkk | op4xkk | op5xy0 | op6xkk | op7xkk
  | op8xy0 | op8xy1 | op8xy2 | op8xy3 | op8xy4 | op8xy5 | op8xy6 | op8xy7 | op8xyE
  | op9xy0 | opAnnn | opBnnn | opCnnn | opCxkk | opDxyn | opEx9E | opExA1
  | opFx07 | opFx0A | opFx15 | opFx18 | opFx1E | opFx29 | opFx33 | opFx55 | opFx65
deriving DecidableEq, Repr

/-- Running a handler on a state; `rnd` is the byte the random source yields,
used by `OP_Cnnn` and `OP_Cxkk` only. -/
def Handler.run (h : Handler) (rnd : Nat) (s : Chip8) : Option Chip8 :=
  match h with
  | .op00E0 => OP_00E0 s
  | .op00EE => OP_00EE s
  | .op1nnn => OP_1nnn s
  | .op2nnn => OP_2nnn s
  | .op3xkk => OP_3xkk s
  | .op4xkk => OP_4xkk s
  | .op5xy0 => OP_5xy0 s
  | .op6xkk => OP_6xkk s
  | .op7xkk => OP_7xkk s
  | .op8xy0 => OP_8xy0 s
  | .op8xy1 => OP_8xy1 s
  | .op8xy2 => OP_8xy2 s
  | .op8xy3 => OP_8xy3 s
  | .op8xy4 => OP_8xy4 s
  | .op8xy5 => OP_8xy5 s
  | .op8xy6 => OP_8xy6 s
  | .op8xy7 => OP_8xy7 s
  | .op8xyE => OP_8xyE s
  | .op9xy0 => OP_9xy0 s
  | .opAnnn => OP_Annn s
  | .opBnnn => OP_Bnnn s
  | .opCnnn => OP_Cnnn rnd s
  | .opCxkk => OP_Cxkk rnd s
  | .opDxyn => OP_Dxyn s
  | .opEx9E => OP_Ex9E s
  | .opExA1 => OP_ExA1 s
  | .opFx07 => OP_Fx07 s
  | .opFx0A => OP_Fx0A s
  | .opFx15 => OP_Fx15 s
  | .opFx18 => OP_Fx18 s
  | .opFx1E => OP_Fx1E s
  | .opFx29 => OP_Fx29 s
  | .opFx33 => OP_Fx33 s
  | .opFx55 => OP_Fx55 s
  | .opFx65 => OP_Fx65 s

/-! ## Specification vocabulary -/

/-- A component `f` of the machine state that no write to the registers, the
memory, the index register, the program counter, the timers or the framebuffer
changes. -/
structure Untouched {α : Type} (f : Chip8 → α) : Prop where
  registers : ∀ (s : Chip8) (r : List Nat), f { s with registers := r } = f s
  memory : ∀ (s : Chip8) (m : List Nat), f { s with memory := m } = f s
  index : ∀ (s : Chip8) (i : Nat), f { s with index := i } = f s
  pc : ∀ (s : Chip8) (p : Nat), f { s with pc := p } = f s
  delayTimer : ∀ (s : Chip8) (d : Nat), f { s with delayTimer := d } = f s
  soundTimer : ∀ (s : Chip8) (d : Nat), f { s with soundTimer := d } = f s
  video : ∀ (s : Chip8) (v : List Nat), f { s with video := v } = f s

/-- A run of calls: before each call the fetch has left the program counter at
`c.1` and the instruction word `c.2` (a `2NNN` word), then `OP_2nnn` runs. -/
def runCalls (s : Chip8) : List (Nat × Nat) → Option Chip8
  | [] => some s
  | c :: rest => (OP_2nnn { s with pc := c.1, opcode := c.2 }).bind fun t => runCalls t rest

/-- A run of `n` returns `OP_00EE`; the second component lists the program
counter after each return, first return first. -/
def runReturns (s : Chip8) : Nat → Option (Chip8 × List Nat)
  | 0 => some (s, [])
  | n + 1 => (OP_00EE s).bind fun t => (runReturns t n).map fun r => (r.1, t.pc :: r.2)

/-! ## Vocabulary for the sprite draw -/

/-- The linear framebuffer position of sprite pixel `(row, col)` for a sprite
drawn at origin `(xPos, yPos)`, as `OP_Dxyn` computes it. -/
def cellPos (xPos yPos row col : Nat) : Nat := (yPos + row) * VIDEO_WIDTH + (xPos + col)

/-- Toggling a framebuffer cell: `cell ^= 0xFFFFFFFF` on 32 bits. -/
def flipCell (cell : Nat) : Nat := (cell ^^^ 0xFFFFFFFF) % 4294967296

/-- The test `spriteByte & (0x80 >> col)` of `OP_Dxyn` on the sprite byte
`memory[index + row]`. -/
def spriteBit (s : Chip8) (row col : Nat) : Bool :=
  match s.memory[s.index + row]? with
  | some m => decide ((m &&& (0x80 >>> col)) % 256 ≠ 0)
  | none => false

/-- Position `p` is the cell of a set sprite pixel among the first `k` pixels
in drawing order (row by row, eight columns a row). -/
def Hit (s : Chip8) (xPos yPos k p : Nat) : Prop :=
  ∃ i j, j < 8 ∧ 8 * i + j < k ∧ spriteBit s i j = true ∧ p = cellPos xPos yPos i j

/-- One of the first `k` sprite pixels in drawing order is set and its cell is
on (`0xFFFFFFFF`) in the framebuffer of `s`. -/
def Collides (s : Chip8) (xPos yPos k : Nat) : Prop :=
  ∃ i j, j < 8 ∧ 8 * i + j < k ∧ spriteBit s i j = true ∧
    s.video[cellPos xPos yPos i j]? = some 0xFFFFFFFF

/-- State `t` is state `s0` after the first `k` sprite pixels have been drawn:
the cells of the set pixels are toggled, the other cells are as before, and
`V[0xF]` has been set to 1 exactly when one of the toggled cells was on. -/
structure Drawn (s0 : Chip8) (xPos yPos k : Nat) (t : Chip8) : Prop where
  memory_eq : t.memory = s0.memory
  index_eq : t.index = s0.index
  opcode_eq : t.opcode = s0.opcode
  video_length : t.video.length = s0.video.length
  video_hit : ∀ p, Hit s0 xPos yPos k p → t.video[p]? = (s0.video[p]?).map flipCell
  video_miss : ∀ p, ¬ Hit s0 xPos yPos k p → t.video[p]? = s0.video[p]?
  registers_hit : Collides s0 xPos yPos k → t.registers = s0.registers.set 0xF 1
  registers_miss : ¬ Collides s0 xPos yPos k → t.registers = s0.registers

/-! ## States used as concrete inputs -/

/-- A machine with every cell zero, the program counter at `START_ADDRESS`. -/
def zeroState : Chip8 :=
  { registers := List.replicate 16 0
    memory := List.replicate 4096 0
    index := 0
    pc := START_ADDRESS
    stack := List.replicate 16 0
    sp := 0
    delayTimer := 0
    soundTimer := 0
    keypad := List.replicate 16 false
    video := List.replicate 2048 0
    opcode := 0 }

/-- A machine whose register 2 holds 100 and register 3 holds 250. -/
def addInput : Chip8 :=
  { zeroState with registers := [7, 0, 100, 250, 0, 0, 0, 0, 0, 0, 0, 0, 0, 0, 0, 9] }

/-- The state on which `6F02` then `8F04` is run: every register is zero. -/
def flagTargetInput : Chip8 := { zeroState with opcode := 0x6F02 }

/-- The state on which `80F5` is run: `V[0] = 5`, `V[0xF] = 3`. -/
def subFlagSourceInput : Chip8 :=
  { zeroState with
    registers := [5, 0, 0, 0, 0, 0, 0, 0, 0, 0, 0, 0, 0, 0, 0, 3], opcode := 0x80F5 }

/-- The state on which `8F05` is run: `V[0xF] = 9`, `V[0] = 3`. -/
def subFlagTargetInput : Chip8 :=
  { zeroState with
    registers := [3, 0, 0, 0, 0, 0, 0, 0, 0, 0, 0, 0, 0, 0, 0, 9], opcode := 0x8F05 }

/-- The state on which `D125` is run: sixteen registers, all zero. -/
def drawBadIndexInput : Chip8 := { zeroState with opcode := 0xD125 }

/-- The state on which `F333` is run: `V[3] = 205`, `index = 0x300`. -/
def bcdInput : Chip8 :=
  { zeroState with
    registers := [0, 0, 0, 205, 0, 0, 0, 0, 0, 0, 0, 0, 0, 0, 0, 0]
    index := 0x300
    opcode := 0xF333 }

/-- Three nested calls: the program counter after each fetch and the `2NNN` word. -/
def sampleCalls : List (Nat × Nat) := [(0x202, 0x2300), (0x302, 0x2400), (0x402, 0x2500)]

/-- A full stack: the stack pointer is 16 and the word to run is `2300`. -/
def stackFullInput : Chip8 := { zeroState with sp := 16, opcode := 0x2300 }

/-- The state on which the skips are run: the word is `3264` (X = 2, Y = 6,
KK = 0x64 = 100), `V[2] = 100`, `V[6] = 0`, and the fetch has advanced the
program counter from 0x1FE to 0x200. -/
def skipInput : Chip8 := { addInput with opcode := 0x3264 }

/-- The state of the spec's drawing scenario: the glyph of digit 0
(`F0 90 90 90 F0`) at address 0x50, `index = 0x50`, every register zero, a
blank framebuffer, and the word `D015` (X = 0, Y = 1, N = 5). -/
def glyphInput : Chip8 :=
  { zeroState with
    memory := List.replicate 0x50 0 ++ [0xF0, 0x90, 0x90, 0x90, 0xF0] ++ List.replicate 4011 0
    index := 0x50
    opcode := 0xD015 }

/-! ## Write footprints -/

/-- The data members of the machine that instruction handlers write (no handler
writes the keypad or the instruction word). -/
inductive Field where
  | registers | memory | index | pc | stack | sp | delayTimer | soundTimer | video
deriving DecidableEq, Repr

/-- The data members each handler of `chip8.cpp` assigns to. -/
def Handler.footprint : Handler → List Field
  | .op00E0 => [.video]
  | .op00EE => [.sp, .pc]
  | .op1nnn => [.pc]
  | .op2nnn => [.stack, .sp, .pc]
  | .op3xkk => [.pc]
  | .op4xkk => [.pc]
  | .op5xy0 => [.pc]
  | .op6xkk => [.registers]
  | .op7xkk => [.registers]
  | .op8xy0 => [.registers]
  | .op8xy1 => [.registers]
  | .op8xy2 => [.registers]
  | .op8xy3 => [.registers]
  | .op8xy4 => [.registers]
  | .op8xy5 => [.registers]
  | .op8xy6 => [.registers]
  | .op8xy7 => [.registers]
  | .op8xyE => [.registers]
  | .op9xy0 => [.pc]
  | .opAnnn => [.index]
  | .opBnnn => [.pc]
  | .opCnnn => [.registers]
  | .opCxkk => [.registers]
  | .opDxyn => [.registers, .video]
  | .opEx9E => [.pc]
  | .opExA1 => [.pc]
  | .opFx07 => [.registers]
  | .opFx0A => [.registers, .pc]
  | .opFx15 => [.delayTimer]
  | .opFx18 => [.soundTimer]
  | .opFx1E => [.index]
  | .opFx29 => [.index]
  | .opFx33 => [.memory]
  | .opFx55 => [.memory]
  | .opFx65 => [.registers]

/-- A component `f` of the machine state that writes to the data members listed
in `W` do not change. -/
structure Ignores {α : Type} (f : Chip8 → α) (W : List Field) : Prop where
  registers : Field.registers ∈ W →
    ∀ (s : Chip8) (r : List Nat), f { s with registers := r } = f s
  memory : Field.memory ∈ W → ∀ (s : Chip8) (m : List Nat), f { s with memory := m } = f s
  index : Field.index ∈ W → ∀ (s : Chip8) (i : Nat), f { s with index := i } = f s
  pc : Field.pc ∈ W → ∀ (s : Chip8) (p : Nat), f { s with pc := p } = f s
  stack : Field.stack ∈ W → ∀ (s : Chip8) (k : List Nat), f { s with stack := k } = f s
  sp : Field.sp ∈ W → ∀ (s : Chip8) (p : Nat), f { s with sp := p } = f s
  delayTimer : Field.delayTimer ∈ W →
    ∀ (s : Chip8) (d : Nat), f { s with delayTimer := d } = f s
  soundTimer : Field.soundTimer ∈ W →
    ∀ (s : Chip8) (d : Nat), f { s with soundTimer := d } = f s
  video : Field.video ∈ W → ∀ (s : Chip8) (v : List Nat), f { s with video := v } = f s

/-- Every data member a handler may write. -/
def allFields : List Field :=
  [.registers, .memory, .index, .pc, .stack, .sp, .delayTimer, .soundTimer, .video]

/-- The data members other than the program counter. -/
def dataFields : List Field :=
  [.registers, .memory, .index, .stack, .sp, .delayTimer, .soundTimer, .video]

/-- The data members other than the framebuffer. -/
def nonVideoFields : List Field :=
  [.registers, .memory, .index, .pc, .stack, .sp, .delayTimer, .soundTimer]

/-- The jump, call, return and conditional-skip handlers. -/
def controlFlowHandlers : List Handler :=
  [.op1nnn, .opBnnn, .op2nnn, .op00EE, .op3xkk, .op4xkk, .op5xy0, .op9xy0, .opEx9E, .opExA1]

/-- The handlers that access no array but the registers, each at an index taken
from a nibble of the instruction word or at 0xF (`OP_00E0` clears the whole
framebuffer). -/
def registerHandlers : List Handler :=
  [.op00E0, .op6xkk, .op7xkk, .op8xy0, .op8xy1, .op8xy2, .op8xy3, .op8xy4, .op8xy5,
   .op8xy6, .op8xy7, .op8xyE, .opAnnn, .opCnnn, .opCxkk, .opFx07, .opFx15, .opFx18,
   .opFx1E, .opFx29]

/-- The state on which `F30A` is run with no key pressed; the fetch has advanced
the program counter from 0x1FE to 0x200. -/
def keyWaitInput : Chip8 := { zeroState with opcode := 0xF30A }

/-- The state on which `F30A` is run with keys 5 and 9 pressed. -/
def keyPressedInput : Chip8 :=
  { zeroState with
    keypad := [false, false, false, false, false, true, false, false, false, true, false,
      false, false, false, false, false]
    opcode := 0xF30A }

/-- The state on which `7105` is run: `V[1] = 0`. -/
def addImmediateInput : Chip8 := { addInput with opcode := 0x7105 }

/-- The state on which `8237` is run: `V[2] = 100`, `V[3] = 250`. -/
def subnInput : Chip8 := { addInput with opcode := 0x8237 }

/-- The state on which `80F7` is run: `V[0] = 5`, `V[0xF] = 9`. -/
def subnFlagSourceInput : Chip8 :=
  { zeroState with
    registers := [5, 0, 0, 0, 0, 0, 0, 0, 0, 0, 0, 0, 0, 0, 0, 9], opcode := 0x80F7 }

/-- The state on which `8F07` is run: `V[0xF] = 3`, `V[0] = 9`. -/
def subnFlagTargetInput : Chip8 :=
  { zeroState with
    registers := [9, 0, 0, 0, 0, 0, 0, 0, 0, 0, 0, 0, 0, 0, 0, 3], opcode := 0x8F07 }

/-- The state on which the shifts are run on register 0, which holds 7. -/
def shiftInput : Chip8 := addInput

/-- The state on which `F329` is run: `V[3] = 250`. -/
def fontInput : Chip8 := { addInput with opcode := 0xF329 }


/-- The state on which `D011` is run at the right edge: `V[0] = 60`,
`V[1] = 0`, the sprite byte `0xFF` at address 0, `index = 0`, a blank
framebuffer. -/
def wrapInput : Chip8 :=
  { zeroState with
    registers := [60, 0, 0, 0, 0, 0, 0, 0, 0, 0, 0, 0, 0, 0, 0, 0]
    memory := 0xFF :: List.replicate 4095 0
    opcode := 0xD011 }

/-- The state on which `D01F` is run at the bottom edge: `V[0] = 0`,
`V[1] = 31`, every memory byte `0x80`, `index = 0`. -/
def edgeInput : Chip8 :=
  { zeroState with
    registers := [0, 31, 0, 0, 0, 0, 0, 0, 0, 0, 0, 0, 0, 0, 0, 0]
    memory := List.replicate 4096 0x80
    opcode := 0xD01F }

theorem and_shl_shr (x m k : Nat) : (x &&& (m <<< k)) >>> k = (x >>> k) &&& m := by
  apply Nat.eq_of_testBit_eq
  intro i
  simp [Nat.testBit_shiftRight, Nat.testBit_shiftLeft]

theorem fieldX_eq (op : Nat) : ((op &&& 0x0F00) >>> 8) % 256 = op / 256 % 16 := by
  have h : (0x0F00 : Nat) = 15 <<< 8 := by decide
  rw [h, and_shl_shr, Nat.shiftRight_eq_div_pow]
  have h2 := Nat.and_pow_two_sub_one_eq_mod (op / 2 ^ 8) 4
  norm_num at h2 ⊢
  rw [h2]
  omega

theorem fieldY_eq (op : Nat) : ((op &&& 0x00F0) >>> 4) % 256 = op / 16 % 16 := by
  have h : (0x00F0 : Nat) = 15 <<< 4 := by decide
  rw [h, and_shl_shr, Nat.shiftRight_eq_div_pow]
  have h2 := Nat.and_pow_two_sub_one_eq_mod (op / 2 ^ 4) 4
  norm_num at h2 ⊢
  rw [h2]
  omega

theorem dxynVy_eq (op : Nat) : dxynVy op = op / 16 % 256 := by
  have h : (0x0FF0 : Nat) = 255 <<< 4 := by decide
  unfold dxynVy
  rw [h, and_shl_shr, Nat.shiftRight_eq_div_pow]
  have h2 := Nat.and_pow_two_sub_one_eq_mod (op / 2 ^ 4) 8
  norm_num at h2 ⊢
  rw [h2]
  omega

theorem fieldKK_eq (op : Nat) : (op &&& 0x00FF) % 256 = op % 256 := by
  have h2 := Nat.and_pow_two_sub_one_eq_mod op 8
  norm_num at h2 ⊢
  rw [h2]
  omega

theorem fieldN_eq (op : Nat) : (op &&& 0x000F) % 256 = op % 16 := by
  have h2 := Nat.and_pow_two_sub_one_eq_mod op 4
  norm_num at h2 ⊢
  rw [h2]
  omega

theorem fieldNNN_eq (op : Nat) : op &&& 0x0FFF = op % 4096 := by
  have h2 := Nat.and_pow_two_sub_one_eq_mod op 12
  norm_num at h2 ⊢
  rw [h2]

/-! ## Array reads and writes -/

theorem writeAt_of_lt {α : Type} (a : List α) (i : Nat) (v : α) (h : i < a.length) :
    writeAt a i v = some (a.set i v) := by
  simp [writeAt, h]

theorem setReg_of_lt (s : Chip8) (i v : Nat) (h : i < s.registers.length) :
    setReg s i v = some { s with registers := s.registers.set i v } := by
  simp [setReg, writeAt, h]

theorem setMem_of_lt (s : Chip8) (i v : Nat) (h : i < s.memory.length) :
    setMem s i v = some { s with memory := s.memory.set i v } := by
  simp [setMem, writeAt, h]

theorem read_of_lt {α : Type} (a : List α) (i : Nat) (h : i < a.length) :
    ∃ v, a[i]? = some v :=
  ⟨a[i], List.getElem?_eq_getElem h⟩

theorem Chip8.WF.reg_byte {s : Chip8} (hs : s.WF) {i v : Nat}
    (h : s.registers[i]? = some v) : v < 256 :=
  hs.registers_byte v (List.getElem?_mem h)

theorem zeroState_wf : zeroState.WF where
  registers_length := List.length_replicate 16 0
  registers_byte := fun v hv => by rw [List.eq_of_mem_replicate hv]; decide
  memory_length := List.length_replicate 4096 0
  memory_byte := fun v hv => by rw [List.eq_of_mem_replicate hv]; decide
  index_lt := by decide
  pc_lt := by decide
  stack_length := List.length_replicate 16 0
  stack_word := fun v hv => by rw [List.eq_of_mem_replicate hv]; decide
  sp_lt := by decide
  delayTimer_lt := by decide
  soundTimer_lt := by decide
  keypad_length := List.length_replicate 16 false
  video_length := List.length_replicate 2048 0
  video_word := fun v hv => by rw [List.eq_of_mem_replicate hv]; decide
  opcode_lt := by decide

theorem Chip8.WF.with_registers {s : Chip8} (hs : s.WF) (r : List Nat) (hl : r.length = 16)
    (hb : ∀ v ∈ r, v < 256) : Chip8.WF { s with registers := r } :=
  ⟨hl, hb, hs.memory_length, hs.memory_byte, hs.index_lt, hs.pc_lt, hs.stack_length,
    hs.stack_word, hs.sp_lt, hs.delayTimer_lt, hs.soundTimer_lt, hs.keypad_length,
    hs.video_length, hs.video_word, hs.opcode_lt⟩

theorem Chip8.WF.with_opcode {s : Chip8} (hs : s.WF) (w : Nat) (hw : w < 65536) :
    Chip8.WF { s with opcode := w } :=
  ⟨hs.registers_length, hs.registers_byte, hs.memory_length, hs.memory_byte, hs.index_lt,
    hs.pc_lt, hs.stack_length, hs.stack_word, hs.sp_lt, hs.delayTimer_lt, hs.soundTimer_lt,
    hs.keypad_length, hs.video_length, hs.video_word, hw⟩

theorem addInput_wf : addInput.WF :=
  zeroState_wf.with_registers _ (by decide) (by decide)

theorem sub8_cast (a b : Nat) : ((sub8 a b : Nat) : Int) = ((a : Int) - (b : Int)) % 256 := by
  unfold sub8
  exact Int.toNat_of_nonneg (Int.emod_nonneg _ (by decide))

/-! ## C1: `6XKK` then `8XY4` -/

/-- C1 (as amended): for every register index X and Y in 0..15 and all bytes a, b,
running `OP_6xkk` with KK = a on register X and then `OP_8xy4` with V[Y] = b
leaves V[X] = (a + b) mod 256, and, when X is not 0xF, leaves V[0xF] = 1 if
a + b > 255 and V[0xF] = 0 otherwise. -/
theorem C1_load_then_add (s : Chip8) (hs : s.WF) (X Y a : Nat) (hX : X < 16) (hY : Y < 16)
    (ha : a < 256) :
    ∃ s1, OP_6xkk { s with opcode := 0x6000 + 256 * X + a } = some s1 ∧
      s1.registers = s.registers.set X a ∧
      ∀ b, s1.registers[Y]? = some b →
        ∃ s2, OP_8xy4 { s1 with opcode := 0x8004 + 256 * X + 16 * Y } = some s2 ∧
          s2.registers[X]? = some ((a + b) % 256) ∧
          (X ≠ 0xF → s2.registers[0xF]? = some (if a + b > 255 then 1 else 0)) := by
  have hlen := hs.registers_length
  have e1 : (0x6000 + 256 * X + a) / 256 % 16 = X := by omega
  have e2 : (0x6000 + 256 * X + a) % 256 = a := by omega
  have e3 : (0x8004 + 256 * X + 16 * Y) / 256 % 16 = X := by omega
  have e4 : (0x8004 + 256 * X + 16 * Y) / 16 % 16 = Y := by omega
  refine ⟨{ s with opcode := 0x6000 + 256 * X + a, registers := s.registers.set X a }, ?_,
    rfl, ?_⟩
  · simp [OP_6xkk, fieldX_eq, fieldKK_eq, e1, e2, setReg, writeAt, hlen]
    omega
  · intro b hb
    have hb256 : b < 256 := by
      simp only [List.getElem?_set] at hb
      split at hb
      · split at hb
        · cases hb; exact ha
        · cases hb
      · exact hs.reg_byte hb
    have hXa : (s.registers.set X a)[X]? = some a := by
      rw [List.getElem?_set_self (by omega)]
    simp only [OP_8xy4, fieldX_eq, fieldY_eq, e3, e4, hXa, hb, Option.some_bind]
    have hsum : (a + b) % 65536 = a + b := by omega
    have hand : ((a + b) &&& 0xFF) % 256 = (a + b) % 256 := by
      have := fieldKK_eq (a + b)
      simpa using this
    rw [hsum, hand]
    have h15 : 15 < s.registers.length := by omega
    have hXl : X < s.registers.length := by omega
    by_cases hc : a + b > 255
    · rw [if_pos hc, setReg_of_lt _ _ _ (by simpa using h15), Option.some_bind,
        setReg_of_lt _ _ _ (by simpa using hXl)]
      refine ⟨_, rfl, ?_, ?_⟩
      · simp [List.getElem?_set, hXl]
      · intro hne
        simp [List.getElem?_set, hXl, h15, hc, hne, Ne.symm hne]
    · rw [if_neg hc, setReg_of_lt _ _ _ (by simpa using h15), Option.some_bind,
        setReg_of_lt _ _ _ (by simpa using hXl)]
      refine ⟨_, rfl, ?_, ?_⟩
      · simp [List.getElem?_set, hXl]
      · intro hne
        simp [List.getElem?_set, hXl, h15, hc, hne, Ne.symm hne]

/-- C1, a concrete instance: `61C8` loads 200 into V[1], then `8124` adds
V[2] = 100; the result is V[1] = 44 with the carry flag V[0xF] = 1. -/
theorem C1_load_then_add_witness :
    addInput.WF ∧
    ∃ s1 s2, OP_6xkk { addInput with opcode := 0x61C8 } = some s1 ∧
      s1.registers[2]? = some 100 ∧
      OP_8xy4 { s1 with opcode := 0x8124 } = some s2 ∧
      s2.registers[1]? = some 44 ∧ s2.registers[0xF]? = some 1 := by
  obtain ⟨s1, h1, hr, h⟩ :=
    C1_load_then_add addInput addInput_wf 1 2 200 (by decide) (by decide) (by decide)
  have hb : s1.registers[2]? = some 100 := by rw [hr]; decide
  obtain ⟨s2, h2, hv, hf⟩ := h 100 hb
  exact ⟨addInput_wf, s1, s2, h1, hb, h2, hv, hf (by decide)⟩

/-- C1 as stated fails for X = 0xF: `6F02` then `8F04` with V[0] = 0 leaves
V[0xF] = 2, the low byte of the sum, although 2 + 0 does not exceed 255. -/
theorem C1_flag_overwritten_counterexample :
    flagTargetInput.registers[0]? = some 0 ∧
    ((OP_6xkk flagTargetInput).bind fun s1 => OP_8xy4 { s1 with opcode := 0x8F04 }).map
        (fun s2 => s2.registers[0xF]?) = some (some 2) ∧
    ¬ (2 + 0 > 255) := by
  decide

/-! ## C2: `8XY5` -/

/-- C2 (as amended): for every X in 0..14 and Y in 0..15, with a = V[X] and
b = V[Y] before the instruction, `OP_8xy5` leaves V[0xF] = 1 if and only if
a > b (and 0 otherwise), and, when Y is not 0xF, leaves V[X] = (a - b) mod 256. -/
theorem C2_sub (s : Chip8) (hs : s.WF) (X Y a b : Nat) (hX : X < 15) (hY : Y < 16)
    (hop : s.opcode = 0x8005 + 256 * X + 16 * Y)
    (ha : s.registers[X]? = some a) (hb : s.registers[Y]? = some b) :
    ∃ t, OP_8xy5 s = some t ∧
      (t.registers[0xF]? = some 1 ↔ a > b) ∧
      t.registers[0xF]? = some (if a > b then 1 else 0) ∧
      (Y ≠ 0xF → ∃ v : Nat, t.registers[X]? = some v ∧
        (v : Int) = ((a : Int) - (b : Int)) % 256) := by
  have hlen := hs.registers_length
  have e3 : (0x8005 + 256 * X + 16 * Y) / 256 % 16 = X := by omega
  have e4 : (0x8005 + 256 * X + 16 * Y) / 16 % 16 = Y := by omega
  have h15 : 15 < s.registers.length := by omega
  have hXl : X < s.registers.length := by omega
  have hne : (15 : Nat) ≠ X := by omega
  obtain ⟨f, hf⟩ : ∃ f, f = (if a > b then 1 else 0 : Nat) := ⟨_, rfl⟩
  have hflag : (if a > b then setReg s 0xF 1 else setReg s 0xF 0) =
      some { s with registers := s.registers.set 0xF f } := by
    by_cases hc : a > b
    · rw [if_pos hc, setReg_of_lt _ _ _ h15, hf, if_pos hc]
    · rw [if_neg hc, setReg_of_lt _ _ _ h15, hf, if_neg hc]
  have hX1 : (s.registers.set 0xF f)[X]? = some a := by
    rw [List.getElem?_set_ne hne]; exact ha
  obtain ⟨b1, hb1, hb1Y⟩ :
      ∃ b1, (s.registers.set 0xF f)[Y]? = some b1 ∧ (Y ≠ 0xF → b1 = b) := by
    by_cases hYF : Y = 0xF
    · subst hYF
      exact ⟨f, List.getElem?_set_self h15, fun h => absurd rfl h⟩
    · refine ⟨b, ?_, fun _ => rfl⟩
      rw [List.getElem?_set_ne (Ne.symm hYF)]; exact hb
  simp only [OP_8xy5, hop, fieldX_eq, fieldY_eq, e3, e4]
  rw [ha, hb]
  simp only [Option.some_bind, hflag, hX1, hb1]
  rw [setReg_of_lt _ _ _ (by simpa using hXl)]
  have hF : ((s.registers.set 0xF f).set X (sub8 a b1))[0xF]? = some f := by
    rw [List.getElem?_set_ne (Ne.symm hne), List.getElem?_set_self h15]
  refine ⟨_, rfl, ?_, ?_, ?_⟩
  · show ((s.registers.set 0xF f).set X (sub8 a b1))[0xF]? = some 1 ↔ a > b
    rw [hF, hf]
    by_cases hc : a > b <;> simp [hc]
  · show ((s.registers.set 0xF f).set X (sub8 a b1))[0xF]? = _
    rw [hF, hf]
  · intro hYF
    refine ⟨sub8 a b1, ?_, ?_⟩
    · show ((s.registers.set 0xF f).set X (sub8 a b1))[X]? = _
      exact List.getElem?_set_self (by simpa using hXl)
    · rw [hb1Y hYF]; exact sub8_cast a b

/-- C2, a concrete instance: `8235` with V[2] = 100 and V[3] = 250 borrows, so
V[0xF] = 0 and V[2] = 106 = (100 - 250) mod 256. -/
theorem C2_sub_witness :
    (Chip8.WF { addInput with opcode := 0x8235 }) ∧
    ∃ t, OP_8xy5 { addInput with opcode := 0x8235 } = some t ∧
      t.registers[0xF]? = some 0 ∧ t.registers[2]? = some 106 := by
  obtain ⟨t, ht, -, hf, hv⟩ :=
    C2_sub { addInput with opcode := 0x8235 } (addInput_wf.with_opcode _ (by decide))
      2 3 100 250 (by decide) (by decide) (by decide) (by decide) (by decide)
  obtain ⟨v, hv1, hv2⟩ := hv (by decide)
  have hmod : (((100 : Nat) : Int) - ((250 : Nat) : Int)) % 256 = 106 := by decide
  have hv3 : v = 106 := by omega
  exact ⟨addInput_wf.with_opcode _ (by decide), t, ht, hf, hv3 ▸ hv1⟩

/-- C2 as stated fails when one of the two registers is V[0xF].  With Y = 0xF
(`80F5`, V[0] = 5, V[0xF] = 3) the subtraction reads the flag just written and
leaves V[0] = 4, not 2.  With X = 0xF (`8F05`, V[0xF] = 9, V[0] = 3) the
difference overwrites the flag and leaves V[0xF] = 254, neither the flag 1 nor
the difference 6. -/
theorem C2_flag_register_counterexample :
    ((OP_8xy5 subFlagSourceInput).map fun t => t.registers[0]?) = some (some 4) ∧
    (((5 : Nat) : Int) - ((3 : Nat) : Int)) % 256 ≠ ((4 : Nat) : Int) ∧
    ((OP_8xy5 subFlagTargetInput).map fun t => t.registers[0xF]?) = some (some 254) ∧
    (9 > 3) ∧ (((9 : Nat) : Int) - ((3 : Nat) : Int)) % 256 ≠ ((254 : Nat) : Int) := by
  decide

/-! ## C3: the sprite origin of `DXYN` -/

/-- C3: the register index that `OP_Dxyn` uses for the vertical coordinate is
`(opcode & 0x0FF0) >> 4`, that is 16 * X + Y, not Y.  For `D125` (X = 1, Y = 2)
it is 0x12 = 18, outside the sixteen registers, so the handler has no defined
result, while bits 4-7 of the opcode are 2. -/
theorem C3_dxyn_vertical_register_index :
    dxynVy 0xD125 = 0x12 ∧ (0xD125 / 16) % 16 = 2 ∧
    drawBadIndexInput.registers.length = 16 ∧
    dxynOrigin drawBadIndexInput = none ∧ OP_Dxyn drawBadIndexInput = none := by
  decide

/-! ## Loops and frames -/

theorem forLoop_inv {σ : Type} (body : Nat → σ → Option σ) (init : σ) (n : Nat)
    (Inv : Nat → σ → Prop) (h0 : Inv 0 init)
    (hstep : ∀ k t, k < n → Inv k t → ∃ t', body k t = some t' ∧ Inv (k + 1) t') :
    ∃ t, forLoop n body init = some t ∧ Inv n t := by
  induction n with
  | zero => exact ⟨init, rfl, h0⟩
  | succ m ih =>
    obtain ⟨t, ht, hinv⟩ := ih (fun k t hk => hstep k t (by omega))
    obtain ⟨t', ht', hinv'⟩ := hstep m t (by omega) hinv
    exact ⟨t', by simp [forLoop, ht, ht'], hinv'⟩

theorem forLoop_preserves {σ : Type} (body : Nat → σ → Option σ) (P : σ → Prop)
    (hbody : ∀ i t t', P t → body i t = some t' → P t') (n : Nat) (init t : σ)
    (h0 : P init) (h : forLoop n body init = some t) : P t := by
  induction n generalizing t with
  | zero =>
    simp only [forLoop, Option.some.injEq] at h
    exact h ▸ h0
  | succ m ih =>
    simp only [forLoop, Option.bind_eq_some] at h
    obtain ⟨u, hu, hb⟩ := h
    exact hbody m u t (ih u hu) hb

theorem set_of_getElem? {α : Type} (l : List α) (i : Nat) (v : α) (h : l[i]? = some v) :
    l.set i v = l := by
  apply List.ext_getElem?
  intro j
  rw [List.getElem?_set]
  by_cases hij : i = j
  · subst hij
    obtain ⟨hlt, _⟩ := List.getElem?_eq_some.mp h
    simp [hlt, h]
  · simp [hij]

theorem setReg_some {s t : Chip8} {i v : Nat} (h : setReg s i v = some t) :
    t = { s with registers := s.registers.set i v } := by
  unfold setReg writeAt at h
  split at h
  · simp only [Option.map_some', Option.some.injEq] at h
    exact h.symm
  · simp only [Option.map_none', reduceCtorEq] at h

theorem setMem_some {s t : Chip8} {i v : Nat} (h : setMem s i v = some t) :
    t = { s with memory := s.memory.set i v } := by
  unfold setMem writeAt at h
  split at h
  · simp only [Option.map_some', Option.some.injEq] at h
    exact h.symm
  · simp only [Option.map_none', reduceCtorEq] at h

theorem of_bind {α β : Type} {P : β → Prop} {o : Option α} {f : α → Option β}
    (hf : ∀ a b, f a = some b → P b) {b : β} (h : o.bind f = some b) : P b := by
  simp only [Option.bind_eq_some] at h
  obtain ⟨a, -, ha⟩ := h
  exact hf a b ha

theorem of_map {α β : Type} {P : β → Prop} {o : Option α} {f : α → β}
    (hf : ∀ a, P (f a)) {b : β} (h : o.map f = some b) : P b := by
  simp only [Option.map_eq_some'] at h
  obtain ⟨a, -, rfl⟩ := h
  exact hf a

theorem Untouched.setReg {α : Type} {f : Chip8 → α} (hf : Untouched f)
    {s t : Chip8} {i v : Nat}
    (h : setReg s i v = some t) : f t = f s := by
  rw [setReg_some h]; exact hf.registers _ _

theorem Untouched.setMem {α : Type} {f : Chip8 → α} (hf : Untouched f)
    {s t : Chip8} {i v : Nat}
    (h : setMem s i v = some t) : f t = f s := by
  rw [setMem_some h]; exact hf.memory _ _

theorem Untouched.skip {α : Type} {f : Chip8 → α} (hf : Untouched f)
    (s : Chip8) (c : Prop) [Decidable c] :
    f (if c then { s with pc := (s.pc + 2) % 65536 } else s) = f s := by
  split
  · exact hf.pc _ _
  · rfl

theorem Untouched.flag {α : Type} {f : Chip8 → α} (hf : Untouched f)
    {s t : Chip8} (c : Prop) [Decidable c]
    (h : (if c then Chip8Emu.setReg s 0xF 1 else Chip8Emu.setReg s 0xF 0) = some t) :
    f t = f s := by
  split at h <;> exact hf.setReg h

theorem Untouched.seq {α : Type} {f : Chip8 → α} (_hf : Untouched f)
    {s t : Chip8} {x : Option Chip8}
    {g : Chip8 → Option Chip8} (hx : ∀ u, x = some u → f u = f s)
    (hg : ∀ u v, g u = some v → f v = f u) (h : x.bind g = some t) : f t = f s := by
  simp only [Option.bind_eq_some] at h
  obtain ⟨u, hu, ht⟩ := h
  exact (hg u t ht).trans (hx u hu)

theorem Untouched.drawPixel {α : Type} {f : Chip8 → α} (hf : Untouched f)
    {xPos yPos row b col : Nat} {s t : Chip8}
    (h : drawPixel xPos yPos row b col s = some t) : f t = f s := by
  simp only [Chip8Emu.drawPixel] at h
  by_cases hp : (b &&& (0x80 >>> col)) % 256 ≠ 0
  · rw [if_pos hp] at h
    simp only [Option.bind_eq_some, Option.map_eq_some'] at h
    obtain ⟨cell, -, s1, h1, vid, -, rfl⟩ := h
    refine (hf.video _ _).trans ?_
    by_cases hc : cell = 0xFFFFFFFF
    · rw [if_pos hc] at h1
      exact hf.setReg h1
    · rw [if_neg hc] at h1
      cases h1; rfl
  · rw [if_neg hp] at h
    cases h; rfl

theorem Untouched.drawRow {α : Type} {f : Chip8 → α} (hf : Untouched f)
    {xPos yPos row : Nat} {s t : Chip8}
    (h : drawRow xPos yPos row s = some t) : f t = f s := by
  simp only [Chip8Emu.drawRow] at h
  refine of_bind (P := fun u => f u = f s) (fun b u hb => ?_) h
  exact forLoop_preserves _ (fun u => f u = f s)
    (fun i u u' hu hu' => (hf.drawPixel hu').trans hu) 8 s u rfl hb

theorem Untouched.keyBranch {α : Type} {f : Chip8 → α} (hf : Untouched f)
    {s t : Chip8}
    {Vx k : Nat} {rest : Unit → Option Chip8}
    (hrest : ∀ u, rest () = some u → f u = f s) (h : keyBranch s Vx k rest = some t) :
    f t = f s := by
  simp only [Chip8Emu.keyBranch] at h
  refine of_bind (P := fun u => f u = f s) (fun p u hp => ?_) h
  split at hp
  · exact hf.setReg hp
  · exact hrest u hp

theorem Untouched.run {α : Type} {f : Chip8 → α} (hf : Untouched f)
    (h : Handler) (rnd : Nat)
    (s t : Chip8) (h2 : h ≠ .op2nnn) (hE : h ≠ .op00EE) (hrun : h.run rnd s = some t) :
    f t = f s := by
  cases h <;> simp only [Handler.run] at hrun
  case op2nnn => exact absurd rfl h2
  case op00EE => exact absurd rfl hE
  case op00E0 =>
    simp only [OP_00E0, Option.some.injEq] at hrun
    rw [← hrun]; exact hf.video _ _
  case op1nnn =>
    simp only [OP_1nnn, Option.some.injEq] at hrun
    rw [← hrun]; exact hf.pc _ _
  case op3xkk =>
    simp only [OP_3xkk] at hrun
    exact of_map (P := fun u => f u = f s) (fun rx => hf.skip s _) hrun
  case op4xkk =>
    simp only [OP_4xkk] at hrun
    exact of_map (P := fun u => f u = f s) (fun rx => hf.skip s _) hrun
  case op5xy0 =>
    simp only [OP_5xy0] at hrun
    exact of_bind (P := fun u => f u = f s)
      (fun rx u h => of_map (P := fun u => f u = f s) (fun ry => hf.skip s _) h) hrun
  case op6xkk =>
    simp only [OP_6xkk] at hrun
    exact hf.setReg hrun
  case op7xkk =>
    simp only [OP_7xkk] at hrun
    exact of_bind (P := fun u => f u = f s) (fun rx u h => hf.setReg h) hrun
  case op8xy0 =>
    simp only [OP_8xy0] at hrun
    exact of_bind (P := fun u => f u = f s) (fun rx u h => hf.setReg h) hrun
  case op8xy1 =>
    simp only [OP_8xy1] at hrun
    exact of_bind (P := fun u => f u = f s)
      (fun rx u h => of_bind (P := fun u => f u = f s) (fun ry u h => hf.setReg h) h) hrun
  case op8xy2 =>
    simp only [OP_8xy2] at hrun
    exact of_bind (P := fun u => f u = f s)
      (fun rx u h => of_bind (P := fun u => f u = f s) (fun ry u h => hf.setReg h) h) hrun
  case op8xy3 =>
    simp only [OP_8xy3] at hrun
    exact of_bind (P := fun u => f u = f s)
      (fun rx u h => of_bind (P := fun u => f u = f s) (fun ry u h => hf.setReg h) h) hrun
  case op8xy4 =>
    simp only [OP_8xy4] at hrun
    refine of_bind (P := fun u => f u = f s) (fun rx u h => ?_) hrun
    refine of_bind (P := fun u => f u = f s) (fun ry u h => ?_) h
    exact hf.seq (fun u hu => hf.flag _ hu) (fun u v hv => hf.setReg hv) h
  case op8xy5 =>
    simp only [OP_8xy5] at hrun
    refine of_bind (P := fun u => f u = f s) (fun rx u h => ?_) hrun
    refine of_bind (P := fun u => f u = f s) (fun ry u h => ?_) h
    refine hf.seq (fun u hu => hf.flag _ hu) (fun u v hv => ?_) h
    refine of_bind (P := fun w => f w = f u) (fun rx1 w h => ?_) hv
    exact of_bind (P := fun w => f w = f u) (fun ry1 w h => hf.setReg h) h
  case op8xy6 =>
    simp only [OP_8xy6] at hrun
    refine of_bind (P := fun u => f u = f s) (fun rx u h => ?_) hrun
    refine hf.seq (fun u hu => hf.setReg hu) (fun u v hv => ?_) h
    exact of_bind (P := fun w => f w = f u) (fun rx1 w h => hf.setReg h) hv
  case op8xy7 =>
    simp only [OP_8xy7] at hrun
    refine of_bind (P := fun u => f u = f s) (fun ry u h => ?_) hrun
    refine of_bind (P := fun u => f u = f s) (fun rx u h => ?_) h
    refine hf.seq (fun u hu => hf.flag _ hu) (fun u v hv => ?_) h
    refine of_bind (P := fun w => f w = f u) (fun ry1 w h => ?_) hv
    exact of_bind (P := fun w => f w = f u) (fun rx1 w h => hf.setReg h) h
  case op8xyE =>
    simp only [OP_8xyE] at hrun
    refine of_bind (P := fun u => f u = f s) (fun rx u h => ?_) hrun
    refine hf.seq (fun u hu => hf.setReg hu) (fun u v hv => ?_) h
    exact of_bind (P := fun w => f w = f u) (fun rx1 w h => hf.setReg h) hv
  case op9xy0 =>
    simp only [OP_9xy0] at hrun
    exact of_bind (P := fun u => f u = f s)
      (fun rx u h => of_map (P := fun u => f u = f s) (fun ry => hf.skip s _) h) hrun
  case opAnnn =>
    simp only [OP_Annn, Option.some.injEq] at hrun
    rw [← hrun]; exact hf.index _ _
  case opBnnn =>
    simp only [OP_Bnnn] at hrun
    exact of_map (P := fun u => f u = f s) (fun r0 => hf.pc _ _) hrun
  case opCnnn =>
    simp only [OP_Cnnn] at hrun
    exact hf.setReg hrun
  case opCxkk =>
    simp only [OP_Cxkk] at hrun
    exact hf.setReg hrun
  case opDxyn =>
    simp only [OP_Dxyn] at hrun
    refine of_bind (P := fun u => f u = f s) (fun o u h => ?_) hrun
    refine hf.seq (fun u hu => hf.setReg hu) (fun u v hv => ?_) h
    exact forLoop_preserves _ (fun w => f w = f u)
      (fun i w w' hw hw' => (hf.drawRow hw').trans hw) _ u v rfl hv
  case opEx9E =>
    simp only [OP_Ex9E] at hrun
    refine of_bind (P := fun u => f u = f s) (fun key u h => ?_) hrun
    refine of_map (P := fun u => f u = f s) (fun pressed => ?_) h
    split
    · exact hf.pc _ _
    · rfl
  case opExA1 =>
    simp only [OP_ExA1] at hrun
    refine of_bind (P := fun u => f u = f s) (fun key u h => ?_) hrun
    refine of_map (P := fun u => f u = f s) (fun pressed => ?_) h
    split
    · exact hf.pc _ _
    · rfl
  case opFx07 =>
    simp only [OP_Fx07] at hrun
    exact hf.setReg hrun
  case opFx0A =>
    simp only [OP_Fx0A] at hrun
    refine hf.keyBranch (fun u h => ?_) hrun
    iterate 15 refine hf.keyBranch (fun u h => ?_) h
    simp only [Option.some.injEq] at h
    rw [← h]; exact hf.pc _ _
  case opFx15 =>
    simp only [OP_Fx15] at hrun
    exact of_map (P := fun u => f u = f s) (fun rx => hf.delayTimer _ _) hrun
  case opFx18 =>
    simp only [OP_Fx18] at hrun
    exact of_map (P := fun u => f u = f s) (fun rx => hf.soundTimer _ _) hrun
  case opFx1E =>
    simp only [OP_Fx1E] at hrun
    exact of_map (P := fun u => f u = f s) (fun rx => hf.index _ _) hrun
  case opFx29 =>
    simp only [OP_Fx29] at hrun
    exact of_map (P := fun u => f u = f s) (fun rx => hf.index _ _) hrun
  case opFx33 =>
    simp only [OP_Fx33] at hrun
    refine of_bind (P := fun u => f u = f s) (fun value u h => ?_) hrun
    refine hf.seq (fun u hu => hf.setMem hu) (fun u v hv => ?_) h
    exact hf.seq (fun w hw => hf.setMem hw) (fun w x hx => hf.setMem hx) hv
  case opFx55 =>
    simp only [OP_Fx55] at hrun
    refine forLoop_preserves _ (fun u => f u = f s) (fun i u u' hu hu' => ?_) _ s t rfl hrun
    exact (of_bind (P := fun w => f w = f u) (fun ri w h => hf.setMem h) hu').trans hu
  case opFx65 =>
    simp only [OP_Fx65] at hrun
    refine forLoop_preserves _ (fun u => f u = f s) (fun i u u' hu hu' => ?_) _ s t rfl hrun
    exact (of_bind (P := fun w => f w = f u) (fun mi w h => hf.setReg h) hu').trans hu

theorem untouched_sp : Untouched (fun s : Chip8 => s.sp) :=
  ⟨fun _ _ => rfl, fun _ _ => rfl, fun _ _ => rfl, fun _ _ => rfl, fun _ _ => rfl,
    fun _ _ => rfl, fun _ _ => rfl⟩

theorem Chip8.WF.with_index {s : Chip8} (hs : s.WF) (i : Nat) (hi : i < 65536) :
    Chip8.WF { s with index := i } :=
  ⟨hs.registers_length, hs.registers_byte, hs.memory_length, hs.memory_byte, hi,
    hs.pc_lt, hs.stack_length, hs.stack_word, hs.sp_lt, hs.delayTimer_lt, hs.soundTimer_lt,
    hs.keypad_length, hs.video_length, hs.video_word, hs.opcode_lt⟩

theorem bcdInput_wf : bcdInput.WF :=
  ((zeroState_wf.with_registers _ (by decide) (by decide)).with_index _ (by decide)).with_opcode
    _ (by decide)

theorem skipInput_wf : skipInput.WF := addInput_wf.with_opcode _ (by decide)

/-! ## The sprite draw `DXYN` -/

theorem cellPos_inj {xPos yPos i j r c : Nat} (hj : j < 8) (hc : c < 8)
    (h : cellPos xPos yPos i j = cellPos xPos yPos r c) : i = r ∧ j = c := by
  unfold cellPos VIDEO_WIDTH at h
  omega

theorem spriteBit_of_read {s : Chip8} {row col m : Nat}
    (hm : s.memory[s.index + row]? = some m) :
    spriteBit s row col = decide ((m &&& (0x80 >>> col)) % 256 ≠ 0) := by
  simp only [spriteBit, hm]

theorem not_hit_next {s : Chip8} {xPos yPos r c : Nat} (hc : c < 8) :
    ¬ Hit s xPos yPos (8 * r + c) (cellPos xPos yPos r c) := by
  rintro ⟨i, j, hj, hlt, -, hp⟩
  obtain ⟨hi, hj'⟩ := cellPos_inj hj hc hp.symm
  omega

theorem hit_mono {s : Chip8} {xPos yPos k p : Nat} (h : Hit s xPos yPos k p) :
    Hit s xPos yPos (k + 1) p := by
  obtain ⟨i, j, hj, hlt, hb, hp⟩ := h
  exact ⟨i, j, hj, by omega, hb, hp⟩

theorem hit_succ {s : Chip8} {xPos yPos r c p : Nat} (hc : c < 8)
    (h : Hit s xPos yPos (8 * r + c + 1) p) :
    Hit s xPos yPos (8 * r + c) p ∨ (spriteBit s r c = true ∧ p = cellPos xPos yPos r c) := by
  obtain ⟨i, j, hj, hlt, hb, hp⟩ := h
  by_cases hk : 8 * i + j < 8 * r + c
  · exact Or.inl ⟨i, j, hj, hk, hb, hp⟩
  · have hi : i = r := by omega
    have hj' : j = c := by omega
    subst hi hj'
    exact Or.inr ⟨hb, hp⟩

theorem collides_mono {s : Chip8} {xPos yPos k : Nat} (h : Collides s xPos yPos k) :
    Collides s xPos yPos (k + 1) := by
  obtain ⟨i, j, hj, hlt, hb, hp⟩ := h
  exact ⟨i, j, hj, by omega, hb, hp⟩

theorem collides_succ {s : Chip8} {xPos yPos r c : Nat} (hc : c < 8)
    (h : Collides s xPos yPos (8 * r + c + 1)) :
    Collides s xPos yPos (8 * r + c) ∨
      (spriteBit s r c = true ∧ s.video[cellPos xPos yPos r c]? = some 0xFFFFFFFF) := by
  obtain ⟨i, j, hj, hlt, hb, hp⟩ := h
  by_cases hk : 8 * i + j < 8 * r + c
  · exact Or.inl ⟨i, j, hj, hk, hb, hp⟩
  · have hi : i = r := by omega
    have hj' : j = c := by omega
    subst hi hj'
    exact Or.inr ⟨hb, hp⟩

theorem Drawn.registers_length {s0 t : Chip8} {xPos yPos k : Nat}
    (hd : Drawn s0 xPos yPos k t) : t.registers.length = s0.registers.length := by
  by_cases hcol : Collides s0 xPos yPos k
  · rw [hd.registers_hit hcol, List.length_set]
  · rw [hd.registers_miss hcol]

theorem drawn_zero (s0 : Chip8) (xPos yPos : Nat) : Drawn s0 xPos yPos 0 s0 where
  memory_eq := rfl
  index_eq := rfl
  opcode_eq := rfl
  video_length := rfl
  video_hit := by
    rintro p ⟨i, j, -, hlt, -, -⟩
    exact absurd hlt (Nat.not_lt_zero _)
  video_miss := fun _ _ => rfl
  registers_hit := by
    rintro ⟨i, j, -, hlt, -, -⟩
    exact absurd hlt (Nat.not_lt_zero _)
  registers_miss := fun _ => rfl

theorem drawPixel_step_clear {s0 t : Chip8} {xPos yPos r c m : Nat} (hc : c < 8)
    (hm : s0.memory[s0.index + r]? = some m) (hbit : (m &&& (0x80 >>> c)) % 256 = 0)
    (hd : Drawn s0 xPos yPos (8 * r + c) t) :
    drawPixel xPos yPos r m c t = some t ∧ Drawn s0 xPos yPos (8 * r + c + 1) t := by
  have hfalse : spriteBit s0 r c ≠ true := by
    rw [spriteBit_of_read hm]
    simp only [hbit, ne_eq, not_true_eq_false, decide_False, Bool.false_eq_true,
      not_false_eq_true]
  refine ⟨?_, ?_⟩
  · simp only [drawPixel, hbit, ne_eq, not_true_eq_false, if_false]
  · exact
      { memory_eq := hd.memory_eq
        index_eq := hd.index_eq
        opcode_eq := hd.opcode_eq
        video_length := hd.video_length
        video_hit := fun p hp => by
          rcases hit_succ hc hp with h | ⟨hb, -⟩
          · exact hd.video_hit p h
          · exact absurd hb hfalse
        video_miss := fun p hp => hd.video_miss p (fun h => hp (hit_mono h))
        registers_hit := fun hcol => by
          rcases collides_succ hc hcol with h | ⟨hb, -⟩
          · exact hd.registers_hit h
          · exact absurd hb hfalse
        registers_miss := fun hcol => hd.registers_miss (fun h => hcol (collides_mono h)) }

theorem drawPixel_step_set {s0 t : Chip8} {xPos yPos r c m : Nat} (hc : c < 8)
    (hm : s0.memory[s0.index + r]? = some m) (hbit : (m &&& (0x80 >>> c)) % 256 ≠ 0)
    (h15 : 15 < s0.registers.length)
    (hin : cellPos xPos yPos r c < s0.video.length)
    (hd : Drawn s0 xPos yPos (8 * r + c) t) :
    ∃ t', drawPixel xPos yPos r m c t = some t' ∧ Drawn s0 xPos yPos (8 * r + c + 1) t' := by
  have htrue : spriteBit s0 r c = true := by
    rw [spriteBit_of_read hm]
    exact decide_eq_true hbit
  have hnot := @not_hit_next s0 xPos yPos r c hc
  have hcell : t.video[cellPos xPos yPos r c]? = some s0.video[cellPos xPos yPos r c] := by
    rw [hd.video_miss _ hnot, List.getElem?_eq_getElem hin]
  have hs0cell : s0.video[cellPos xPos yPos r c]? = some s0.video[cellPos xPos yPos r c] :=
    List.getElem?_eq_getElem hin
  have hint : cellPos xPos yPos r c < t.video.length := by rw [hd.video_length]; exact hin
  have h15t : 15 < t.registers.length := by rw [hd.registers_length]; exact h15
  have hpos : cellPos xPos yPos r c = (yPos + r) * VIDEO_WIDTH + (xPos + c) := rfl
  by_cases hF : s0.video[cellPos xPos yPos r c] = 0xFFFFFFFF
  · refine ⟨{ t with
        registers := t.registers.set 0xF 1
        video := t.video.set (cellPos xPos yPos r c)
          (flipCell s0.video[cellPos xPos yPos r c]) }, ?_, ?_⟩
    · simp only [drawPixel, hbit, ne_eq, not_false_eq_true, if_true, ← hpos, hcell,
        Option.some_bind, hF, setReg, writeAt, h15t, hint, Option.map_some', flipCell]
    · exact
        { memory_eq := hd.memory_eq
          index_eq := hd.index_eq
          opcode_eq := hd.opcode_eq
          video_length := by simp only [List.length_set]; exact hd.video_length
          video_hit := fun p hp => by
            show (t.video.set _ _)[p]? = _
            rcases hit_succ hc hp with h | ⟨-, rfl⟩
            · have hne : cellPos xPos yPos r c ≠ p := fun e => hnot (e ▸ h)
              rw [List.getElem?_set_ne hne]
              exact hd.video_hit p h
            · rw [List.getElem?_set_self hint, hs0cell, Option.map_some']
          video_miss := fun p hp => by
            show (t.video.set _ _)[p]? = _
            have hne : cellPos xPos yPos r c ≠ p := by
              intro e
              exact hp ⟨r, c, hc, by omega, htrue, e.symm⟩
            rw [List.getElem?_set_ne hne]
            exact hd.video_miss p (fun h => hp (hit_mono h))
          registers_hit := fun _ => by
            show t.registers.set 0xF 1 = _
            by_cases hk : Collides s0 xPos yPos (8 * r + c)
            · rw [hd.registers_hit hk, List.set_set]
            · rw [hd.registers_miss hk]
          registers_miss := fun hcol => by
            exfalso
            exact hcol ⟨r, c, hc, by omega, htrue, by rw [hs0cell, hF]⟩ }
  · refine ⟨{ t with
        video := t.video.set (cellPos xPos yPos r c)
          (flipCell s0.video[cellPos xPos yPos r c]) }, ?_, ?_⟩
    · simp only [drawPixel, hbit, ne_eq, not_false_eq_true, if_true, ← hpos, hcell,
        Option.some_bind, hF, if_false, writeAt, hint, Option.map_some', flipCell]
    · exact
        { memory_eq := hd.memory_eq
          index_eq := hd.index_eq
          opcode_eq := hd.opcode_eq
          video_length := by simp only [List.length_set]; exact hd.video_length
          video_hit := fun p hp => by
            show (t.video.set _ _)[p]? = _
            rcases hit_succ hc hp with h | ⟨-, rfl⟩
            · have hne : cellPos xPos yPos r c ≠ p := fun e => hnot (e ▸ h)
              rw [List.getElem?_set_ne hne]
              exact hd.video_hit p h
            · rw [List.getElem?_set_self hint, hs0cell, Option.map_some']
          video_miss := fun p hp => by
            show (t.video.set _ _)[p]? = _
            have hne : cellPos xPos yPos r c ≠ p := by
              intro e
              exact hp ⟨r, c, hc, by omega, htrue, e.symm⟩
            rw [List.getElem?_set_ne hne]
            exact hd.video_miss p (fun h => hp (hit_mono h))
          registers_hit := fun hcol => by
            show t.registers = _
            rcases collides_succ hc hcol with h | ⟨-, hv⟩
            · exact hd.registers_hit h
            · rw [hs0cell, Option.some.injEq] at hv
              exact absurd hv hF
          registers_miss := fun hcol => by
            show t.registers = _
            exact hd.registers_miss (fun h => hcol (collides_mono h)) }

theorem drawRow_step {s0 t : Chip8} {xPos yPos r : Nat} (h15 : 15 < s0.registers.length)
    (hmem : s0.index + r < s0.memory.length)
    (hin : ∀ c, c < 8 → spriteBit s0 r c = true → cellPos xPos yPos r c < s0.video.length)
    (hd : Drawn s0 xPos yPos (8 * r) t) :
    ∃ t', drawRow xPos yPos r t = some t' ∧ Drawn s0 xPos yPos (8 * (r + 1)) t' := by
  have hm : s0.memory[s0.index + r]? = some s0.memory[s0.index + r] :=
    List.getElem?_eq_getElem hmem
  simp only [drawRow, hd.memory_eq, hd.index_eq, hm, Option.some_bind]
  refine forLoop_inv _ t 8 (fun c u => Drawn s0 xPos yPos (8 * r + c) u) hd ?_
  intro c u hc hu
  by_cases hbit : (s0.memory[s0.index + r] &&& (0x80 >>> c)) % 256 = 0
  · exact ⟨u, drawPixel_step_clear hc hm hbit hu⟩
  · refine drawPixel_step_set hc hm hbit h15 (hin c hc ?_) hu
    rw [spriteBit_of_read hm]
    exact decide_eq_true hbit

theorem drawRows_spec (s0 : Chip8) (xPos yPos n : Nat) (h15 : 15 < s0.registers.length)
    (hmem : ∀ r, r < n → s0.index + r < s0.memory.length)
    (hin : ∀ r c, r < n → c < 8 → spriteBit s0 r c = true →
      cellPos xPos yPos r c < s0.video.length) :
    ∃ t, forLoop n (drawRow xPos yPos) s0 = some t ∧ Drawn s0 xPos yPos (8 * n) t := by
  refine forLoop_inv _ s0 n (fun r u => Drawn s0 xPos yPos (8 * r) u)
    (drawn_zero s0 xPos yPos) ?_
  intro r u hr hu
  exact drawRow_step h15 (hmem r hr) (fun c hc hb => hin r c hr hc hb) hu

theorem OP_Dxyn_spec (s : Chip8) (xPos yPos : Nat) (h15 : 15 < s.registers.length)
    (horigin : dxynOrigin s = some (xPos, yPos))
    (hmem : ∀ r, r < s.opcode % 16 → s.index + r < s.memory.length)
    (hin : ∀ r c, r < s.opcode % 16 → c < 8 → spriteBit s r c = true →
      cellPos xPos yPos r c < s.video.length) :
    ∃ t, OP_Dxyn s = some t ∧
      Drawn { s with registers := s.registers.set 0xF 0 } xPos yPos (8 * (s.opcode % 16)) t := by
  simp only [OP_Dxyn, horigin, Option.some_bind, fieldN_eq, setReg, writeAt, h15, if_true,
    Option.map_some']
  exact drawRows_spec { s with registers := s.registers.set 0xF 0 } xPos yPos (s.opcode % 16)
    (by simp only [List.length_set]; exact h15) hmem hin

theorem and_two_pow_ne_zero (m k : Nat) : m &&& 2 ^ k ≠ 0 ↔ m.testBit k = true := by
  constructor
  · intro h
    by_contra hb
    apply h
    apply Nat.eq_of_testBit_eq
    intro i
    rw [Nat.testBit_and, Nat.testBit_two_pow, Nat.zero_testBit]
    by_cases hki : k = i
    · subst hki
      simp only [Bool.not_eq_true] at hb
      rw [hb, Bool.false_and]
    · simp only [hki, decide_False, Bool.and_false]
  · intro hb h
    have := Nat.testBit_and m (2 ^ k) k
    rw [h, Nat.zero_testBit, hb, Nat.testBit_two_pow_self] at this
    exact absurd this (by decide)

theorem mask_test (m c : Nat) (hc : c < 8) :
    (m &&& (0x80 >>> c)) % 256 ≠ 0 ↔ m.testBit (7 - c) = true := by
  have hpow : (0x80 : Nat) >>> c = 2 ^ (7 - c) := by
    interval_cases c <;> rfl
  have hlt : m &&& 2 ^ (7 - c) < 256 :=
    Nat.and_lt_two_pow m (Nat.pow_lt_pow_right (by decide) (by omega) : 2 ^ (7 - c) < 2 ^ 8)
  rw [hpow, Nat.mod_eq_of_lt hlt]
  exact and_two_pow_ne_zero m (7 - c)

theorem spriteBit_iff (s : Chip8) (row col : Nat) (hc : col < 8) :
    spriteBit s row col = true ↔
      ∃ m, s.memory[s.index + row]? = some m ∧ m.testBit (7 - col) = true := by
  unfold spriteBit
  cases hm : s.memory[s.index + row]? with
  | none => simp only [Bool.false_eq_true, reduceCtorEq, false_and, exists_false]
  | some m =>
    simp only [decide_eq_true_eq, Option.some.injEq, exists_eq_left']
    exact mask_test m col hc

theorem spriteBit_congr {a b : Chip8} (hm : a.memory = b.memory) (hi : a.index = b.index)
    (row col : Nat) : spriteBit a row col = spriteBit b row col := by
  simp only [spriteBit, hm, hi]

theorem flipCell_zero : flipCell 0 = 0xFFFFFFFF := by decide

theorem flipCell_on : flipCell 0xFFFFFFFF = 0 := by decide

theorem cellPos_lt {xPos yPos n r c : Nat} (hx : xPos + 7 ≤ 63) (hy : yPos + n ≤ 32)
    (hr : r < n) (hc : c < 8) : cellPos xPos yPos r c < 2048 := by
  unfold cellPos VIDEO_WIDTH
  omega

theorem off_cell {v : List Nat} (hoff : ∀ x ∈ v, x = 0) {p : Nat} (hp : p < v.length) :
    v[p]? = some 0 := by
  rw [List.getElem?_eq_getElem hp, hoff _ (List.getElem_mem hp)]

theorem glyphInput_wf : glyphInput.WF where
  registers_length := zeroState_wf.registers_length
  registers_byte := zeroState_wf.registers_byte
  memory_length := by
    show (List.replicate 0x50 0 ++ [0xF0, 0x90, 0x90, 0x90, 0xF0] ++
      List.replicate 4011 0).length = 4096
    simp only [List.length_append, List.length_replicate, List.length_cons, List.length_nil]
  memory_byte := by
    intro v hv
    have hv' : v ∈ List.replicate 0x50 0 ++ [0xF0, 0x90, 0x90, 0x90, 0xF0] ++
      List.replicate 4011 0 := hv
    simp only [List.mem_append, List.mem_replicate, List.mem_cons, List.mem_singleton,
      List.not_mem_nil, or_false] at hv'
    omega
  index_lt := by decide
  pc_lt := zeroState_wf.pc_lt
  stack_length := zeroState_wf.stack_length
  stack_word := zeroState_wf.stack_word
  sp_lt := zeroState_wf.sp_lt
  delayTimer_lt := zeroState_wf.delayTimer_lt
  soundTimer_lt := zeroState_wf.soundTimer_lt
  keypad_length := zeroState_wf.keypad_length
  video_length := zeroState_wf.video_length
  video_word := zeroState_wf.video_word
  opcode_lt := by decide

theorem glyphInput_first_byte : glyphInput.memory[glyphInput.index + 0]? = some 0xF0 := by
  show (List.replicate 0x50 0 ++ [0xF0, 0x90, 0x90, 0x90, 0xF0] ++
    List.replicate 4011 0)[0x50]? = some 0xF0
  have h : (List.replicate 0x50 (0 : Nat)).length = 0x50 := List.length_replicate _ _
  rw [List.append_assoc, List.getElem?_append_right (by rw [h]), h]
  simp only [Nat.sub_self, List.cons_append, List.getElem?_cons_zero]

theorem glyphInput_blank : ∀ v ∈ glyphInput.video, v = 0 :=
  fun _ hv => List.eq_of_mem_replicate hv

/-! ## C4: a sprite drawn on a blank framebuffer -/

/-- The sprite draw on a blank framebuffer, for the words on which `OP_Dxyn`
computes an origin (on a well-formed state those with X nibble 0, see
`OP_Dxyn_undefined`): let `(xPos, yPos)` be that origin and N the low nibble
of the word.  If the sprite lies inside the screen (xPos + 7 <= 63,
yPos + N <= 32) and inside memory (index + N <= 4096) and every framebuffer
cell is off, then `OP_Dxyn` has a result with V[0xF] = 0, the cell at
(yPos + row, xPos + col) is on (0xFFFFFFFF) exactly when bit (7 - col) of
memory[index + row] is set, for every row < N and col < 8, and every cell
outside that N x 8 rectangle is still off. -/
theorem OP_Dxyn_on_blank (s : Chip8) (hs : s.WF) (xPos yPos : Nat)
    (horigin : dxynOrigin s = some (xPos, yPos))
    (hx : xPos + 7 ≤ 63) (hy : yPos + s.opcode % 16 ≤ 32)
    (hidx : s.index + s.opcode % 16 ≤ 4096) (hoff : ∀ v ∈ s.video, v = 0) :
    ∃ t, OP_Dxyn s = some t ∧ t.registers[0xF]? = some 0 ∧
      (∀ row col, row < s.opcode % 16 → col < 8 →
        ∃ m, s.memory[s.index + row]? = some m ∧
          t.video[(yPos + row) * 64 + (xPos + col)]? =
            some (if m.testBit (7 - col) = true then 0xFFFFFFFF else 0)) ∧
      (∀ p, p < 2048 →
        (¬ ∃ row col, row < s.opcode % 16 ∧ col < 8 ∧
          p = (yPos + row) * 64 + (xPos + col)) →
        t.video[p]? = some 0) := by
  have hrl := hs.registers_length
  have hml := hs.memory_length
  have hvl := hs.video_length
  have h15 : 15 < s.registers.length := by omega
  have hmem : ∀ r, r < s.opcode % 16 → s.index + r < s.memory.length := by
    intro r hr; omega
  have hpos : ∀ r c, r < s.opcode % 16 → c < 8 → cellPos xPos yPos r c < s.video.length := by
    intro r c hr hc
    rw [hvl]
    exact cellPos_lt hx hy hr hc
  obtain ⟨t, ht, hd⟩ := OP_Dxyn_spec s xPos yPos h15 horigin hmem
    (fun r c hr hc _ => hpos r c hr hc)
  have hnocol : ¬ Collides { s with registers := s.registers.set 0xF 0 } xPos yPos
      (8 * (s.opcode % 16)) := by
    rintro ⟨i, j, -, -, -, hv⟩
    have hmemv := hoff _ (List.getElem?_mem hv)
    exact absurd hmemv (by decide)
  refine ⟨t, ht, ?_, ?_, ?_⟩
  · rw [hd.registers_miss hnocol]
    exact List.getElem?_set_self h15
  · intro row col hr hc
    refine ⟨s.memory[s.index + row], List.getElem?_eq_getElem (hmem row hr), ?_⟩
    have hcell : s.video[cellPos xPos yPos row col]? = some 0 :=
      off_cell hoff (hpos row col hr hc)
    show t.video[cellPos xPos yPos row col]? = _
    by_cases hb : (s.memory[s.index + row]).testBit (7 - col) = true
    · rw [if_pos hb]
      have hhit : Hit { s with registers := s.registers.set 0xF 0 } xPos yPos
          (8 * (s.opcode % 16)) (cellPos xPos yPos row col) :=
        ⟨row, col, hc, by omega,
          (spriteBit_iff _ row col hc).mpr
            ⟨_, List.getElem?_eq_getElem (hmem row hr), hb⟩, rfl⟩
      rw [hd.video_hit _ hhit]
      show (s.video[cellPos xPos yPos row col]?).map flipCell = _
      rw [hcell, Option.map_some', flipCell_zero]
    · rw [if_neg hb]
      have hmiss : ¬ Hit { s with registers := s.registers.set 0xF 0 } xPos yPos
          (8 * (s.opcode % 16)) (cellPos xPos yPos row col) := by
        rintro ⟨i, j, hj, -, hbit, hp⟩
        obtain ⟨hi, hj'⟩ := cellPos_inj hj hc hp.symm
        subst hi hj'
        obtain ⟨m, hm, hmb⟩ := (spriteBit_iff _ i j hj).mp hbit
        have hm' : s.memory[s.index + i]? = some m := hm
        rw [List.getElem?_eq_getElem (hmem i hr), Option.some.injEq] at hm'
        exact hb (hm' ▸ hmb)
      rw [hd.video_miss _ hmiss]
      exact hcell
  · intro p hp hout
    have hmiss : ¬ Hit { s with registers := s.registers.set 0xF 0 } xPos yPos
        (8 * (s.opcode % 16)) p := by
      rintro ⟨i, j, hj, hlt, -, hpe⟩
      exact hout ⟨i, j, by omega, hj, hpe⟩
    rw [hd.video_miss _ hmiss]
    exact off_cell hoff (by rw [hvl]; exact hp)

/-- The instance of the spec with the word `D015`: the five-byte glyph of digit 0 at 0x50 drawn
with `D015` at origin (0, 0) on a blank framebuffer. -/
theorem OP_Dxyn_on_blank_glyph :
    glyphInput.WF ∧ dxynOrigin glyphInput = some (0, 0) ∧
    ∃ t, OP_Dxyn glyphInput = some t ∧ t.registers[0xF]? = some 0 ∧
      (∀ row col, row < 5 → col < 8 →
        ∃ m, glyphInput.memory[0x50 + row]? = some m ∧
          t.video[(0 + row) * 64 + (0 + col)]? =
            some (if m.testBit (7 - col) = true then 0xFFFFFFFF else 0)) ∧
      (∀ p, p < 2048 →
        (¬ ∃ row col, row < 5 ∧ col < 8 ∧ p = (0 + row) * 64 + (0 + col)) →
        t.video[p]? = some 0) :=
  ⟨glyphInput_wf, by decide,
    OP_Dxyn_on_blank glyphInput glyphInput_wf 0 0 (by decide) (by decide) (by decide)
      (by decide) glyphInput_blank⟩

/-- The same sprite drawn twice, for the words on which `OP_Dxyn` computes an
origin (on a well-formed state those with X nibble 0): let `(xPos, yPos)` be
that origin and N the low nibble of the word, the sprite inside the screen and
inside memory.  If at least one
bit of the N sprite bytes is set and the cells of the set bits are off, then
the first `OP_Dxyn` has a result, and a second `OP_Dxyn` at the same origin has
a result with V[0xF] = 1 and a framebuffer equal to the framebuffer before the
first draw. -/
theorem OP_Dxyn_twice (s : Chip8) (hs : s.WF) (xPos yPos : Nat)
    (horigin : dxynOrigin s = some (xPos, yPos))
    (hx : xPos + 7 ≤ 63) (hy : yPos + s.opcode % 16 ≤ 32)
    (hidx : s.index + s.opcode % 16 ≤ 4096)
    (hbit : ∃ row col m, row < s.opcode % 16 ∧ col < 8 ∧
      s.memory[s.index + row]? = some m ∧ m.testBit (7 - col) = true)
    (hoff : ∀ row col m, row < s.opcode % 16 → col < 8 →
      s.memory[s.index + row]? = some m → m.testBit (7 - col) = true →
      s.video[(yPos + row) * 64 + (xPos + col)]? = some 0) :
    ∃ t1, OP_Dxyn s = some t1 ∧
      t1.registers = s.registers.set 0xF 0 ∧ t1.opcode = s.opcode ∧
      (dxynOrigin t1 = some (xPos, yPos) →
        ∃ t2, OP_Dxyn t1 = some t2 ∧ t2.registers[0xF]? = some 1 ∧ t2.video = s.video) := by
  have hrl := hs.registers_length
  have hml := hs.memory_length
  have hvl := hs.video_length
  have h15 : 15 < s.registers.length := by omega
  have hmem : ∀ r, r < s.opcode % 16 → s.index + r < s.memory.length := by
    intro r hr; omega
  have hpos : ∀ r c, r < s.opcode % 16 → c < 8 → cellPos xPos yPos r c < s.video.length := by
    intro r c hr hc
    rw [hvl]
    exact cellPos_lt hx hy hr hc
  obtain ⟨t1, ht1, hd1⟩ := OP_Dxyn_spec s xPos yPos h15 horigin hmem
    (fun r c hr hc _ => hpos r c hr hc)
  have hnocol : ¬ Collides { s with registers := s.registers.set 0xF 0 } xPos yPos
      (8 * (s.opcode % 16)) := by
    rintro ⟨i, j, hj, hlt, hb, hv⟩
    obtain ⟨m, hm, hmb⟩ := (spriteBit_iff _ i j hj).mp hb
    have h0 := hoff i j m (by omega) hj hm hmb
    have hv' : s.video[(yPos + i) * 64 + (xPos + j)]? = some 0xFFFFFFFF := hv
    rw [h0] at hv'
    exact absurd hv' (by decide)
  refine ⟨t1, ht1, hd1.registers_miss hnocol, hd1.opcode_eq, fun horigin1 => ?_⟩
  have h15' : 15 < t1.registers.length := by
    rw [hd1.registers_length]
    show 15 < (s.registers.set 0xF 0).length
    rw [List.length_set]; exact h15
  have hop : t1.opcode = s.opcode := hd1.opcode_eq
  have hmemEq : t1.memory = s.memory := hd1.memory_eq
  have hidxEq : t1.index = s.index := hd1.index_eq
  have hvlen : t1.video.length = s.video.length := hd1.video_length
  obtain ⟨t2, ht2, hd2⟩ := OP_Dxyn_spec t1 xPos yPos h15' horigin1
    (by intro r hr; rw [hop] at hr; rw [hidxEq, hmemEq]; exact hmem r hr)
    (by intro r c hr hc _; rw [hop] at hr; rw [hvlen]; exact hpos r c hr hc)
  rw [hop] at hd2
  -- the set sprite bits are the same in both draws
  have hbits : ∀ r c, spriteBit { t1 with registers := t1.registers.set 0xF 0 } r c =
      spriteBit { s with registers := s.registers.set 0xF 0 } r c :=
    fun r c => spriteBit_congr hmemEq hidxEq r c
  have hhit : ∀ p, Hit { t1 with registers := t1.registers.set 0xF 0 } xPos yPos
      (8 * (s.opcode % 16)) p ↔
      Hit { s with registers := s.registers.set 0xF 0 } xPos yPos (8 * (s.opcode % 16)) p := by
    intro p
    constructor
    · rintro ⟨i, j, hj, hlt, hb, hp⟩
      exact ⟨i, j, hj, hlt, (hbits i j) ▸ hb, hp⟩
    · rintro ⟨i, j, hj, hlt, hb, hp⟩
      exact ⟨i, j, hj, hlt, (hbits i j).symm ▸ hb, hp⟩
  -- a cell of a set bit is off before the first draw and on after it
  have hcell0 : ∀ p, Hit { s with registers := s.registers.set 0xF 0 } xPos yPos
      (8 * (s.opcode % 16)) p → s.video[p]? = some 0 := by
    rintro p ⟨i, j, hj, hlt, hb, hp⟩
    obtain ⟨m, hm, hmb⟩ := (spriteBit_iff _ i j hj).mp hb
    rw [hp]
    exact hoff i j m (by omega) hj hm hmb
  have hcell1 : ∀ p, Hit { s with registers := s.registers.set 0xF 0 } xPos yPos
      (8 * (s.opcode % 16)) p → t1.video[p]? = some 0xFFFFFFFF := by
    intro p hp
    rw [hd1.video_hit p hp]
    show (s.video[p]?).map flipCell = _
    rw [hcell0 p hp, Option.map_some', flipCell_zero]
  refine ⟨t2, ht2, ?_, ?_⟩
  · obtain ⟨row, col, m, hr, hc, hm, hmb⟩ := hbit
    have hsb : spriteBit { s with registers := s.registers.set 0xF 0 } row col = true :=
      (spriteBit_iff _ row col hc).mpr ⟨m, hm, hmb⟩
    have hcol : Collides { t1 with registers := t1.registers.set 0xF 0 } xPos yPos
        (8 * (s.opcode % 16)) :=
      ⟨row, col, hc, by omega, (hbits row col).symm ▸ hsb,
        hcell1 _ ⟨row, col, hc, by omega, hsb, rfl⟩⟩
    rw [hd2.registers_hit hcol]
    exact List.getElem?_set_self (by simp only [List.length_set]; exact h15')
  · apply List.ext_getElem?
    intro p
    by_cases hp : Hit { s with registers := s.registers.set 0xF 0 } xPos yPos
        (8 * (s.opcode % 16)) p
    · rw [hd2.video_hit p ((hhit p).mpr hp)]
      show (t1.video[p]?).map flipCell = _
      rw [hcell1 p hp, hcell0 p hp, Option.map_some', flipCell_on]
    · rw [hd2.video_miss p (fun h => hp ((hhit p).mp h))]
      show t1.video[p]? = _
      exact hd1.video_miss p hp

/-- A concrete instance: the glyph of digit 0 drawn twice at origin (0, 0)
with `D015`; the second draw reports the collision and restores the blank
framebuffer. -/
theorem OP_Dxyn_twice_glyph :
    glyphInput.WF ∧ dxynOrigin glyphInput = some (0, 0) ∧
    ∃ t1 t2, OP_Dxyn glyphInput = some t1 ∧ dxynOrigin t1 = some (0, 0) ∧
      OP_Dxyn t1 = some t2 ∧ t2.registers[0xF]? = some 1 ∧ t2.video = glyphInput.video := by
  obtain ⟨t1, h1, hr, ho, h⟩ :=
    OP_Dxyn_twice glyphInput glyphInput_wf 0 0 (by decide) (by decide) (by decide) (by decide)
      ⟨0, 0, 0xF0, by decide, by decide, glyphInput_first_byte, by decide⟩
      (fun row col _ hr hc _ _ =>
        off_cell glyphInput_blank
          (by
            rw [glyphInput_wf.video_length]
            exact @cellPos_lt 0 0 5 row col (by decide) (by decide) hr hc))
  have ho1 : dxynOrigin t1 = some (0, 0) := by
    simp only [dxynOrigin, dxynVy, hr, ho]
    decide
  obtain ⟨t2, h2, hf, hv⟩ := h ho1
  exact ⟨glyphInput_wf, by decide, t1, t2, h1, ho1, h2, hf, hv⟩

theorem bcd_digits (v : Nat) (hv : v < 256) :
    v / 10 % 256 % 10 = v / 10 % 10 ∧ v / 10 % 256 / 10 % 256 % 10 = v / 100 ∧
    v / 100 ≤ 9 ∧ v / 10 % 10 ≤ 9 ∧ v % 10 ≤ 9 ∧
    100 * (v / 100) + 10 * (v / 10 % 10) + v % 10 = v := by
  refine ⟨?_, ?_, ?_, ?_, ?_, ?_⟩ <;> omega

/-- C6: for every byte v = V[X] and every index with index + 2 <= 4095, `OP_Fx33`
stores memory[index] = v / 100, memory[index + 1] = (v / 10) mod 10 and
memory[index + 2] = v mod 10; each stored value is at most 9 and
100 * hundreds + 10 * tens + ones = v; every other memory cell, all registers
and index are unchanged. -/
theorem C6_bcd (s : Chip8) (hs : s.WF) (X v : Nat) (hX : X < 16)
    (hop : s.opcode = 0xF033 + 256 * X) (hv : s.registers[X]? = some v)
    (hidx : s.index + 2 ≤ 4095) :
    ∃ t, OP_Fx33 s = some t ∧
      t.memory[s.index]? = some (v / 100) ∧
      t.memory[s.index + 1]? = some (v / 10 % 10) ∧
      t.memory[s.index + 2]? = some (v % 10) ∧
      v / 100 ≤ 9 ∧ v / 10 % 10 ≤ 9 ∧ v % 10 ≤ 9 ∧
      100 * (v / 100) + 10 * (v / 10 % 10) + v % 10 = v ∧
      (∀ p, p ≠ s.index → p ≠ s.index + 1 → p ≠ s.index + 2 → t.memory[p]? = s.memory[p]?) ∧
      t.registers = s.registers ∧ t.index = s.index := by
  have hv256 : v < 256 := hs.reg_byte hv
  have e1 : ((s.opcode &&& 0x0F00) >>> 8) % 256 = X := by rw [fieldX_eq, hop]; omega
  have h2 : s.index + 2 < s.memory.length := by rw [hs.memory_length]; omega
  have h1 : s.index + 1 < s.memory.length := by omega
  have h0 : s.index < s.memory.length := by omega
  have n01 : s.index + 1 ≠ s.index := by omega
  have n02 : s.index + 2 ≠ s.index := by omega
  have n12 : s.index + 2 ≠ s.index + 1 := by omega
  obtain ⟨d1, d2, b1, b2, b3, b4⟩ := bcd_digits v hv256
  simp only [OP_Fx33, e1, d1, d2, hv, Option.some_bind, setMem, writeAt, List.length_set, h2,
    h1, h0, if_true, Option.map_some']
  refine ⟨_, rfl, ?_, ?_, ?_, b1, b2, b3, b4, ?_, rfl, rfl⟩
  · exact List.getElem?_set_self (by simpa using h0)
  · show (((s.memory.set (s.index + 2) (v % 10)).set (s.index + 1) (v / 10 % 10)).set s.index
      (v / 100))[s.index + 1]? = _
    rw [List.getElem?_set_ne (Ne.symm n01), List.getElem?_set_self (by simpa using h1)]
  · show (((s.memory.set (s.index + 2) (v % 10)).set (s.index + 1) (v / 10 % 10)).set s.index
      (v / 100))[s.index + 2]? = _
    rw [List.getElem?_set_ne (Ne.symm n02), List.getElem?_set_ne (Ne.symm n12),
      List.getElem?_set_self h2]
  · intro p p0 p1 p2
    show (((s.memory.set (s.index + 2) (v % 10)).set (s.index + 1) (v / 10 % 10)).set s.index
      (v / 100))[p]? = _
    rw [List.getElem?_set_ne (Ne.symm p0), List.getElem?_set_ne (Ne.symm p1),
      List.getElem?_set_ne (Ne.symm p2)]


/-- C6, the instance of the spec: for V[X] = 205 the three cells are 2, 0, 5. -/
theorem C6_bcd_witness :
    bcdInput.WF ∧ bcdInput.registers[3]? = some 205 ∧
    ∃ t, OP_Fx33 bcdInput = some t ∧
      t.memory[0x300]? = some 2 ∧ t.memory[0x300 + 1]? = some 0 ∧
      t.memory[0x300 + 2]? = some 5 ∧
      205 / 100 ≤ 9 ∧ 205 / 10 % 10 ≤ 9 ∧ 205 % 10 ≤ 9 ∧
      100 * (205 / 100) + 10 * (205 / 10 % 10) + 205 % 10 = 205 ∧
      (∀ p, p ≠ 0x300 → p ≠ 0x300 + 1 → p ≠ 0x300 + 2 →
        t.memory[p]? = bcdInput.memory[p]?) ∧
      t.registers = bcdInput.registers ∧ t.index = bcdInput.index :=
  ⟨bcdInput_wf, by decide,
    C6_bcd bcdInput bcdInput_wf 3 205 (by decide) (by decide) (by decide) (by decide)⟩

/-! ## C7: `FX55` then `FX65` -/

theorem OP_Fx55_spec (s : Chip8) (n : Nat) (hn : n ≤ s.registers.length)
    (hidx : s.index + n ≤ s.memory.length) :
    ∃ t, forLoop n
        (fun i t => (t.registers[i]?).bind fun ri => setMem t (t.index + i) ri) s = some t ∧
      t.registers = s.registers ∧ t.index = s.index ∧ t.opcode = s.opcode ∧
      t.memory.length = s.memory.length ∧
      (∀ j, j < n → t.memory[s.index + j]? = s.registers[j]?) ∧
      (∀ p, (p < s.index ∨ s.index + n ≤ p) → t.memory[p]? = s.memory[p]?) := by
  apply forLoop_inv _ s n (fun k t => t.registers = s.registers ∧ t.index = s.index ∧
      t.opcode = s.opcode ∧ t.memory.length = s.memory.length ∧
      (∀ j, j < k → t.memory[s.index + j]? = s.registers[j]?) ∧
      (∀ p, (p < s.index ∨ s.index + k ≤ p) → t.memory[p]? = s.memory[p]?))
  · exact ⟨rfl, rfl, rfl, rfl, fun j hj => absurd hj (Nat.not_lt_zero j), fun _ _ => rfl⟩
  · rintro k t hk ⟨hr, hi, ho, hl, hm, hf⟩
    have hkr : k < s.registers.length := by omega
    have hkm : s.index + k < t.memory.length := by omega
    refine ⟨{ t with memory := t.memory.set (s.index + k) s.registers[k] }, ?_, hr, hi, ho, ?_,
      ?_, ?_⟩
    · simp only [hr, hi, List.getElem?_eq_getElem hkr, Option.some_bind, setMem, writeAt, hkm,
        if_true, Option.map_some']
    · simp only [List.length_set, hl]
    · intro j hj
      by_cases hjk : j = k
      · subst hjk
        simp only
        rw [List.getElem?_set_self hkm, List.getElem?_eq_getElem hkr]
      · simp only
        rw [List.getElem?_set_ne (by omega)]
        exact hm j (by omega)
    · intro p hp
      simp only
      rw [List.getElem?_set_ne (by omega)]
      exact hf p (by omega)

theorem OP_Fx65_spec (s : Chip8) (n : Nat) (hn : n ≤ s.registers.length)
    (hmem : ∀ j, j < n → s.memory[s.index + j]? = s.registers[j]?) :
    ∃ t, forLoop n
        (fun i t => (t.memory[t.index + i]?).bind fun mi => setReg t i mi) s = some t ∧
      t.registers = s.registers ∧ t.index = s.index ∧ t.memory = s.memory := by
  apply forLoop_inv _ s n (fun _ t => t.registers = s.registers ∧ t.index = s.index ∧
      t.memory = s.memory)
  · exact ⟨rfl, rfl, rfl⟩
  · rintro k t hk ⟨hr, hi, hm⟩
    have hkr : k < s.registers.length := by omega
    have hread : s.memory[s.index + k]? = some s.registers[k] := by
      rw [hmem k hk, List.getElem?_eq_getElem hkr]
    have hkt : k < t.registers.length := by rw [hr]; exact hkr
    refine ⟨{ t with registers := t.registers.set k s.registers[k] }, ?_, ?_, hi, hm⟩
    · simp only [hm, hi, hread, Option.some_bind, setReg, writeAt, hkt, if_true,
        Option.map_some']
    · simp only
      rw [hr]
      exact set_of_getElem? _ _ _ (List.getElem?_eq_getElem hkr)

/-- C7: for every X in 0..15, every register file and every index with
index + X <= 4095, running `OP_Fx55` and then `OP_Fx65` with the same X leaves
all sixteen registers equal to their values before `OP_Fx55` and leaves index
unchanged; memory[index + j] then holds V[j] for every j <= X. -/
theorem C7_store_load_roundtrip (s : Chip8) (hs : s.WF) (X : Nat) (hX : X < 16)
    (hidx : s.index + X ≤ 4095) :
    ∃ t u, OP_Fx55 { s with opcode := 0xF055 + 256 * X } = some t ∧
      OP_Fx65 { t with opcode := 0xF065 + 256 * X } = some u ∧
      u.registers = s.registers ∧ u.index = s.index ∧
      (∀ j, j ≤ X → u.memory[s.index + j]? = s.registers[j]?) := by
  have e1 : (((0xF055 + 256 * X) &&& 0x0F00) >>> 8) % 256 = X := by rw [fieldX_eq]; omega
  have e2 : (((0xF065 + 256 * X) &&& 0x0F00) >>> 8) % 256 = X := by rw [fieldX_eq]; omega
  have hrl := hs.registers_length
  have hml := hs.memory_length
  obtain ⟨t, ht, hr, hi, -, hl, hm, -⟩ :=
    OP_Fx55_spec { s with opcode := 0xF055 + 256 * X } (X + 1)
      (by show X + 1 ≤ s.registers.length; omega)
      (by show s.index + (X + 1) ≤ s.memory.length; omega)
  obtain ⟨u, hu, hr2, hi2, hm2⟩ :=
    OP_Fx65_spec { t with opcode := 0xF065 + 256 * X } (X + 1)
      (by show X + 1 ≤ t.registers.length; rw [hr]; show X + 1 ≤ s.registers.length; omega)
      (by
        intro j hj
        show t.memory[t.index + j]? = t.registers[j]?
        rw [hi, hr]
        exact hm j hj)
  refine ⟨t, u, ?_, ?_, ?_, ?_, ?_⟩
  · simp only [OP_Fx55, e1]
    exact ht
  · simp only [OP_Fx65, e2]
    exact hu
  · rw [hr2]; exact hr
  · rw [hi2]; exact hi
  · intro j hj
    rw [hm2]
    exact hm j (by omega)

/-- C7, a concrete instance: registers 0..3 stored at index 0 and loaded back. -/
theorem C7_store_load_roundtrip_witness :
    addInput.WF ∧
    ∃ t u, OP_Fx55 { addInput with opcode := 0xF055 + 256 * 3 } = some t ∧
      OP_Fx65 { t with opcode := 0xF065 + 256 * 3 } = some u ∧
      u.registers = addInput.registers ∧ u.index = addInput.index ∧
      (∀ j, j ≤ 3 → u.memory[addInput.index + j]? = addInput.registers[j]?) :=
  ⟨addInput_wf, C7_store_load_roundtrip addInput addInput_wf 3 (by decide) (by decide)⟩

/-! ## C8: calls and returns -/

theorem OP_2nnn_of_lt (s : Chip8) (h : s.sp < s.stack.length) (h16 : s.stack.length = 16) :
    OP_2nnn s = some { s with
      stack := s.stack.set s.sp s.pc, sp := s.sp + 1, pc := s.opcode &&& 0x0FFF } := by
  have e : (s.sp + 1) % 256 = s.sp + 1 := by omega
  simp only [OP_2nnn, writeAt, h, if_true, Option.map_some', e]

theorem OP_00EE_of_pos (s : Chip8) (h1 : 1 ≤ s.sp) (h : s.sp ≤ s.stack.length)
    (h16 : s.stack.length = 16) :
    OP_00EE s = some { s with sp := s.sp - 1, pc := s.stack.getD (s.sp - 1) 0 } := by
  have e : (s.sp + 255) % 256 = s.sp - 1 := by omega
  have hlt : s.sp - 1 < s.stack.length := by omega
  simp only [OP_00EE, e, List.getElem?_eq_getElem hlt, Option.map_some', List.getD_eq_getElem?_getD,
    Option.getD_some]

theorem runCalls_spec (calls : List (Nat × Nat)) :
    ∀ s : Chip8, s.stack.length = 16 → s.sp + calls.length ≤ 16 →
      ∃ t, runCalls s calls = some t ∧ t.sp = s.sp + calls.length ∧ t.stack.length = 16 ∧
        (∀ i, ∀ hi : i < calls.length, t.stack[s.sp + i]? = some (calls[i]).1) ∧
        (∀ j, j < s.sp → t.stack[j]? = s.stack[j]?) := by
  induction calls with
  | nil =>
    intro s hl _
    exact ⟨s, rfl, rfl, hl, fun i hi => absurd hi (Nat.not_lt_zero i), fun _ _ => rfl⟩
  | cons c rest ih =>
    intro s hl hsp
    have hlen : (c :: rest).length = rest.length + 1 := rfl
    have hlt : s.sp < s.stack.length := by omega
    obtain ⟨t, ht, htsp, htl, hti, htj⟩ :=
      ih { s with stack := s.stack.set s.sp c.1, sp := s.sp + 1, pc := c.2 &&& 0x0FFF,
                  opcode := c.2 }
        (by simp only [List.length_set]; exact hl) (by simp only; omega)
    refine ⟨t, ?_, ?_, htl, ?_, ?_⟩
    · simp only [runCalls]
      rw [OP_2nnn_of_lt { s with pc := c.1, opcode := c.2 } hlt hl]
      exact ht
    · rw [htsp]; simp only; omega
    · intro i hi
      cases i with
      | zero =>
        have := htj s.sp (by simp only; omega)
        simp only [Nat.add_zero, List.getElem_cons_zero]
        rw [this]
        simp only
        exact List.getElem?_set_self hlt
      | succ k =>
        have hk : k < rest.length := by omega
        have := hti k hk
        simp only [List.getElem_cons_succ]
        rw [← this]
        simp only
        congr 1
        omega
    · intro j hj
      rw [htj j (by simp only; omega)]
      simp only
      exact List.getElem?_set_ne (by omega)

theorem runReturns_spec (n : Nat) :
    ∀ t : Chip8, t.stack.length = 16 → n ≤ t.sp → t.sp ≤ 16 →
      ∃ u, runReturns t n =
          some (u, (List.range n).map fun k => t.stack.getD (t.sp - 1 - k) 0) ∧
        u.sp = t.sp - n ∧ u.stack = t.stack := by
  induction n with
  | zero =>
    intro t _ _ _
    exact ⟨t, rfl, rfl, rfl⟩
  | succ m ih =>
    intro t hl hn h16
    obtain ⟨u, hu, husp, hust⟩ :=
      ih { t with sp := t.sp - 1, pc := t.stack.getD (t.sp - 1) 0 } hl (by simp only; omega)
        (by simp only; omega)
    refine ⟨u, ?_, ?_, hust⟩
    · simp only [runReturns]
      rw [OP_00EE_of_pos t (by omega) (by omega) hl]
      simp only [Option.some_bind, hu, Option.map_some', List.range_succ_eq_map, List.map_cons,
        List.map_map, Nat.sub_zero]
      have hfun : (fun k => t.stack.getD (t.sp - 1 - 1 - k) 0) =
          ((fun k => t.stack.getD (t.sp - 1 - k) 0) ∘ Nat.succ) := by
        funext k
        show t.stack.getD (t.sp - 1 - 1 - k) 0 = t.stack.getD (t.sp - 1 - (k + 1)) 0
        rw [Nat.sub_sub (t.sp - 1) 1 k, Nat.add_comm 1 k]
      rw [hfun]
    · rw [husp]; simp only; omega

/-- C8: starting from stack pointer 0, after N <= 16 calls `OP_2nnn` followed by
N returns `OP_00EE` the stack pointer is 0 again, and the returns restore the
saved program counters in the reverse order of the calls: the k-th return sets
pc to the value pc had (after the fetch) when the (N - k + 1)-th call ran. -/
theorem C8_call_return_pairing (s : Chip8) (hs : s.WF) (hsp : s.sp = 0)
    (calls : List (Nat × Nat)) (h16 : calls.length ≤ 16) :
    ∃ t u, runCalls s calls = some t ∧ t.sp = calls.length ∧
      runReturns t calls.length = some (u, (calls.map Prod.fst).reverse) ∧ u.sp = 0 := by
  obtain ⟨t, ht, htsp, htl, hti, -⟩ := runCalls_spec calls s hs.stack_length (by omega)
  have htsp' : t.sp = calls.length := by omega
  obtain ⟨u, hu, husp, -⟩ := runReturns_spec calls.length t htl (by omega) (by omega)
  refine ⟨t, u, ht, htsp', ?_, by omega⟩
  rw [hu]
  congr 2
  apply List.ext_getElem
  · simp
  · intro k h1 h2
    simp only [List.length_map, List.length_range] at h1
    have hidx : calls.length - 1 - k < calls.length := by omega
    have := hti (calls.length - 1 - k) hidx
    rw [hsp, Nat.zero_add] at this
    simp only [List.getElem_map, List.getElem_range, List.getElem_reverse, List.length_map,
      htsp', List.getD_eq_getElem?_getD, this, Option.getD_some]

/-- C8, a concrete instance: three nested calls, then three returns. -/
theorem C8_call_return_pairing_witness :
    zeroState.WF ∧ zeroState.sp = 0 ∧ sampleCalls.length ≤ 16 ∧
    ∃ t u, runCalls zeroState sampleCalls = some t ∧ t.sp = 3 ∧
      runReturns t 3 = some (u, [0x402, 0x302, 0x202]) ∧ u.sp = 0 :=
  ⟨zeroState_wf, rfl, by decide,
    C8_call_return_pairing zeroState zeroState_wf rfl sampleCalls (by decide)⟩

/-! ## C9: the stack pointer -/

/-- C9 (as amended): on a state whose stack pointer is in 0..16, every handler
that has a defined result leaves the stack pointer in 0..16, and every handler
other than `OP_2nnn` and `OP_00EE` leaves it unchanged; `OP_2nnn` has a result
when the stack pointer is at most 15 and then increments it, `OP_00EE` has a
result when it is at least 1 and then decrements it; at stack pointer 16
`OP_2nnn`, and at stack pointer 0 `OP_00EE`, access the stack outside its
sixteen entries and have no defined result. -/
theorem C9_stack_pointer_range (s : Chip8) (hs : s.WF) (hsp : s.sp ≤ 16) (h : Handler)
    (rnd : Nat) :
    (∀ t, h.run rnd s = some t → t.sp ≤ 16) ∧
    (h ≠ .op2nnn → h ≠ .op00EE → ∀ t, h.run rnd s = some t → t.sp = s.sp) ∧
    (s.sp ≤ 15 → ∃ t, OP_2nnn s = some t ∧ t.sp = s.sp + 1) ∧
    (1 ≤ s.sp → ∃ t, OP_00EE s = some t ∧ t.sp + 1 = s.sp) ∧
    (s.sp = 16 → OP_2nnn s = none) ∧
    (s.sp = 0 → OP_00EE s = none) := by
  have hl := hs.stack_length
  have hcall : s.sp ≤ 15 → ∃ t, OP_2nnn s = some t ∧ t.sp = s.sp + 1 :=
    fun h15 => ⟨_, OP_2nnn_of_lt s (by omega) hl, rfl⟩
  have hret : 1 ≤ s.sp → ∃ t, OP_00EE s = some t ∧ t.sp + 1 = s.sp := by
    intro h1
    refine ⟨_, OP_00EE_of_pos s h1 (by omega) hl, ?_⟩
    show s.sp - 1 + 1 = s.sp
    omega
  have hfull : s.sp = 16 → OP_2nnn s = none := by
    intro h16
    simp only [OP_2nnn, writeAt, h16, hl, Nat.lt_irrefl, if_false, Option.map_none']
  have hempty : s.sp = 0 → OP_00EE s = none := by
    intro h0
    have hge : s.stack.length ≤ 255 := by omega
    simp only [OP_00EE, h0, Nat.zero_add, Nat.reduceMod, List.getElem?_eq_none hge,
      Option.map_none']
  refine ⟨?_, fun h2 hE t ht => untouched_sp.run h rnd s t h2 hE ht, hcall, hret, hfull,
    hempty⟩
  intro t ht
  by_cases h2 : h = .op2nnn
  · subst h2
    simp only [Handler.run] at ht
    by_cases h15 : s.sp ≤ 15
    · obtain ⟨u, hu, husp⟩ := hcall h15
      rw [hu] at ht
      cases ht
      omega
    · rw [hfull (by omega)] at ht
      cases ht
  · by_cases hE : h = .op00EE
    · subst hE
      simp only [Handler.run] at ht
      by_cases h1 : 1 ≤ s.sp
      · obtain ⟨u, hu, husp⟩ := hret h1
        rw [hu] at ht
        cases ht
        omega
      · rw [hempty (by omega)] at ht
        cases ht
    · have hsame : t.sp = s.sp := untouched_sp.run h rnd s t h2 hE ht
      omega

/-- C9, a concrete instance: `OP_2nnn` on the machine with every cell zero. -/
theorem C9_stack_pointer_range_witness :
    zeroState.WF ∧ zeroState.sp ≤ 16 ∧
    ((∀ t, Handler.op2nnn.run 0 zeroState = some t → t.sp ≤ 16) ∧
    (Handler.op2nnn ≠ .op2nnn → Handler.op2nnn ≠ .op00EE →
      ∀ t, Handler.op2nnn.run 0 zeroState = some t → t.sp = zeroState.sp) ∧
    (zeroState.sp ≤ 15 → ∃ t, OP_2nnn zeroState = some t ∧ t.sp = zeroState.sp + 1) ∧
    (1 ≤ zeroState.sp → ∃ t, OP_00EE zeroState = some t ∧ t.sp + 1 = zeroState.sp) ∧
    (zeroState.sp = 16 → OP_2nnn zeroState = none) ∧
    (zeroState.sp = 0 → OP_00EE zeroState = none)) :=
  ⟨zeroState_wf, by decide,
    C9_stack_pointer_range zeroState zeroState_wf (by decide) Handler.op2nnn 0⟩

/-- C9 as stated fails at the two ends of the range: with the stack pointer at
16, `OP_2nnn` writes `stack[16]` and increments the pointer to 17; with the
stack pointer at 0, `OP_00EE` decrements the 8-bit pointer to 255 and reads
`stack[255]`.  Neither access is inside the stack, so neither handler has a
defined result. -/
theorem C9_stack_pointer_leaves_range_counterexample :
    stackFullInput.sp ≤ 16 ∧ stackFullInput.stack.length = 16 ∧
    OP_2nnn stackFullInput = none ∧ (stackFullInput.sp + 1) % 256 = 17 ∧
    zeroState.sp ≤ 16 ∧ OP_00EE zeroState = none ∧ (zeroState.sp + 255) % 256 = 255 := by
  decide

/-! ## C10: conditional skips -/

/-- C10: on a state whose program counter the fetch has advanced from P to
P + 2, each conditional-skip handler adds exactly 2 to the program counter when
its condition holds and returns the state unchanged otherwise, and changes
nothing else: `OP_3xkk` skips iff V[X] = KK, `OP_4xkk` iff V[X] != KK,
`OP_5xy0` iff V[X] = V[Y], `OP_9xy0` iff V[X] != V[Y].  Hence exactly one of
3XKK/4XKK and exactly one of 5XY0/9XY0 skips, and a taken skip leaves pc = P + 4. -/
theorem C10_conditional_skips (s : Chip8) (hs : s.WF) (P : Nat) (hpc : s.pc = P + 2)
    (hP : P + 4 < 65536) :
    ∃ vx vy, s.registers[s.opcode / 256 % 16]? = some vx ∧
      s.registers[s.opcode / 16 % 16]? = some vy ∧
      OP_3xkk s = some (if vx = s.opcode % 256 then { s with pc := s.pc + 2 } else s) ∧
      OP_4xkk s = some (if vx ≠ s.opcode % 256 then { s with pc := s.pc + 2 } else s) ∧
      OP_5xy0 s = some (if vx = vy then { s with pc := s.pc + 2 } else s) ∧
      OP_9xy0 s = some (if vx ≠ vy then { s with pc := s.pc + 2 } else s) ∧
      (∃ t3 t4, OP_3xkk s = some t3 ∧ OP_4xkk s = some t4 ∧
        ((t3.pc = P + 4 ∧ t4.pc = P + 2) ∨ (t3.pc = P + 2 ∧ t4.pc = P + 4))) ∧
      (∃ t5 t9, OP_5xy0 s = some t5 ∧ OP_9xy0 s = some t9 ∧
        ((t5.pc = P + 4 ∧ t9.pc = P + 2) ∨ (t5.pc = P + 2 ∧ t9.pc = P + 4))) := by
  have hl := hs.registers_length
  have hx : s.opcode / 256 % 16 < s.registers.length := by omega
  have hy : s.opcode / 16 % 16 < s.registers.length := by omega
  have hmod : (s.pc + 2) % 65536 = s.pc + 2 := by omega
  have h3 : OP_3xkk s = some (if s.registers[s.opcode / 256 % 16] = s.opcode % 256 then
      { s with pc := s.pc + 2 } else s) := by
    simp only [OP_3xkk, fieldX_eq, fieldKK_eq, List.getElem?_eq_getElem hx, Option.map_some',
      hmod]
  have h4 : OP_4xkk s = some (if s.registers[s.opcode / 256 % 16] ≠ s.opcode % 256 then
      { s with pc := s.pc + 2 } else s) := by
    simp only [OP_4xkk, fieldX_eq, fieldKK_eq, List.getElem?_eq_getElem hx, Option.map_some',
      hmod]
  have h5 : OP_5xy0 s = some (if s.registers[s.opcode / 256 % 16] =
      s.registers[s.opcode / 16 % 16] then { s with pc := s.pc + 2 } else s) := by
    simp only [OP_5xy0, fieldX_eq, fieldY_eq, List.getElem?_eq_getElem hx,
      List.getElem?_eq_getElem hy, Option.some_bind, Option.map_some', hmod]
  have h9 : OP_9xy0 s = some (if s.registers[s.opcode / 256 % 16] ≠
      s.registers[s.opcode / 16 % 16] then { s with pc := s.pc + 2 } else s) := by
    simp only [OP_9xy0, fieldX_eq, fieldY_eq, List.getElem?_eq_getElem hx,
      List.getElem?_eq_getElem hy, Option.some_bind, Option.map_some', hmod]
  have hskip : s.pc + 2 = P + 4 := by omega
  refine ⟨_, _, List.getElem?_eq_getElem hx, List.getElem?_eq_getElem hy, h3, h4, h5, h9,
    ⟨_, _, h3, h4, ?_⟩, ⟨_, _, h5, h9, ?_⟩⟩
  · by_cases hc : s.registers[s.opcode / 256 % 16] = s.opcode % 256
    · left
      rw [if_pos hc, if_neg (not_not.mpr hc)]
      exact ⟨hskip, hpc⟩
    · right
      rw [if_neg hc, if_pos hc]
      exact ⟨hpc, hskip⟩
  · by_cases hc : s.registers[s.opcode / 256 % 16] = s.registers[s.opcode / 16 % 16]
    · left
      rw [if_pos hc, if_neg (not_not.mpr hc)]
      exact ⟨hskip, hpc⟩
    · right
      rw [if_neg hc, if_pos hc]
      exact ⟨hpc, hskip⟩

/-- C10, a concrete instance: the word `3264` with V[2] = 100 = KK and V[6] = 0,
the program counter advanced from 0x1FE to 0x200. -/
theorem C10_conditional_skips_witness :
    skipInput.WF ∧ skipInput.pc = 0x1FE + 2 ∧
    ∃ vx vy, skipInput.registers[skipInput.opcode / 256 % 16]? = some vx ∧
      skipInput.registers[skipInput.opcode / 16 % 16]? = some vy ∧
      OP_3xkk skipInput = some (if vx = skipInput.opcode % 256 then
        { skipInput with pc := skipInput.pc + 2 } else skipInput) ∧
      OP_4xkk skipInput = some (if vx ≠ skipInput.opcode % 256 then
        { skipInput with pc := skipInput.pc + 2 } else skipInput) ∧
      OP_5xy0 skipInput = some (if vx = vy then
        { skipInput with pc := skipInput.pc + 2 } else skipInput) ∧
      OP_9xy0 skipInput = some (if vx ≠ vy then
        { skipInput with pc := skipInput.pc + 2 } else skipInput) ∧
      (∃ t3 t4, OP_3xkk skipInput = some t3 ∧ OP_4xkk skipInput = some t4 ∧
        ((t3.pc = 0x1FE + 4 ∧ t4.pc = 0x1FE + 2) ∨
          (t3.pc = 0x1FE + 2 ∧ t4.pc = 0x1FE + 4))) ∧
      (∃ t5 t9, OP_5xy0 skipInput = some t5 ∧ OP_9xy0 skipInput = some t9 ∧
        ((t5.pc = 0x1FE + 4 ∧ t9.pc = 0x1FE + 2) ∨
          (t5.pc = 0x1FE + 2 ∧ t9.pc = 0x1FE + 4))) :=
  ⟨skipInput_wf, by decide,
    C10_conditional_skips skipInput skipInput_wf 0x1FE (by decide) (by decide)⟩

/-! ## Frames: what a handler leaves alone -/

theorem frame_setReg {α : Type} {f : Chip8 → α}
    (hreg : ∀ (s : Chip8) (r : List Nat), f { s with registers := r } = f s)
    {s t : Chip8} {i v : Nat} (h : setReg s i v = some t) : f t = f s := by
  rw [setReg_some h]; exact hreg _ _

theorem frame_setMem {α : Type} {f : Chip8 → α}
    (hmem : ∀ (s : Chip8) (m : List Nat), f { s with memory := m } = f s)
    {s t : Chip8} {i v : Nat} (h : setMem s i v = some t) : f t = f s := by
  rw [setMem_some h]; exact hmem _ _

theorem frame_skip {α : Type} {f : Chip8 → α}
    (hpc : ∀ (s : Chip8) (p : Nat), f { s with pc := p } = f s)
    (s : Chip8) (c : Prop) [Decidable c] :
    f (if c then { s with pc := (s.pc + 2) % 65536 } else s) = f s := by
  split
  · exact hpc _ _
  · rfl

theorem frame_flag {α : Type} {f : Chip8 → α}
    (hreg : ∀ (s : Chip8) (r : List Nat), f { s with registers := r } = f s)
    {s t : Chip8} (c : Prop) [Decidable c]
    (h : (if c then setReg s 0xF 1 else setReg s 0xF 0) = some t) : f t = f s := by
  split at h <;> exact frame_setReg hreg h

theorem frame_seq {α : Type} {f : Chip8 → α} {s t : Chip8} {x : Option Chip8}
    {g : Chip8 → Option Chip8} (hx : ∀ u, x = some u → f u = f s)
    (hg : ∀ u v, g u = some v → f v = f u) (h : x.bind g = some t) : f t = f s := by
  simp only [Option.bind_eq_some] at h
  obtain ⟨u, hu, ht⟩ := h
  exact (hg u t ht).trans (hx u hu)

theorem frame_drawPixel {α : Type} {f : Chip8 → α}
    (hreg : ∀ (s : Chip8) (r : List Nat), f { s with registers := r } = f s)
    (hvid : ∀ (s : Chip8) (v : List Nat), f { s with video := v } = f s)
    {xPos yPos row b col : Nat} {s t : Chip8}
    (h : drawPixel xPos yPos row b col s = some t) : f t = f s := by
  simp only [drawPixel] at h
  by_cases hp : (b &&& (0x80 >>> col)) % 256 ≠ 0
  · rw [if_pos hp] at h
    simp only [Option.bind_eq_some, Option.map_eq_some'] at h
    obtain ⟨cell, -, s1, h1, vid, -, rfl⟩ := h
    refine (hvid _ _).trans ?_
    by_cases hc : cell = 0xFFFFFFFF
    · rw [if_pos hc] at h1
      exact frame_setReg hreg h1
    · rw [if_neg hc] at h1
      cases h1; rfl
  · rw [if_neg hp] at h
    cases h; rfl

theorem frame_drawRow {α : Type} {f : Chip8 → α}
    (hreg : ∀ (s : Chip8) (r : List Nat), f { s with registers := r } = f s)
    (hvid : ∀ (s : Chip8) (v : List Nat), f { s with video := v } = f s)
    {xPos yPos row : Nat} {s t : Chip8}
    (h : drawRow xPos yPos row s = some t) : f t = f s := by
  simp only [drawRow] at h
  refine of_bind (P := fun u => f u = f s) (fun b u hb => ?_) h
  exact forLoop_preserves _ (fun u => f u = f s)
    (fun i u u' hu hu' => (frame_drawPixel hreg hvid hu').trans hu) 8 s u rfl hb

theorem frame_keyBranch {α : Type} {f : Chip8 → α}
    (hreg : ∀ (s : Chip8) (r : List Nat), f { s with registers := r } = f s)
    {s t : Chip8} {Vx k : Nat} {rest : Unit → Option Chip8}
    (hrest : ∀ u, rest () = some u → f u = f s) (h : keyBranch s Vx k rest = some t) :
    f t = f s := by
  simp only [keyBranch] at h
  refine of_bind (P := fun u => f u = f s) (fun p u hp => ?_) h
  split at hp
  · exact frame_setReg hreg hp
  · exact hrest u hp

theorem Ignores.of_run {α : Type} {f : Chip8 → α} {W : List Field} (hf : Ignores f W)
    (h : Handler) (rnd : Nat) (s t : Chip8) (hW : ∀ x ∈ h.footprint, x ∈ W)
    (hrun : h.run rnd s = some t) : f t = f s := by
  cases h <;> simp only [Handler.run] at hrun
  case op00E0 =>
    have hvid := hf.video (hW _ (by decide))
    simp only [OP_00E0, Option.some.injEq] at hrun
    rw [← hrun]; exact hvid _ _
  case op00EE =>
    have hsp := hf.sp (hW _ (by decide))
    have hpc := hf.pc (hW _ (by decide))
    simp only [OP_00EE] at hrun
    refine of_map (P := fun u => f u = f s) (fun top => ?_) hrun
    exact (hpc { s with sp := (s.sp + 255) % 256 } top).trans (hsp s _)
  case op1nnn =>
    have hpc := hf.pc (hW _ (by decide))
    simp only [OP_1nnn, Option.some.injEq] at hrun
    rw [← hrun]; exact hpc _ _
  case op2nnn =>
    have hstk := hf.stack (hW _ (by decide))
    have hsp := hf.sp (hW _ (by decide))
    have hpc := hf.pc (hW _ (by decide))
    simp only [OP_2nnn] at hrun
    refine of_map (P := fun u => f u = f s) (fun stk => ?_) hrun
    exact (hpc { s with stack := stk, sp := (s.sp + 1) % 256 } _).trans
      ((hsp { s with stack := stk } _).trans (hstk s stk))
  case op3xkk =>
    have hpc := hf.pc (hW _ (by decide))
    simp only [OP_3xkk] at hrun
    exact of_map (P := fun u => f u = f s) (fun rx => frame_skip hpc s _) hrun
  case op4xkk =>
    have hpc := hf.pc (hW _ (by decide))
    simp only [OP_4xkk] at hrun
    exact of_map (P := fun u => f u = f s) (fun rx => frame_skip hpc s _) hrun
  case op5xy0 =>
    have hpc := hf.pc (hW _ (by decide))
    simp only [OP_5xy0] at hrun
    exact of_bind (P := fun u => f u = f s)
      (fun rx u h => of_map (P := fun u => f u = f s) (fun ry => frame_skip hpc s _) h) hrun
  case op9xy0 =>
    have hpc := hf.pc (hW _ (by decide))
    simp only [OP_9xy0] at hrun
    exact of_bind (P := fun u => f u = f s)
      (fun rx u h => of_map (P := fun u => f u = f s) (fun ry => frame_skip hpc s _) h) hrun
  case op6xkk =>
    have hreg := hf.registers (hW _ (by decide))
    simp only [OP_6xkk] at hrun
    exact frame_setReg hreg hrun
  case opCnnn =>
    have hreg := hf.registers (hW _ (by decide))
    simp only [OP_Cnnn] at hrun
    exact frame_setReg hreg hrun
  case opCxkk =>
    have hreg := hf.registers (hW _ (by decide))
    simp only [OP_Cxkk] at hrun
    exact frame_setReg hreg hrun
  case opFx07 =>
    have hreg := hf.registers (hW _ (by decide))
    simp only [OP_Fx07] at hrun
    exact frame_setReg hreg hrun
  case op7xkk =>
    have hreg := hf.registers (hW _ (by decide))
    simp only [OP_7xkk] at hrun
    exact of_bind (P := fun u => f u = f s) (fun rx u h => frame_setReg hreg h) hrun
  case op8xy0 =>
    have hreg := hf.registers (hW _ (by decide))
    simp only [OP_8xy0] at hrun
    exact of_bind (P := fun u => f u = f s) (fun rx u h => frame_setReg hreg h) hrun
  case op8xy1 =>
    have hreg := hf.registers (hW _ (by decide))
    simp only [OP_8xy1] at hrun
    exact of_bind (P := fun u => f u = f s)
      (fun rx u h => of_bind (P := fun u => f u = f s) (fun ry u h => frame_setReg hreg h) h) hrun
  case op8xy2 =>
    have hreg := hf.registers (hW _ (by decide))
    simp only [OP_8xy2] at hrun
    exact of_bind (P := fun u => f u = f s)
      (fun rx u h => of_bind (P := fun u => f u = f s) (fun ry u h => frame_setReg hreg h) h) hrun
  case op8xy3 =>
    have hreg := hf.registers (hW _ (by decide))
    simp only [OP_8xy3] at hrun
    exact of_bind (P := fun u => f u = f s)
      (fun rx u h => of_bind (P := fun u => f u = f s) (fun ry u h => frame_setReg hreg h) h) hrun
  case op8xy4 =>
    have hreg := hf.registers (hW _ (by decide))
    simp only [OP_8xy4] at hrun
    refine of_bind (P := fun u => f u = f s) (fun rx u h => ?_) hrun
    refine of_bind (P := fun u => f u = f s) (fun ry u h => ?_) h
    exact frame_seq (fun u hu => frame_flag hreg _ hu) (fun u v hv => frame_setReg hreg hv) h
  case op8xy5 =>
    have hreg := hf.registers (hW _ (by decide))
    simp only [OP_8xy5] at hrun
    refine of_bind (P := fun u => f u = f s) (fun rx u h => ?_) hrun
    refine of_bind (P := fun u => f u = f s) (fun ry u h => ?_) h
    refine frame_seq (fun u hu => frame_flag hreg _ hu) (fun u v hv => ?_) h
    refine of_bind (P := fun w => f w = f u) (fun rx1 w h => ?_) hv
    exact of_bind (P := fun w => f w = f u) (fun ry1 w h => frame_setReg hreg h) h
  case op8xy7 =>
    have hreg := hf.registers (hW _ (by decide))
    simp only [OP_8xy7] at hrun
    refine of_bind (P := fun u => f u = f s) (fun rx u h => ?_) hrun
    refine of_bind (P := fun u => f u = f s) (fun ry u h => ?_) h
    refine frame_seq (fun u hu => frame_flag hreg _ hu) (fun u v hv => ?_) h
    refine of_bind (P := fun w => f w = f u) (fun rx1 w h => ?_) hv
    exact of_bind (P := fun w => f w = f u) (fun ry1 w h => frame_setReg hreg h) h
  case op8xy6 =>
    have hreg := hf.registers (hW _ (by decide))
    simp only [OP_8xy6] at hrun
    refine of_bind (P := fun u => f u = f s) (fun rx u h => ?_) hrun
    refine frame_seq (fun u hu => frame_setReg hreg hu) (fun u v hv => ?_) h
    exact of_bind (P := fun w => f w = f u) (fun rx1 w h => frame_setReg hreg h) hv
  case op8xyE =>
    have hreg := hf.registers (hW _ (by decide))
    simp only [OP_8xyE] at hrun
    refine of_bind (P := fun u => f u = f s) (fun rx u h => ?_) hrun
    refine frame_seq (fun u hu => frame_setReg hreg hu) (fun u v hv => ?_) h
    exact of_bind (P := fun w => f w = f u) (fun rx1 w h => frame_setReg hreg h) hv
  case opAnnn =>
    have hidx := hf.index (hW _ (by decide))
    simp only [OP_Annn, Option.some.injEq] at hrun
    rw [← hrun]; exact hidx _ _
  case opBnnn =>
    have hpc := hf.pc (hW _ (by decide))
    simp only [OP_Bnnn] at hrun
    exact of_map (P := fun u => f u = f s) (fun r0 => hpc _ _) hrun
  case opDxyn =>
    have hreg := hf.registers (hW _ (by decide))
    have hvid := hf.video (hW _ (by decide))
    simp only [OP_Dxyn] at hrun
    refine of_bind (P := fun u => f u = f s) (fun o u h => ?_) hrun
    refine frame_seq (fun u hu => frame_setReg hreg hu) (fun u v hv => ?_) h
    exact forLoop_preserves _ (fun w => f w = f u)
      (fun i w w' hw hw' => (frame_drawRow hreg hvid hw').trans hw) _ u v rfl hv
  case opEx9E =>
    have hpc := hf.pc (hW _ (by decide))
    simp only [OP_Ex9E] at hrun
    refine of_bind (P := fun u => f u = f s) (fun key u h => ?_) hrun
    refine of_map (P := fun u => f u = f s) (fun pressed => ?_) h
    split
    · exact hpc _ _
    · rfl
  case opExA1 =>
    have hpc := hf.pc (hW _ (by decide))
    simp only [OP_ExA1] at hrun
    refine of_bind (P := fun u => f u = f s) (fun key u h => ?_) hrun
    refine of_map (P := fun u => f u = f s) (fun pressed => ?_) h
    split
    · exact hpc _ _
    · rfl
  case opFx0A =>
    have hreg := hf.registers (hW _ (by decide))
    have hpc := hf.pc (hW _ (by decide))
    simp only [OP_Fx0A] at hrun
    refine frame_keyBranch hreg (fun u h => ?_) hrun
    iterate 15 refine frame_keyBranch hreg (fun u h => ?_) h
    simp only [Option.some.injEq] at h
    rw [← h]; exact hpc _ _
  case opFx15 =>
    have hdt := hf.delayTimer (hW _ (by decide))
    simp only [OP_Fx15] at hrun
    exact of_map (P := fun u => f u = f s) (fun rx => hdt _ _) hrun
  case opFx18 =>
    have hst := hf.soundTimer (hW _ (by decide))
    simp only [OP_Fx18] at hrun
    exact of_map (P := fun u => f u = f s) (fun rx => hst _ _) hrun
  case opFx1E =>
    have hidx := hf.index (hW _ (by decide))
    simp only [OP_Fx1E] at hrun
    exact of_map (P := fun u => f u = f s) (fun rx => hidx _ _) hrun
  case opFx29 =>
    have hidx := hf.index (hW _ (by decide))
    simp only [OP_Fx29] at hrun
    exact of_map (P := fun u => f u = f s) (fun rx => hidx _ _) hrun
  case opFx33 =>
    have hmem := hf.memory (hW _ (by decide))
    simp only [OP_Fx33] at hrun
    refine of_bind (P := fun u => f u = f s) (fun value u h => ?_) hrun
    refine frame_seq (fun u hu => frame_setMem hmem hu) (fun u v hv => ?_) h
    exact frame_seq (fun w hw => frame_setMem hmem hw) (fun w x hx => frame_setMem hmem hx) hv
  case opFx55 =>
    have hmem := hf.memory (hW _ (by decide))
    simp only [OP_Fx55] at hrun
    refine forLoop_preserves _ (fun u => f u = f s) (fun i u u' hu hu' => ?_) _ s t rfl hrun
    exact (of_bind (P := fun w => f w = f u) (fun ri w h => frame_setMem hmem h) hu').trans hu
  case opFx65 =>
    have hreg := hf.registers (hW _ (by decide))
    simp only [OP_Fx65] at hrun
    refine forLoop_preserves _ (fun u => f u = f s) (fun i u u' hu hu' => ?_) _ s t rfl hrun
    exact (of_bind (P := fun w => f w = f u) (fun mi w h => frame_setReg hreg h) hu').trans hu

/-! ## Handlers whose array accesses are always in range -/

theorem defined_setReg {s : Chip8} {i : Nat} (v : Nat) (hi : i < s.registers.length) :
    ∃ t, setReg s i v = some t ∧ t.registers.length = s.registers.length :=
  ⟨_, setReg_of_lt s i v hi, List.length_set _ _ _⟩

theorem defined_bind_read {α β : Type} {Q : β → Prop} {l : List α} {i : Nat}
    {k : α → Option β} (hi : i < l.length) (hk : ∀ v, ∃ t, k v = some t ∧ Q t) :
    ∃ t, (l[i]?).bind k = some t ∧ Q t := by
  rw [List.getElem?_eq_getElem hi, Option.some_bind]
  exact hk _

theorem defined_map_read {α β : Type} {l : List α} {i : Nat} (k : α → β)
    (hi : i < l.length) : ∃ t, (l[i]?).map k = some t := by
  rw [List.getElem?_eq_getElem hi, Option.map_some']
  exact ⟨_, rfl⟩

theorem defined_bind_state {β : Type} {R : Chip8 → Prop} {Q : β → Prop}
    {x : Option Chip8} {g : Chip8 → Option β} (hx : ∃ u, x = some u ∧ R u)
    (hg : ∀ u, R u → ∃ t, g u = some t ∧ Q t) : ∃ t, x.bind g = some t ∧ Q t := by
  obtain ⟨u, hu, hr⟩ := hx
  rw [hu, Option.some_bind]
  exact hg u hr

theorem defined_flag {s : Chip8} (c : Prop) [Decidable c] (h15 : 15 < s.registers.length) :
    ∃ t, (if c then setReg s 0xF 1 else setReg s 0xF 0) = some t ∧
      t.registers.length = s.registers.length := by
  split
  · exact defined_setReg 1 h15
  · exact defined_setReg 0 h15

/-- The handlers that only read and write registers, the index register, the
timers or the whole framebuffer: on a well-formed state every array access they
make is in range. -/
theorem Handler.run_defined (s : Chip8) (hs : s.WF) (rnd : Nat) (h : Handler)
    (hmem : h ∈ registerHandlers) : ∃ t, h.run rnd s = some t := by
  have hl := hs.registers_length
  have hx : s.opcode / 256 % 16 < s.registers.length := by omega
  have hy : s.opcode / 16 % 16 < s.registers.length := by omega
  have h15 : 15 < s.registers.length := by omega
  cases h <;> first
    | exact absurd hmem (by decide)
    | skip
  case op00E0 => exact ⟨_, rfl⟩
  case opAnnn => exact ⟨_, rfl⟩
  case op6xkk =>
    simp only [Handler.run, OP_6xkk, fieldX_eq]
    exact ⟨_, setReg_of_lt s _ _ hx⟩
  case opCnnn =>
    simp only [Handler.run, OP_Cnnn, fieldX_eq]
    exact ⟨_, setReg_of_lt s _ _ hx⟩
  case opCxkk =>
    simp only [Handler.run, OP_Cxkk, fieldX_eq]
    exact ⟨_, setReg_of_lt s _ _ hx⟩
  case opFx07 =>
    simp only [Handler.run, OP_Fx07, fieldX_eq]
    exact ⟨_, setReg_of_lt s _ _ hx⟩
  case op7xkk =>
    simp only [Handler.run, OP_7xkk, fieldX_eq]
    obtain ⟨t, ht, -⟩ := defined_bind_read (Q := fun u : Chip8 => u.registers.length = 16) hx
      (fun rx => hl ▸ defined_setReg _ hx)
    exact ⟨t, ht⟩
  case op8xy0 =>
    simp only [Handler.run, OP_8xy0, fieldX_eq, fieldY_eq]
    obtain ⟨t, ht, -⟩ := defined_bind_read (Q := fun u : Chip8 => u.registers.length = 16) hy
      (fun ry => hl ▸ defined_setReg _ hx)
    exact ⟨t, ht⟩
  case op8xy1 =>
    simp only [Handler.run, OP_8xy1, fieldX_eq, fieldY_eq]
    obtain ⟨t, ht, -⟩ := defined_bind_read (Q := fun u : Chip8 => u.registers.length = 16) hx
      (fun rx => defined_bind_read hy (fun ry => hl ▸ defined_setReg _ hx))
    exact ⟨t, ht⟩
  case op8xy2 =>
    simp only [Handler.run, OP_8xy2, fieldX_eq, fieldY_eq]
    obtain ⟨t, ht, -⟩ := defined_bind_read (Q := fun u : Chip8 => u.registers.length = 16) hx
      (fun rx => defined_bind_read hy (fun ry => hl ▸ defined_setReg _ hx))
    exact ⟨t, ht⟩
  case op8xy3 =>
    simp only [Handler.run, OP_8xy3, fieldX_eq, fieldY_eq]
    obtain ⟨t, ht, -⟩ := defined_bind_read (Q := fun u : Chip8 => u.registers.length = 16) hx
      (fun rx => defined_bind_read hy (fun ry => hl ▸ defined_setReg _ hx))
    exact ⟨t, ht⟩
  case op8xy4 =>
    simp only [Handler.run, OP_8xy4, fieldX_eq, fieldY_eq]
    obtain ⟨t, ht, -⟩ := defined_bind_read (Q := fun u : Chip8 => True) hx
      (fun rx => defined_bind_read hy (fun ry =>
        defined_bind_state (defined_flag ((rx + ry) % 65536 > 255) h15) (fun u hu =>
          ⟨_, setReg_of_lt u _ _ (hu ▸ hx), trivial⟩)))
    exact ⟨t, ht⟩
  case op8xy5 =>
    simp only [Handler.run, OP_8xy5, fieldX_eq, fieldY_eq]
    obtain ⟨t, ht, -⟩ := defined_bind_read (Q := fun u : Chip8 => True) hx
      (fun rx => defined_bind_read hy (fun ry =>
        defined_bind_state (defined_flag (rx > ry) h15) (fun u hu =>
          defined_bind_read (hu ▸ hx) (fun rx1 => defined_bind_read (hu ▸ hy) (fun ry1 =>
            ⟨_, setReg_of_lt u _ _ (hu ▸ hx), trivial⟩)))))
    exact ⟨t, ht⟩
  case op8xy7 =>
    simp only [Handler.run, OP_8xy7, fieldX_eq, fieldY_eq]
    obtain ⟨t, ht, -⟩ := defined_bind_read (Q := fun u : Chip8 => True) hy
      (fun ry => defined_bind_read hx (fun rx =>
        defined_bind_state (defined_flag (ry > rx) h15) (fun u hu =>
          defined_bind_read (hu ▸ hy) (fun ry1 => defined_bind_read (hu ▸ hx) (fun rx1 =>
            ⟨_, setReg_of_lt u _ _ (hu ▸ hx), trivial⟩)))))
    exact ⟨t, ht⟩
  case op8xy6 =>
    simp only [Handler.run, OP_8xy6, fieldX_eq]
    obtain ⟨t, ht, -⟩ := defined_bind_read (Q := fun u : Chip8 => True) hx
      (fun rx => defined_bind_state (defined_setReg _ h15) (fun u hu =>
        defined_bind_read (hu ▸ hx) (fun rx1 =>
          ⟨_, setReg_of_lt u _ _ (hu ▸ hx), trivial⟩)))
    exact ⟨t, ht⟩
  case op8xyE =>
    simp only [Handler.run, OP_8xyE, fieldX_eq]
    obtain ⟨t, ht, -⟩ := defined_bind_read (Q := fun u : Chip8 => True) hx
      (fun rx => defined_bind_state (defined_setReg _ h15) (fun u hu =>
        defined_bind_read (hu ▸ hx) (fun rx1 =>
          ⟨_, setReg_of_lt u _ _ (hu ▸ hx), trivial⟩)))
    exact ⟨t, ht⟩
  case opFx15 =>
    simp only [Handler.run, OP_Fx15, fieldX_eq]
    exact defined_map_read _ hx
  case opFx18 =>
    simp only [Handler.run, OP_Fx18, fieldX_eq]
    exact defined_map_read _ hx
  case opFx1E =>
    simp only [Handler.run, OP_Fx1E, fieldX_eq]
    exact defined_map_read _ hx
  case opFx29 =>
    simp only [Handler.run, OP_Fx29, fieldX_eq]
    exact defined_map_read _ hx

/-! ## The key wait `FX0A` -/

theorem keyBranch_pressed {s : Chip8} {Vx k : Nat} {rest : Unit → Option Chip8}
    (h : s.keypad[k]? = some true) : keyBranch s Vx k rest = setReg s Vx k := by
  simp only [keyBranch, h, Option.some_bind, if_true]

theorem keyBranch_released {s : Chip8} {Vx k : Nat} {rest : Unit → Option Chip8}
    (h : s.keypad[k]? = some false) : keyBranch s Vx k rest = rest () := by
  simp only [keyBranch, h, Option.some_bind, Bool.false_eq_true, if_false]

theorem OP_Fx0A_pressed (s : Chip8) (k : Nat) (hk : k < 16)
    (hp : s.keypad[k]? = some true) (hlow : ∀ j, j < k → s.keypad[j]? = some false) :
    OP_Fx0A s = setReg s (s.opcode / 256 % 16) k := by
  simp only [OP_Fx0A, fieldX_eq]
  interval_cases k
  · rw [keyBranch_pressed hp]
  · rw [keyBranch_released (hlow 0 (by decide)), keyBranch_pressed hp]
  · rw [keyBranch_released (hlow 0 (by decide)), keyBranch_released (hlow 1 (by decide)),
      keyBranch_pressed hp]
  · rw [keyBranch_released (hlow 0 (by decide)), keyBranch_released (hlow 1 (by decide)),
      keyBranch_released (hlow 2 (by decide)), keyBranch_pressed hp]
  · rw [keyBranch_released (hlow 0 (by decide)), keyBranch_released (hlow 1 (by decide)),
      keyBranch_released (hlow 2 (by decide)), keyBranch_released (hlow 3 (by decide)),
      keyBranch_pressed hp]
  · rw [keyBranch_released (hlow 0 (by decide)), keyBranch_released (hlow 1 (by decide)),
      keyBranch_released (hlow 2 (by decide)), keyBranch_released (hlow 3 (by decide)),
      keyBranch_released (hlow 4 (by decide)), keyBranch_pressed hp]
  · rw [keyBranch_released (hlow 0 (by decide)), keyBranch_released (hlow 1 (by decide)),
      keyBranch_released (hlow 2 (by decide)), keyBranch_released (hlow 3 (by decide)),
      keyBranch_released (hlow 4 (by decide)), keyBranch_released (hlow 5 (by decide)),
      keyBranch_pressed hp]
  · rw [keyBranch_released (hlow 0 (by decide)), keyBranch_released (hlow 1 (by decide)),
      keyBranch_released (hlow 2 (by decide)), keyBranch_released (hlow 3 (by decide)),
      keyBranch_released (hlow 4 (by decide)), keyBranch_released (hlow 5 (by decide)),
      keyBranch_released (hlow 6 (by decide)), keyBranch_pressed hp]
  · rw [keyBranch_released (hlow 0 (by decide)), keyBranch_released (hlow 1 (by decide)),
      keyBranch_released (hlow 2 (by decide)), keyBranch_released (hlow 3 (by decide)),
      keyBranch_released (hlow 4 (by decide)), keyBranch_released (hlow 5 (by decide)),
      keyBranch_released (hlow 6 (by decide)), keyBranch_released (hlow 7 (by decide)),
      keyBranch_pressed hp]
  · rw [keyBranch_released (hlow 0 (by decide)), keyBranch_released (hlow 1 (by decide)),
      keyBranch_released (hlow 2 (by decide)), keyBranch_released (hlow 3 (by decide)),
      keyBranch_released (hlow 4 (by decide)), keyBranch_released (hlow 5 (by decide)),
      keyBranch_released (hlow 6 (by decide)), keyBranch_released (hlow 7 (by decide)),
      keyBranch_released (hlow 8 (by decide)), keyBranch_pressed hp]
  · rw [keyBranch_released (hlow 0 (by decide)), keyBranch_released (hlow 1 (by decide)),
      keyBranch_released (hlow 2 (by decide)), keyBranch_released (hlow 3 (by decide)),
      keyBranch_released (hlow 4 (by decide)), keyBranch_released (hlow 5 (by decide)),
      keyBranch_released (hlow 6 (by decide)), keyBranch_released (hlow 7 (by decide)),
      keyBranch_released (hlow 8 (by decide)), keyBranch_released (hlow 9 (by decide)),
      keyBranch_pressed hp]
  · rw [keyBranch_released (hlow 0 (by decide)), keyBranch_released (hlow 1 (by decide)),
      keyBranch_released (hlow 2 (by decide)), keyBranch_released (hlow 3 (by decide)),
      keyBranch_released (hlow 4 (by decide)), keyBranch_released (hlow 5 (by decide)),
      keyBranch_released (hlow 6 (by decide)), keyBranch_released (hlow 7 (by decide)),
      keyBranch_released (hlow 8 (by decide)), keyBranch_released (hlow 9 (by decide)),
      keyBranch_released (hlow 10 (by decide)), keyBranch_pressed hp]
  · rw [keyBranch_released (hlow 0 (by decide)), keyBranch_released (hlow 1 (by decide)),
      keyBranch_released (hlow 2 (by decide)), keyBranch_released (hlow 3 (by decide)),
      keyBranch_released (hlow 4 (by decide)), keyBranch_released (hlow 5 (by decide)),
      keyBranch_released (hlow 6 (by decide)), keyBranch_released (hlow 7 (by decide)),
      keyBranch_released (hlow 8 (by decide)), keyBranch_released (hlow 9 (by decide)),
      keyBranch_released (hlow 10 (by decide)), keyBranch_released (hlow 11 (by decide)),
      keyBranch_pressed hp]
  · rw [keyBranch_released (hlow 0 (by decide)), keyBranch_released (hlow 1 (by decide)),
      keyBranch_released (hlow 2 (by decide)), keyBranch_released (hlow 3 (by decide)),
      keyBranch_released (hlow 4 (by decide)), keyBranch_released (hlow 5 (by decide)),
      keyBranch_released (hlow 6 (by decide)), keyBranch_released (hlow 7 (by decide)),
      keyBranch_released (hlow 8 (by decide)), keyBranch_released (hlow 9 (by decide)),
      keyBranch_released (hlow 10 (by decide)), keyBranch_released (hlow 11 (by decide)),
      keyBranch_released (hlow 12 (by decide)), keyBranch_pressed hp]
  · rw [keyBranch_released (hlow 0 (by decide)), keyBranch_released (hlow 1 (by decide)),
      keyBranch_released (hlow 2 (by decide)), keyBranch_released (hlow 3 (by decide)),
      keyBranch_released (hlow 4 (by decide)), keyBranch_released (hlow 5 (by decide)),
      keyBranch_released (hlow 6 (by decide)), keyBranch_released (hlow 7 (by decide)),
      keyBranch_released (hlow 8 (by decide)), keyBranch_released (hlow 9 (by decide)),
      keyBranch_released (hlow 10 (by decide)), keyBranch_released (hlow 11 (by decide)),
      keyBranch_released (hlow 12 (by decide)), keyBranch_released (hlow 13 (by decide)),
      keyBranch_pressed hp]
  · rw [keyBranch_released (hlow 0 (by decide)), keyBranch_released (hlow 1 (by decide)),
      keyBranch_released (hlow 2 (by decide)), keyBranch_released (hlow 3 (by decide)),
      keyBranch_released (hlow 4 (by decide)), keyBranch_released (hlow 5 (by decide)),
      keyBranch_released (hlow 6 (by decide)), keyBranch_released (hlow 7 (by decide)),
      keyBranch_released (hlow 8 (by decide)), keyBranch_released (hlow 9 (by decide)),
      keyBranch_released (hlow 10 (by decide)), keyBranch_released (hlow 11 (by decide)),
      keyBranch_released (hlow 12 (by decide)), keyBranch_released (hlow 13 (by decide)),
      keyBranch_released (hlow 14 (by decide)), keyBranch_pressed hp]

theorem OP_Fx0A_released (s : Chip8) (hall : ∀ j, j < 16 → s.keypad[j]? = some false) :
    OP_Fx0A s = some { s with pc := (s.pc + 65534) % 65536 } := by
  simp only [OP_Fx0A]
  rw [keyBranch_released (hall 0 (by decide)), keyBranch_released (hall 1 (by decide)),
    keyBranch_released (hall 2 (by decide)), keyBranch_released (hall 3 (by decide)),
    keyBranch_released (hall 4 (by decide)), keyBranch_released (hall 5 (by decide)),
    keyBranch_released (hall 6 (by decide)), keyBranch_released (hall 7 (by decide)),
    keyBranch_released (hall 8 (by decide)), keyBranch_released (hall 9 (by decide)),
    keyBranch_released (hall 10 (by decide)), keyBranch_released (hall 11 (by decide)),
    keyBranch_released (hall 12 (by decide)), keyBranch_released (hall 13 (by decide)),
    keyBranch_released (hall 14 (by decide)), keyBranch_released (hall 15 (by decide))]

theorem key_released_of_not_pressed {s : Chip8} (hl : s.keypad.length = 16) {j : Nat}
    (hj : j < 16) (h : s.keypad[j]? ≠ some true) : s.keypad[j]? = some false := by
  have hlt : j < s.keypad.length := by omega
  rw [List.getElem?_eq_getElem hlt] at h ⊢
  cases hb : s.keypad[j] with
  | false => rfl
  | true => rw [hb] at h; exact absurd rfl h

theorem first_pressed_key {s : Chip8} (hl : s.keypad.length = 16)
    (h : ∃ k, k < 16 ∧ s.keypad[k]? = some true) :
    ∃ k, k < 16 ∧ s.keypad[k]? = some true ∧ ∀ j, j < k → s.keypad[j]? = some false := by
  classical
  refine ⟨Nat.find h, (Nat.find_spec h).1, (Nat.find_spec h).2, ?_⟩
  intro j hj
  have hj16 : j < 16 := Nat.lt_trans hj (Nat.find_spec h).1
  refine key_released_of_not_pressed hl hj16 (fun hp => ?_)
  exact Nat.find_min h hj ⟨hj16, hp⟩

theorem keyWaitInput_wf : keyWaitInput.WF := zeroState_wf.with_opcode _ (by decide)

theorem keyPressedInput_wf : keyPressedInput.WF :=
  ⟨zeroState_wf.registers_length, zeroState_wf.registers_byte, zeroState_wf.memory_length,
    zeroState_wf.memory_byte, zeroState_wf.index_lt, zeroState_wf.pc_lt,
    zeroState_wf.stack_length, zeroState_wf.stack_word, zeroState_wf.sp_lt,
    zeroState_wf.delayTimer_lt, zeroState_wf.soundTimer_lt, by decide,
    zeroState_wf.video_length, zeroState_wf.video_word, by decide⟩

theorem addImmediateInput_wf : addImmediateInput.WF := addInput_wf.with_opcode _ (by decide)

theorem ignores_pc : Ignores (fun s : Chip8 => s.pc) dataFields where
  registers := fun _ _ _ => rfl
  memory := fun _ _ _ => rfl
  index := fun _ _ _ => rfl
  pc := fun h => absurd h (by decide)
  stack := fun _ _ _ => rfl
  sp := fun _ _ _ => rfl
  delayTimer := fun _ _ _ => rfl
  soundTimer := fun _ _ _ => rfl
  video := fun _ _ _ => rfl

theorem ignores_keypad : Ignores (fun s : Chip8 => s.keypad) allFields where
  registers := fun _ _ _ => rfl
  memory := fun _ _ _ => rfl
  index := fun _ _ _ => rfl
  pc := fun _ _ _ => rfl
  stack := fun _ _ _ => rfl
  sp := fun _ _ _ => rfl
  delayTimer := fun _ _ _ => rfl
  soundTimer := fun _ _ _ => rfl
  video := fun _ _ _ => rfl

theorem ignores_video : Ignores (fun s : Chip8 => s.video) nonVideoFields where
  registers := fun _ _ _ => rfl
  memory := fun _ _ _ => rfl
  index := fun _ _ _ => rfl
  pc := fun _ _ _ => rfl
  stack := fun _ _ _ => rfl
  sp := fun _ _ _ => rfl
  delayTimer := fun _ _ _ => rfl
  soundTimer := fun _ _ _ => rfl
  video := fun h => absurd h (by decide)

theorem footprint_data (h : Handler) (hcf : h ∉ controlFlowHandlers) (hkey : h ≠ .opFx0A) :
    ∀ x ∈ h.footprint, x ∈ dataFields := by
  cases h <;> first
    | exact absurd (by decide) hcf
    | exact absurd rfl hkey
    | decide

theorem footprint_all (h : Handler) : ∀ x ∈ h.footprint, x ∈ allFields := by
  cases h <;> decide

theorem footprint_nonVideo (h : Handler) (h0 : h ≠ .op00E0) (hD : h ≠ .opDxyn) :
    ∀ x ∈ h.footprint, x ∈ nonVideoFields := by
  cases h <;> first
    | exact absurd rfl h0
    | exact absurd rfl hD
    | decide

/-! ## C11: the program counter of the other instructions -/

/-- C11 (as amended): on a state whose program counter the fetch has advanced
from P to P + 2, every handler other than the jump, call, return and
conditional-skip handlers (`OP_1nnn`, `OP_Bnnn`, `OP_2nnn`, `OP_00EE`, `OP_3xkk`,
`OP_4xkk`, `OP_5xy0`, `OP_9xy0`, `OP_Ex9E`, `OP_ExA1`) and other than the key
wait `OP_Fx0A` leaves the program counter at P + 2 whenever it has a result, and
the handlers that touch only registers, index, timers or the whole framebuffer
always have one. -/
theorem C11_pc_unchanged (s : Chip8) (hs : s.WF) (P : Nat) (hpc : s.pc = P + 2)
    (h : Handler) (rnd : Nat) (hcf : h ∉ controlFlowHandlers) (hkey : h ≠ .opFx0A) :
    (∀ t, h.run rnd s = some t → t.pc = P + 2) ∧
    (h ∈ registerHandlers → ∃ t, h.run rnd s = some t ∧ t.pc = P + 2) := by
  have hframe : ∀ t, h.run rnd s = some t → t.pc = P + 2 := by
    intro t ht
    have := ignores_pc.of_run h rnd s t (footprint_data h hcf hkey) ht
    exact this.trans hpc
  refine ⟨hframe, fun hmem => ?_⟩
  obtain ⟨t, ht⟩ := Handler.run_defined s hs rnd h hmem
  exact ⟨t, ht, hframe t ht⟩

/-- C11, a concrete instance: `7105` with the program counter advanced from
0x1FE to 0x200. -/
theorem C11_pc_unchanged_witness :
    addImmediateInput.WF ∧ addImmediateInput.pc = 0x1FE + 2 ∧
    Handler.op7xkk ∉ controlFlowHandlers ∧
    ∃ t, Handler.op7xkk.run 0 addImmediateInput = some t ∧ t.pc = 0x1FE + 2 :=
  ⟨addImmediateInput_wf, by decide, by decide,
    (C11_pc_unchanged addImmediateInput addImmediateInput_wf 0x1FE (by decide) Handler.op7xkk 0
      (by decide) (by decide)).2 (by decide)⟩

/-- C11 as stated fails for `OP_Fx0A`, which is not among the listed handlers:
with no key pressed and the program counter advanced to 0x200, it leaves the
program counter at 0x1FE. -/
theorem C11_key_wait_rewinds_counterexample :
    Handler.opFx0A ∉ controlFlowHandlers ∧ keyWaitInput.pc = 0x1FE + 2 ∧
    ((Handler.opFx0A.run 0 keyWaitInput).map fun t => t.pc) = some 0x1FE := by
  decide

/-! ## C12: the key wait -/

/-- C12: on a state whose program counter the fetch has advanced from P to
P + 2: if at least one of keys 0..15 is pressed, `OP_Fx0A` sets V[X] to the
smallest pressed key index and changes nothing else (the program counter stays
at P + 2); if no key is pressed, it sets the program counter back to P and
changes nothing else (every register keeps its value). -/
theorem C12_key_wait (s : Chip8) (hs : s.WF) (P : Nat) (hpc : s.pc = P + 2) :
    ((∃ k, k < 16 ∧ s.keypad[k]? = some true) →
      ∃ k, k < 16 ∧ s.keypad[k]? = some true ∧ (∀ j, j < k → s.keypad[j]? = some false) ∧
        OP_Fx0A s = some { s with registers := s.registers.set (s.opcode / 256 % 16) k } ∧
        (s.registers.set (s.opcode / 256 % 16) k)[s.opcode / 256 % 16]? = some k) ∧
    ((∀ k, k < 16 → s.keypad[k]? = some false) →
      OP_Fx0A s = some { s with pc := P }) := by
  have hl := hs.registers_length
  have hx : s.opcode / 256 % 16 < s.registers.length := by omega
  refine ⟨fun hex => ?_, fun hall => ?_⟩
  · obtain ⟨k, hk, hp, hlow⟩ := first_pressed_key hs.keypad_length hex
    refine ⟨k, hk, hp, hlow, ?_, List.getElem?_set_self hx⟩
    rw [OP_Fx0A_pressed s k hk hp hlow, setReg_of_lt s _ _ hx]
  · have hlt := hs.pc_lt
    have hmod : (s.pc + 65534) % 65536 = P := by omega
    rw [OP_Fx0A_released s hall, hmod]

/-- C12, a concrete instance: `F30A` with keys 5 and 9 pressed stores 5 in V[3]. -/
theorem C12_key_wait_witness :
    keyPressedInput.WF ∧ keyPressedInput.pc = 0x1FE + 2 ∧
    ∃ k, k < 16 ∧ keyPressedInput.keypad[k]? = some true ∧
      (∀ j, j < k → keyPressedInput.keypad[j]? = some false) ∧
      OP_Fx0A keyPressedInput =
        some { keyPressedInput with registers := keyPressedInput.registers.set 3 k } ∧
      (keyPressedInput.registers.set 3 k)[3]? = some k :=
  ⟨keyPressedInput_wf, by decide,
    (C12_key_wait keyPressedInput keyPressedInput_wf 0x1FE (by decide)).1
      ⟨5, by decide, by decide⟩⟩

/-! ## C13: `7XKK` -/

/-- C13: for every X and all bytes a, k, `OP_7xkk` with V[X] = a and KK = k
leaves V[X] = (a + k) mod 256 and every other register unchanged, so V[0xF]
keeps its value whenever X is not 0xF, also when the addition wraps; and on
every state `OP_6xkk` with the word `6005` followed by `OP_7xkk` with the word
`7003` leaves V[0] = 8. -/
theorem C13_add_immediate (s : Chip8) (hs : s.WF) (X a k : Nat) (hX : X < 16) (hk : k < 256)
    (hop : s.opcode = 0x7000 + 256 * X + k) (ha : s.registers[X]? = some a) :
    (∃ t, OP_7xkk s = some t ∧ t.registers[X]? = some ((a + k) % 256) ∧
      (∀ j, j ≠ X → t.registers[j]? = s.registers[j]?) ∧
      (X ≠ 0xF → t.registers[0xF]? = s.registers[0xF]?)) ∧
    (∃ s1 s2, OP_6xkk { s with opcode := 0x6005 } = some s1 ∧
      OP_7xkk { s1 with opcode := 0x7003 } = some s2 ∧ s2.registers[0]? = some 8) := by
  have hl := hs.registers_length
  have hXl : X < s.registers.length := by omega
  have h0 : 0 < s.registers.length := by omega
  have ex : ((s.opcode &&& 0x0F00) >>> 8) % 256 = X := by rw [fieldX_eq, hop]; omega
  have ek : (s.opcode &&& 0x00FF) % 256 = k := by rw [fieldKK_eq, hop]; omega
  refine ⟨⟨{ s with registers := s.registers.set X ((a + k) % 256) }, ?_, ?_, ?_, ?_⟩, ?_⟩
  · simp only [OP_7xkk, ex, ek, ha, Option.some_bind]
    exact setReg_of_lt s _ _ hXl
  · exact List.getElem?_set_self hXl
  · intro j hj
    exact List.getElem?_set_ne (Ne.symm hj)
  · intro hne
    exact List.getElem?_set_ne hne
  · have e1 : (((0x6005 : Nat) &&& 0x0F00) >>> 8) % 256 = 0 := by decide
    have e2 : ((0x6005 : Nat) &&& 0x00FF) % 256 = 5 := by decide
    have e3 : (((0x7003 : Nat) &&& 0x0F00) >>> 8) % 256 = 0 := by decide
    have e4 : ((0x7003 : Nat) &&& 0x00FF) % 256 = 3 := by decide
    have h0' : 0 < (s.registers.set 0 5).length := by rw [List.length_set]; exact h0
    refine ⟨{ s with opcode := 0x6005, registers := s.registers.set 0 5 },
      { s with opcode := 0x7003, registers := (s.registers.set 0 5).set 0 8 }, ?_, ?_, ?_⟩
    · simp only [OP_6xkk, e1, e2]
      exact setReg_of_lt _ _ _ h0
    · simp only [OP_7xkk, e3, e4, List.getElem?_set_self h0, Option.some_bind]
      exact setReg_of_lt _ _ _ h0'
    · exact List.getElem?_set_self h0'

/-- C13, a concrete instance: `7105` adds 5 to V[1] = 0 and leaves V[0xF] = 9. -/
theorem C13_add_immediate_witness :
    addImmediateInput.WF ∧
    (∃ t, OP_7xkk addImmediateInput = some t ∧ t.registers[1]? = some ((0 + 5) % 256) ∧
      (∀ j, j ≠ 1 → t.registers[j]? = addImmediateInput.registers[j]?) ∧
      (1 ≠ 0xF → t.registers[0xF]? = addImmediateInput.registers[0xF]?)) ∧
    (∃ s1 s2, OP_6xkk { addImmediateInput with opcode := 0x6005 } = some s1 ∧
      OP_7xkk { s1 with opcode := 0x7003 } = some s2 ∧ s2.registers[0]? = some 8) :=
  ⟨addImmediateInput_wf,
    C13_add_immediate addImmediateInput addImmediateInput_wf 1 0 5 (by decide) (by decide)
      (by decide) (by decide)⟩

/-! ## C14: `8XY7` -/

theorem OP_8xy5_result (s : Chip8) (hl : s.registers.length = 16) (X Y a b : Nat)
    (hX : X < 15) (hY : Y < 16)
    (ex : ((s.opcode &&& 0x0F00) >>> 8) % 256 = X)
    (ey : ((s.opcode &&& 0x00F0) >>> 4) % 256 = Y)
    (ha : s.registers[X]? = some a) (hb : s.registers[Y]? = some b) :
    ∃ t, OP_8xy5 s = some t ∧ t.registers[0xF]? = some (if a > b then 1 else 0) ∧
      (Y ≠ 0xF → t.registers[X]? = some (sub8 a b)) := by
  have h15 : 15 < s.registers.length := by omega
  have hXl : X < s.registers.length := by omega
  have hne : (15 : Nat) ≠ X := by omega
  obtain ⟨f, hf⟩ : ∃ f, f = (if a > b then 1 else 0 : Nat) := ⟨_, rfl⟩
  have hflag : (if a > b then setReg s 0xF 1 else setReg s 0xF 0) =
      some { s with registers := s.registers.set 0xF f } := by
    by_cases hc : a > b
    · rw [if_pos hc, setReg_of_lt _ _ _ h15, hf, if_pos hc]
    · rw [if_neg hc, setReg_of_lt _ _ _ h15, hf, if_neg hc]
  have hX1 : (s.registers.set 0xF f)[X]? = some a := by
    rw [List.getElem?_set_ne hne]; exact ha
  obtain ⟨b1, hb1, hb1Y⟩ :
      ∃ b1, (s.registers.set 0xF f)[Y]? = some b1 ∧ (Y ≠ 0xF → b1 = b) := by
    by_cases hYF : Y = 0xF
    · subst hYF
      exact ⟨f, List.getElem?_set_self h15, fun h => absurd rfl h⟩
    · refine ⟨b, ?_, fun _ => rfl⟩
      rw [List.getElem?_set_ne (Ne.symm hYF)]; exact hb
  simp only [OP_8xy5, ex, ey]
  rw [ha, hb]
  simp only [Option.some_bind, hflag, hX1, hb1]
  rw [setReg_of_lt _ _ _ (by simpa using hXl)]
  refine ⟨_, rfl, ?_, ?_⟩
  · show ((s.registers.set 0xF f).set X (sub8 a b1))[0xF]? = _
    rw [List.getElem?_set_ne (Ne.symm hne), List.getElem?_set_self h15, hf]
  · intro hYF
    show ((s.registers.set 0xF f).set X (sub8 a b1))[X]? = _
    rw [hb1Y hYF]
    exact List.getElem?_set_self (by simpa using hXl)

theorem OP_8xy7_result (s : Chip8) (hl : s.registers.length = 16) (X Y a b : Nat)
    (hX : X < 15) (hY : Y < 16)
    (ex : ((s.opcode &&& 0x0F00) >>> 8) % 256 = X)
    (ey : ((s.opcode &&& 0x00F0) >>> 4) % 256 = Y)
    (ha : s.registers[X]? = some a) (hb : s.registers[Y]? = some b) :
    ∃ t, OP_8xy7 s = some t ∧ t.registers[0xF]? = some (if b > a then 1 else 0) ∧
      (Y ≠ 0xF → t.registers[X]? = some (sub8 b a)) := by
  have h15 : 15 < s.registers.length := by omega
  have hXl : X < s.registers.length := by omega
  have hne : (15 : Nat) ≠ X := by omega
  obtain ⟨f, hf⟩ : ∃ f, f = (if b > a then 1 else 0 : Nat) := ⟨_, rfl⟩
  have hflag : (if b > a then setReg s 0xF 1 else setReg s 0xF 0) =
      some { s with registers := s.registers.set 0xF f } := by
    by_cases hc : b > a
    · rw [if_pos hc, setReg_of_lt _ _ _ h15, hf, if_pos hc]
    · rw [if_neg hc, setReg_of_lt _ _ _ h15, hf, if_neg hc]
  have hX1 : (s.registers.set 0xF f)[X]? = some a := by
    rw [List.getElem?_set_ne hne]; exact ha
  obtain ⟨b1, hb1, hb1Y⟩ :
      ∃ b1, (s.registers.set 0xF f)[Y]? = some b1 ∧ (Y ≠ 0xF → b1 = b) := by
    by_cases hYF : Y = 0xF
    · subst hYF
      exact ⟨f, List.getElem?_set_self h15, fun h => absurd rfl h⟩
    · refine ⟨b, ?_, fun _ => rfl⟩
      rw [List.getElem?_set_ne (Ne.symm hYF)]; exact hb
  simp only [OP_8xy7, ex, ey]
  rw [ha, hb]
  simp only [Option.some_bind, hflag, hX1, hb1]
  rw [setReg_of_lt _ _ _ (by simpa using hXl)]
  refine ⟨_, rfl, ?_, ?_⟩
  · show ((s.registers.set 0xF f).set X (sub8 b1 a))[0xF]? = _
    rw [List.getElem?_set_ne (Ne.symm hne), List.getElem?_set_self h15, hf]
  · intro hYF
    show ((s.registers.set 0xF f).set X (sub8 b1 a))[X]? = _
    rw [hb1Y hYF]
    exact List.getElem?_set_self (by simpa using hXl)

/-- C14 (as amended): for every X in 0..14 and Y in 0..15, with a = V[X] and
b = V[Y] before the instruction, `OP_8xy7` leaves V[0xF] = 1 if b > a and 0
otherwise; when Y is not 0xF it leaves V[X] = (b - a) mod 256, and V[X] and
V[0xF] are then the ones `OP_8xy5` leaves on the state with the two operand
values swapped (V[X] = b, V[Y] = a). -/
theorem C14_subn (s : Chip8) (hs : s.WF) (X Y a b : Nat) (hX : X < 15) (hY : Y < 16)
    (hop : s.opcode = 0x8007 + 256 * X + 16 * Y)
    (ha : s.registers[X]? = some a) (hb : s.registers[Y]? = some b) :
    ∃ t, OP_8xy7 s = some t ∧
      t.registers[0xF]? = some (if b > a then 1 else 0) ∧
      (Y ≠ 0xF →
        (∃ v : Nat, t.registers[X]? = some v ∧ (v : Int) = ((b : Int) - (a : Int)) % 256) ∧
        ∃ t5, OP_8xy5 { s with
              registers := (s.registers.set X b).set Y a
              opcode := 0x8005 + 256 * X + 16 * Y } = some t5 ∧
          t5.registers[X]? = t.registers[X]? ∧ t5.registers[0xF]? = t.registers[0xF]?) := by
  have hl := hs.registers_length
  have ex : ((s.opcode &&& 0x0F00) >>> 8) % 256 = X := by rw [fieldX_eq, hop]; omega
  have ey : ((s.opcode &&& 0x00F0) >>> 4) % 256 = Y := by rw [fieldY_eq, hop]; omega
  have ex5 : (((0x8005 + 256 * X + 16 * Y) &&& 0x0F00) >>> 8) % 256 = X := by
    rw [fieldX_eq]; omega
  have ey5 : (((0x8005 + 256 * X + 16 * Y) &&& 0x00F0) >>> 4) % 256 = Y := by
    rw [fieldY_eq]; omega
  obtain ⟨t, ht, hflag, hval⟩ := OP_8xy7_result s hl X Y a b hX hY ex ey ha hb
  refine ⟨t, ht, hflag, fun hYF => ⟨⟨sub8 b a, hval hYF, sub8_cast b a⟩, ?_⟩⟩
  have hXl : X < s.registers.length := by omega
  have hYl : Y < (s.registers.set X b).length := by rw [List.length_set]; omega
  have hY' : ((s.registers.set X b).set Y a)[Y]? = some a := List.getElem?_set_self hYl
  have hX' : ((s.registers.set X b).set Y a)[X]? = some b := by
    by_cases hXY : Y = X
    · subst hXY
      rw [ha, Option.some.injEq] at hb
      rw [hY', hb]
    · rw [List.getElem?_set_ne hXY]
      exact List.getElem?_set_self hXl
  obtain ⟨t5, ht5, hflag5, hval5⟩ :=
    OP_8xy5_result
      { s with registers := (s.registers.set X b).set Y a, opcode := 0x8005 + 256 * X + 16 * Y }
      (by simp only [List.length_set]; exact hl) X Y b a hX hY ex5 ey5 hX' hY'
  exact ⟨t5, ht5, by rw [hval5 hYF, hval hYF], by rw [hflag5, hflag]⟩

/-- C14, a concrete instance: `8237` with V[2] = 100 and V[3] = 250 leaves
V[0xF] = 1 and V[2] = 150. -/
theorem C14_subn_witness :
    subnInput.WF ∧
    ∃ t, OP_8xy7 subnInput = some t ∧ t.registers[0xF]? = some 1 ∧
      t.registers[2]? = some 150 := by
  have hwf : subnInput.WF := addInput_wf.with_opcode _ (by decide)
  obtain ⟨t, ht, hf, hv⟩ :=
    C14_subn subnInput hwf 2 3 100 250 (by decide) (by decide) (by decide) (by decide)
      (by decide)
  obtain ⟨⟨v, hv1, hv2⟩, -⟩ := hv (by decide)
  have hmod : (((250 : Nat) : Int) - ((100 : Nat) : Int)) % 256 = 150 := by decide
  have hv3 : v = 150 := by omega
  exact ⟨hwf, t, ht, hf, hv3 ▸ hv1⟩

/-- C14 as stated fails when one of the two registers is V[0xF].  With Y = 0xF
(`80F7`, V[0] = 5, V[0xF] = 9) the subtraction reads the flag just written and
leaves V[0] = 252, not 4.  With X = 0xF (`8F07`, V[0xF] = 3, V[0] = 9) the
difference overwrites the flag and leaves V[0xF] = 8, neither the flag 1 nor
the difference 6. -/
theorem C14_flag_register_counterexample :
    ((OP_8xy7 subnFlagSourceInput).map fun t => t.registers[0]?) = some (some 252) ∧
    (((9 : Nat) : Int) - ((5 : Nat) : Int)) % 256 ≠ ((252 : Nat) : Int) ∧
    ((OP_8xy7 subnFlagTargetInput).map fun t => t.registers[0xF]?) = some (some 8) ∧
    (9 > 3) ∧ (((9 : Nat) : Int) - ((3 : Nat) : Int)) % 256 ≠ ((8 : Nat) : Int) := by
  decide

/-! ## C15: the shifts `8XY6` and `8XYE` -/

theorem shift_bits (v : Nat) :
    (v &&& 0x1) % 256 = v % 2 ∧ (v >>> 1) = v / 2 ∧
    ((v &&& 0x80) >>> 7) % 256 = v / 128 % 2 ∧ (v <<< 1) = 2 * v := by
  refine ⟨?_, ?_, ?_, ?_⟩
  · rw [Nat.and_one_is_mod]; omega
  · rw [Nat.shiftRight_eq_div_pow, Nat.pow_one]
  · have e := and_shl_shr v 1 7
    have h : (1 <<< 7 : Nat) = 0x80 := by decide
    rw [h] at e
    have hp : (2 : Nat) ^ 7 = 128 := by decide
    rw [e, Nat.shiftRight_eq_div_pow, Nat.and_one_is_mod, hp]
    omega
  · rw [Nat.shiftLeft_eq]; omega

theorem OP_8xy6_result (s : Chip8) (hl : s.registers.length = 16) (X v : Nat) (hX : X < 15)
    (ex : ((s.opcode &&& 0x0F00) >>> 8) % 256 = X) (hv : s.registers[X]? = some v)
    (hbyte : v < 256) :
    OP_8xy6 s = some { s with registers := (s.registers.set 0xF (v % 2)).set X (v / 2) } := by
  have h15 : 15 < s.registers.length := by omega
  have hXl : X < (s.registers.set 0xF (v % 2)).length := by rw [List.length_set]; omega
  have hne : (15 : Nat) ≠ X := by omega
  obtain ⟨b0, b1, -, -⟩ := shift_bits v
  have hX1 : (s.registers.set 0xF (v % 2))[X]? = some v := by
    rw [List.getElem?_set_ne hne]; exact hv
  have hdiv : v / 2 % 256 = v / 2 := by omega
  simp only [OP_8xy6, ex, hv, Option.some_bind, b0, b1, setReg, writeAt, h15, if_true,
    Option.map_some', hX1, hXl, hdiv]

theorem OP_8xyE_result (s : Chip8) (hl : s.registers.length = 16) (X v : Nat) (hX : X < 15)
    (ex : ((s.opcode &&& 0x0F00) >>> 8) % 256 = X) (hv : s.registers[X]? = some v) :
    OP_8xyE s = some { s with
      registers := (s.registers.set 0xF (v / 128 % 2)).set X (2 * v % 256) } := by
  have h15 : 15 < s.registers.length := by omega
  have hXl : X < (s.registers.set 0xF (v / 128 % 2)).length := by rw [List.length_set]; omega
  have hne : (15 : Nat) ≠ X := by omega
  obtain ⟨-, -, b7, b2⟩ := shift_bits v
  have hX1 : (s.registers.set 0xF (v / 128 % 2))[X]? = some v := by
    rw [List.getElem?_set_ne hne]; exact hv
  simp only [OP_8xyE, ex, hv, Option.some_bind, b7, b2, setReg, writeAt, h15, if_true,
    Option.map_some', hX1, hXl]

/-- C15: for every X other than 0xF and every byte v = V[X], `OP_8xy6` leaves
V[0xF] = v mod 2 and V[X] = v / 2; `OP_8xyE` leaves V[0xF] = bit 7 of v and
V[X] = (2 * v) mod 256; and `OP_8xy6` followed by `OP_8xyE` on the same X leaves
V[X] = v - v mod 2 (v with its low bit cleared), which equals v exactly when v
is even. -/
theorem C15_shifts (s : Chip8) (hs : s.WF) (X Y v : Nat) (hX : X < 15) (hY : Y < 16)
    (hv : s.registers[X]? = some v) :
    (∃ t, OP_8xy6 { s with opcode := 0x8006 + 256 * X + 16 * Y } = some t ∧
      t.registers[0xF]? = some (v % 2) ∧ t.registers[X]? = some (v / 2)) ∧
    (∃ t, OP_8xyE { s with opcode := 0x800E + 256 * X + 16 * Y } = some t ∧
      t.registers[0xF]? = some (v / 128 % 2) ∧ t.registers[X]? = some (2 * v % 256)) ∧
    (∃ t u, OP_8xy6 { s with opcode := 0x8006 + 256 * X + 16 * Y } = some t ∧
      OP_8xyE { t with opcode := 0x800E + 256 * X + 16 * Y } = some u ∧
      u.registers[X]? = some (v - v % 2) ∧ (v - v % 2 = v ↔ v % 2 = 0)) := by
  have hl := hs.registers_length
  have hbyte : v < 256 := hs.reg_byte hv
  have e6 : (((0x8006 + 256 * X + 16 * Y) &&& 0x0F00) >>> 8) % 256 = X := by
    rw [fieldX_eq]; omega
  have eE : (((0x800E + 256 * X + 16 * Y) &&& 0x0F00) >>> 8) % 256 = X := by
    rw [fieldX_eq]; omega
  have h15 : 15 < s.registers.length := by omega
  have hne : (15 : Nat) ≠ X := by omega
  have hXl : X < s.registers.length := by omega
  have h6 := OP_8xy6_result { s with opcode := 0x8006 + 256 * X + 16 * Y } hl X v hX e6 hv hbyte
  have hE := OP_8xyE_result { s with opcode := 0x800E + 256 * X + 16 * Y } hl X v hX eE hv
  have hXF : ∀ (l : List Nat) (a b : Nat), l.length = 16 →
      ((l.set 0xF a).set X b)[0xF]? = some a ∧ ((l.set 0xF a).set X b)[X]? = some b := by
    intro l a b hlen
    refine ⟨?_, List.getElem?_set_self (by rw [List.length_set]; omega)⟩
    rw [List.getElem?_set_ne (Ne.symm hne)]
    exact List.getElem?_set_self (by omega)
  refine ⟨⟨_, h6, (hXF _ _ _ hl).1, (hXF _ _ _ hl).2⟩,
    ⟨_, hE, (hXF _ _ _ hl).1, (hXF _ _ _ hl).2⟩, ?_⟩
  have hl2 : ((s.registers.set 0xF (v % 2)).set X (v / 2)).length = 16 := by
    rw [List.length_set, List.length_set]; exact hl
  have hE2 := OP_8xyE_result
    { s with registers := (s.registers.set 0xF (v % 2)).set X (v / 2),
             opcode := 0x800E + 256 * X + 16 * Y }
    hl2 X (v / 2) hX eE (hXF _ _ _ hl).2
  have hclear : 2 * (v / 2) % 256 = v - v % 2 := by omega
  refine ⟨_, _, h6, hE2, ?_, by omega⟩
  rw [← hclear]
  exact (hXF _ _ _ hl2).2

/-- C15, a concrete instance: register 0 holds 7; `8006` leaves V[0xF] = 1 and
V[0] = 3, `800E` leaves V[0xF] = 0 and V[0] = 14, and `8006` then `800E` leaves
V[0] = 6, not 7. -/
theorem C15_shifts_witness :
    shiftInput.WF ∧ shiftInput.registers[0]? = some 7 ∧
    (∃ t, OP_8xy6 { shiftInput with opcode := 0x8006 } = some t ∧
      t.registers[0xF]? = some 1 ∧ t.registers[0]? = some 3) ∧
    (∃ t, OP_8xyE { shiftInput with opcode := 0x800E } = some t ∧
      t.registers[0xF]? = some 0 ∧ t.registers[0]? = some 14) ∧
    (∃ t u, OP_8xy6 { shiftInput with opcode := 0x8006 } = some t ∧
      OP_8xyE { t with opcode := 0x800E } = some u ∧
      u.registers[0]? = some 6 ∧ (7 - 7 % 2 = 7 ↔ 7 % 2 = 0)) :=
  ⟨addInput_wf, by decide,
    C15_shifts shiftInput addInput_wf 0 0 7 (by decide) (by decide) (by decide)⟩

/-! ## C16: the glyph address `FX29` -/

/-- C16: for every X and every byte d = V[X], `OP_Fx29` sets
index = 0x50 + 5 * d, without 16-bit wraparound and without masking d, and
changes nothing else; for every digit d <= 15 the five glyph bytes
index .. index + 4 lie inside the font region 0x50 .. 0x9F, and two distinct
digits get disjoint five-byte ranges. -/
theorem C16_font_address (s : Chip8) (hs : s.WF) (X d : Nat) (hX : X < 16)
    (hop : s.opcode = 0xF029 + 256 * X) (hd : s.registers[X]? = some d) :
    FONTSET_START_ADDRESS = 0x50 ∧
    OP_Fx29 s = some { s with index := FONTSET_START_ADDRESS + 5 * d } ∧
    (d ≤ 15 → 0x50 ≤ FONTSET_START_ADDRESS + 5 * d ∧
      FONTSET_START_ADDRESS + 5 * d + 4 ≤ 0x9F) ∧
    (∀ d', d ≤ 15 → d' ≤ 15 → d ≠ d' →
      FONTSET_START_ADDRESS + 5 * d + 4 < FONTSET_START_ADDRESS + 5 * d' ∨
      FONTSET_START_ADDRESS + 5 * d' + 4 < FONTSET_START_ADDRESS + 5 * d) := by
  have hbyte : d < 256 := hs.reg_byte hd
  have ex : ((s.opcode &&& 0x0F00) >>> 8) % 256 = X := by rw [fieldX_eq, hop]; omega
  have hbase : FONTSET_START_ADDRESS = 0x50 := rfl
  have hmod : (FONTSET_START_ADDRESS + 5 * d) % 65536 = FONTSET_START_ADDRESS + 5 * d := by
    rw [hbase]; omega
  refine ⟨rfl, ?_, ?_, ?_⟩
  · simp only [OP_Fx29, ex, hd, Option.map_some', hmod]
  · intro h15
    rw [hbase]
    omega
  · intro d' h15 h15' hne
    rw [hbase]
    omega

/-- C16, a concrete instance: `F329` with V[3] = 250 sets index = 0x50 + 1250. -/
theorem C16_font_address_witness :
    fontInput.WF ∧ fontInput.registers[3]? = some 250 ∧
    OP_Fx29 fontInput = some { fontInput with index := 0x50 + 5 * 250 } :=
  ⟨addInput_wf.with_opcode _ (by decide), by decide,
    (C16_font_address fontInput (addInput_wf.with_opcode _ (by decide)) 3 250 (by decide)
      (by decide) (by decide)).2.1⟩

/-! ## C17: the keypad -/

theorem OP_Fx0A_defined (s : Chip8) (hs : s.WF) : ∃ t, OP_Fx0A s = some t := by
  have hl := hs.registers_length
  have hx : s.opcode / 256 % 16 < s.registers.length := by omega
  by_cases hex : ∃ k, k < 16 ∧ s.keypad[k]? = some true
  · obtain ⟨k, hk, hp, hlow⟩ := first_pressed_key hs.keypad_length hex
    exact ⟨_, (OP_Fx0A_pressed s k hk hp hlow).trans (setReg_of_lt s _ _ hx)⟩
  · refine ⟨_, OP_Fx0A_released s (fun j hj => ?_)⟩
    exact key_released_of_not_pressed hs.keypad_length hj (fun hp => hex ⟨j, hj, hp⟩)

/-- C17: every instruction handler leaves the keypad unchanged whenever it has a
result; the key wait `OP_Fx0A` always has one, and the key tests `OP_Ex9E` and
`OP_ExA1` have one when the key number V[X] is below 16. -/
theorem C17_keypad_read_only (s : Chip8) (hs : s.WF) (h : Handler) (rnd : Nat) :
    (∀ t, h.run rnd s = some t → t.keypad = s.keypad) ∧
    (∃ t, OP_Fx0A s = some t ∧ t.keypad = s.keypad) ∧
    (∀ key, s.registers[s.opcode / 256 % 16]? = some key → key < 16 →
      (∃ t, OP_Ex9E s = some t ∧ t.keypad = s.keypad) ∧
      (∃ t, OP_ExA1 s = some t ∧ t.keypad = s.keypad)) := by
  have hframe : ∀ (g : Handler) (t : Chip8), g.run rnd s = some t → t.keypad = s.keypad :=
    fun g t ht => ignores_keypad.of_run g rnd s t (footprint_all g) ht
  refine ⟨hframe h, ?_, ?_⟩
  · obtain ⟨t, ht⟩ := OP_Fx0A_defined s hs
    exact ⟨t, ht, hframe .opFx0A t ht⟩
  · intro key hkey hlt
    have hk : key < s.keypad.length := by rw [hs.keypad_length]; exact hlt
    have h9 : ∃ t, OP_Ex9E s = some t := by
      simp only [OP_Ex9E, fieldX_eq, hkey, Option.some_bind, List.getElem?_eq_getElem hk,
        Option.map_some']
      exact ⟨_, rfl⟩
    have hA : ∃ t, OP_ExA1 s = some t := by
      simp only [OP_ExA1, fieldX_eq, hkey, Option.some_bind, List.getElem?_eq_getElem hk,
        Option.map_some']
      exact ⟨_, rfl⟩
    obtain ⟨t9, ht9⟩ := h9
    obtain ⟨tA, htA⟩ := hA
    exact ⟨⟨t9, ht9, hframe .opEx9E t9 ht9⟩, ⟨tA, htA, hframe .opExA1 tA htA⟩⟩

/-- C17, a concrete instance: the key wait `F30A` with keys 5 and 9 pressed. -/
theorem C17_keypad_read_only_witness :
    keyPressedInput.WF ∧
    ∃ t, OP_Fx0A keyPressedInput = some t ∧ t.keypad = keyPressedInput.keypad :=
  ⟨keyPressedInput_wf,
    (C17_keypad_read_only keyPressedInput keyPressedInput_wf Handler.opFx0A 0).2.1⟩

/-! ## C18: framebuffer cells are on or off -/

theorem flipCell_on_or_off {c : Nat} (h : c = 0 ∨ c = 0xFFFFFFFF) :
    (c ^^^ 0xFFFFFFFF) % 4294967296 = 0 ∨ (c ^^^ 0xFFFFFFFF) % 4294967296 = 0xFFFFFFFF := by
  rcases h with rfl | rfl
  · right; decide
  · left; decide

theorem drawPixel_cells {xPos yPos row b col : Nat} {s t : Chip8}
    (hinv : ∀ c ∈ s.video, c = 0 ∨ c = 0xFFFFFFFF)
    (h : drawPixel xPos yPos row b col s = some t) :
    ∀ c ∈ t.video, c = 0 ∨ c = 0xFFFFFFFF := by
  simp only [drawPixel] at h
  by_cases hp : (b &&& (0x80 >>> col)) % 256 ≠ 0
  · rw [if_pos hp] at h
    simp only [Option.bind_eq_some, Option.map_eq_some'] at h
    obtain ⟨cell, hcell, s1, h1, vid, hvid, rfl⟩ := h
    have hs1 : s1.video = s.video := by
      by_cases hc : cell = 0xFFFFFFFF
      · rw [if_pos hc] at h1
        rw [setReg_some h1]
      · rw [if_neg hc] at h1
        cases h1; rfl
    have hcellmem : cell ∈ s.video := List.getElem?_mem hcell
    simp only [writeAt] at hvid
    split at hvid
    · simp only [Option.some.injEq] at hvid
      intro c hc
      have hc' : c ∈ (s1.video.set ((yPos + row) * VIDEO_WIDTH + (xPos + col))
          ((cell ^^^ 0xFFFFFFFF) % 4294967296)) := by rw [hvid]; exact hc
      rcases List.mem_or_eq_of_mem_set hc' with hmem | heq
      · exact hinv c (hs1 ▸ hmem)
      · rw [heq]
        exact flipCell_on_or_off (hinv cell hcellmem)
    · cases hvid
  · rw [if_neg hp] at h
    cases h
    exact hinv

theorem drawRow_cells {xPos yPos row : Nat} {s t : Chip8}
    (hinv : ∀ c ∈ s.video, c = 0 ∨ c = 0xFFFFFFFF)
    (h : drawRow xPos yPos row s = some t) : ∀ c ∈ t.video, c = 0 ∨ c = 0xFFFFFFFF := by
  simp only [drawRow] at h
  refine of_bind (P := fun u : Chip8 => ∀ c ∈ u.video, c = 0 ∨ c = 0xFFFFFFFF)
    (fun b u hb => ?_) h
  exact forLoop_preserves _ (fun u : Chip8 => ∀ c ∈ u.video, c = 0 ∨ c = 0xFFFFFFFF)
    (fun i u u' hu hu' => drawPixel_cells hu hu') 8 s u hinv hb

theorem OP_Dxyn_cells {s t : Chip8} (hinv : ∀ c ∈ s.video, c = 0 ∨ c = 0xFFFFFFFF)
    (h : OP_Dxyn s = some t) : ∀ c ∈ t.video, c = 0 ∨ c = 0xFFFFFFFF := by
  simp only [OP_Dxyn, Option.bind_eq_some] at h
  obtain ⟨o, -, s1, h1, hl⟩ := h
  have hs1 : ∀ c ∈ s1.video, c = 0 ∨ c = 0xFFFFFFFF := by
    rw [setReg_some h1]; exact hinv
  exact forLoop_preserves _ (fun u : Chip8 => ∀ c ∈ u.video, c = 0 ∨ c = 0xFFFFFFFF)
    (fun i u u' hu hu' => drawRow_cells hu hu') _ s1 t hs1 hl

/-- C18: if every framebuffer cell is 0 (off) or 0xFFFFFFFF (on) before a
handler runs, the same holds after it, for every handler that has a result:
`OP_00E0` always has one and sets every cell to 0, `OP_Dxyn` only toggles cells
between 0 and 0xFFFFFFFF, and every other handler leaves the framebuffer as it
is.  On such a framebuffer a cell is 0xFFFFFFFF exactly when it is not 0. -/
theorem C18_cells_on_or_off (s : Chip8) (hinv : ∀ c ∈ s.video, c = 0 ∨ c = 0xFFFFFFFF)
    (h : Handler) (rnd : Nat) :
    (∀ t, h.run rnd s = some t → ∀ c ∈ t.video, c = 0 ∨ c = 0xFFFFFFFF) ∧
    (∃ t, OP_00E0 s = some t ∧ ∀ c ∈ t.video, c = 0) ∧
    (h ≠ .op00E0 → h ≠ .opDxyn → ∀ t, h.run rnd s = some t → t.video = s.video) ∧
    (∀ c ∈ s.video, (c = 0xFFFFFFFF ↔ c ≠ 0)) := by
  have hframe : h ≠ .op00E0 → h ≠ .opDxyn → ∀ t, h.run rnd s = some t → t.video = s.video :=
    fun h0 hD t ht => ignores_video.of_run h rnd s t (footprint_nonVideo h h0 hD) ht
  refine ⟨?_, ⟨_, rfl, fun c hc => List.eq_of_mem_replicate hc⟩, hframe, ?_⟩
  · intro t ht
    by_cases h0 : h = .op00E0
    · subst h0
      simp only [Handler.run, OP_00E0, Option.some.injEq] at ht
      intro c hc
      rw [← ht] at hc
      exact Or.inl (List.eq_of_mem_replicate hc)
    · by_cases hD : h = .opDxyn
      · subst hD
        exact OP_Dxyn_cells hinv ht
      · rw [hframe h0 hD t ht]
        exact hinv
  · intro c hc
    rcases hinv c hc with rfl | rfl
    · decide
    · decide

/-- C18, a concrete instance: the glyph drawn with `D015` on a blank
framebuffer. -/
theorem C18_cells_on_or_off_witness :
    (∀ c ∈ glyphInput.video, c = 0 ∨ c = 0xFFFFFFFF) ∧
    (∀ t, Handler.opDxyn.run 0 glyphInput = some t → ∀ c ∈ t.video, c = 0 ∨ c = 0xFFFFFFFF) :=
  ⟨fun c hc => Or.inl (glyphInput_blank c hc),
    (C18_cells_on_or_off glyphInput (fun c hc => Or.inl (glyphInput_blank c hc))
      Handler.opDxyn 0).1⟩

/-! ## C19: no column wrap in `DXYN` -/

theorem dxynOrigin_lt {s : Chip8} {xPos yPos : Nat} (h : dxynOrigin s = some (xPos, yPos)) :
    xPos < 64 ∧ yPos < 32 := by
  simp only [dxynOrigin, Option.bind_eq_some, Option.map_eq_some', Prod.mk.injEq,
    VIDEO_WIDTH, VIDEO_HEIGHT] at h
  obtain ⟨rx, -, ry, -, hx, hy⟩ := h
  omega

theorem wrapInput_wf : wrapInput.WF where
  registers_length := by decide
  registers_byte := by decide
  memory_length := by
    show (0xFF :: List.replicate 4095 0).length = 4096
    simp only [List.length_cons, List.length_replicate]
  memory_byte := by
    intro v hv
    have hv' : v ∈ 0xFF :: List.replicate 4095 0 := hv
    simp only [List.mem_cons, List.mem_replicate] at hv'
    omega
  index_lt := by decide
  pc_lt := zeroState_wf.pc_lt
  stack_length := zeroState_wf.stack_length
  stack_word := zeroState_wf.stack_word
  sp_lt := zeroState_wf.sp_lt
  delayTimer_lt := zeroState_wf.delayTimer_lt
  soundTimer_lt := zeroState_wf.soundTimer_lt
  keypad_length := zeroState_wf.keypad_length
  video_length := zeroState_wf.video_length
  video_word := zeroState_wf.video_word
  opcode_lt := by decide

theorem spriteBit_full_byte (s : Chip8) (h : s.memory[s.index + 0]? = some 0xFF)
    (col : Nat) (hc : col < 8) : spriteBit s 0 col = true := by
  rw [spriteBit_iff s 0 col hc]
  refine ⟨0xFF, h, ?_⟩
  have h8 : col = 0 ∨ col = 1 ∨ col = 2 ∨ col = 3 ∨ col = 4 ∨ col = 5 ∨ col = 6 ∨ col = 7 := by
    omega
  rcases h8 with rfl | rfl | rfl | rfl | rfl | rfl | rfl | rfl <;> decide

theorem wrapInput_bits (col : Nat) (hc : col < 8) : spriteBit wrapInput 0 col = true :=
  spriteBit_full_byte wrapInput List.getElem?_cons_zero col hc

/-- The cells a draw toggles, for the words on which `OP_Dxyn` computes an
origin (on a well-formed state those with X nibble 0): let `(xPos, yPos)` be
that origin and N the low nibble of the word, the sprite rows inside memory and the cell position of every set
sprite bit below 2048.  Then `OP_Dxyn` has a result in which, for every set
sprite bit at (row, col), the cell at linear position
(yPos + row) * 64 + (xPos + col) is toggled, and every cell that is not at such
a position is unchanged.  When xPos + col >= 64 that position is column
xPos + col - 64 of screen row yPos + row + 1; it is not the position of column
(xPos + col) mod 64 of row yPos + row, and the cell there is left unchanged
unless the sprite bit at (row - 1, col) is set.  Distinct (row, col) pairs with
col < 8 have distinct positions. -/
theorem OP_Dxyn_no_column_wrap (s : Chip8) (hs : s.WF) (xPos yPos : Nat)
    (horigin : dxynOrigin s = some (xPos, yPos))
    (hidx : s.index + s.opcode % 16 ≤ 4096)
    (hin : ∀ row col, row < s.opcode % 16 → col < 8 → spriteBit s row col = true →
      (yPos + row) * 64 + (xPos + col) < 2048) :
    ∃ t, OP_Dxyn s = some t ∧
      (∀ row col, row < s.opcode % 16 → col < 8 → spriteBit s row col = true →
        t.video[(yPos + row) * 64 + (xPos + col)]? =
          (s.video[(yPos + row) * 64 + (xPos + col)]?).map flipCell) ∧
      (∀ p, (¬ ∃ row col, row < s.opcode % 16 ∧ col < 8 ∧ spriteBit s row col = true ∧
          p = (yPos + row) * 64 + (xPos + col)) →
        t.video[p]? = s.video[p]?) ∧
      (∀ row col, row < s.opcode % 16 → col < 8 → 64 ≤ xPos + col →
        (yPos + row) * 64 + (xPos + col) = (yPos + row + 1) * 64 + (xPos + col - 64) ∧
        xPos + col - 64 < 64 ∧
        (yPos + row) * 64 + (xPos + col) ≠ (yPos + row) * 64 + (xPos + col) % 64 ∧
        ((row = 0 ∨ spriteBit s (row - 1) col = false) →
          t.video[(yPos + row) * 64 + (xPos + col) % 64]? =
            s.video[(yPos + row) * 64 + (xPos + col) % 64]?)) ∧
      (∀ r c r' c', c < 8 → c' < 8 →
        cellPos xPos yPos r c = cellPos xPos yPos r' c' → r = r' ∧ c = c') := by
  have hrl := hs.registers_length
  have hml := hs.memory_length
  have hvl := hs.video_length
  have h15 : 15 < s.registers.length := by omega
  obtain ⟨hxlt, -⟩ := dxynOrigin_lt horigin
  have hmem : ∀ r, r < s.opcode % 16 → s.index + r < s.memory.length := by
    intro r hr; omega
  obtain ⟨t, ht, hd⟩ := OP_Dxyn_spec s xPos yPos h15 horigin hmem
    (fun r c hr hc hb => by rw [hvl]; exact hin r c hr hc hb)
  refine ⟨t, ht, ?_, ?_, ?_, ?_⟩
  · intro row col hr hc hb
    have hhit : Hit { s with registers := s.registers.set 0xF 0 } xPos yPos
        (8 * (s.opcode % 16)) (cellPos xPos yPos row col) :=
      ⟨row, col, hc, by omega, hb, rfl⟩
    exact hd.video_hit _ hhit
  · intro p hout
    have hmiss : ¬ Hit { s with registers := s.registers.set 0xF 0 } xPos yPos
        (8 * (s.opcode % 16)) p := by
      rintro ⟨i, j, hj, hlt, hb, hpe⟩
      exact hout ⟨i, j, by omega, hj, hb, hpe⟩
    exact hd.video_miss _ hmiss
  · intro row col hr hc hge
    refine ⟨by omega, by omega, by omega, ?_⟩
    intro hprev
    have hmiss : ¬ Hit { s with registers := s.registers.set 0xF 0 } xPos yPos
        (8 * (s.opcode % 16)) ((yPos + row) * 64 + (xPos + col) % 64) := by
      rintro ⟨i, j, hj, hlt, hb, hpe⟩
      have hb' : spriteBit s i j = true := hb
      unfold cellPos VIDEO_WIDTH at hpe
      have hij : row = i + 1 ∧ col = j := by omega
      obtain ⟨hi, hj'⟩ := hij
      subst hi hj'
      rcases hprev with h0 | hoff
      · omega
      · rw [Nat.add_sub_cancel, hb'] at hoff
        cases hoff
    exact hd.video_miss _ hmiss
  · intro r c r' c' hc hc' hp
    exact cellPos_inj hc hc' hp

/-- A concrete instance: the byte `0xFF` drawn with `D011` at origin
(60, 0) toggles the cells 60..63 of row 0 and the cells 0..3 of row 1, and
leaves the cells 0..3 of row 0 off. -/
theorem OP_Dxyn_no_column_wrap_edge :
    wrapInput.WF ∧ dxynOrigin wrapInput = some (60, 0) ∧
    ∃ t, OP_Dxyn wrapInput = some t ∧
      (∀ col, col < 8 → t.video[60 + col]? = some 0xFFFFFFFF) ∧
      (∀ col, col < 4 → t.video[col]? = some 0) := by
  obtain ⟨t, ht, hon, hoff, -, -⟩ :=
    OP_Dxyn_no_column_wrap wrapInput wrapInput_wf 60 0 (by decide) (by decide)
      (fun row col hr hc _ => by
        have hr' : row < 1 := hr
        omega)
  refine ⟨wrapInput_wf, by decide, t, ht, ?_, ?_⟩
  · intro col hc
    have h := hon 0 col (by decide) hc (wrapInput_bits col hc)
    have hcell : wrapInput.video[(0 + 0) * 64 + (60 + col)]? = some 0 :=
      off_cell (fun _ hv => List.eq_of_mem_replicate hv)
        (by rw [List.length_replicate]; omega)
    rw [hcell, Option.map_some', flipCell_zero] at h
    have he : 60 + col = (0 + 0) * 64 + (60 + col) := by omega
    rw [he]
    exact h
  · intro col hc
    have h := hoff col (by
      rintro ⟨row, c, hr, -, -, hp⟩
      have hr' : row < 1 := hr
      omega)
    rw [h]
    exact off_cell (fun _ hv => List.eq_of_mem_replicate hv)
      (by rw [List.length_replicate]; omega)

theorem forLoop_prefix {σ : Type} (body : Nat → σ → Option σ) (init t : σ) (n k : Nat)
    (h : forLoop n body init = some t) (hk : k < n) :
    ∃ u u', forLoop k body init = some u ∧ body k u = some u' := by
  induction n generalizing t with
  | zero => omega
  | succ m ih =>
    simp only [forLoop, Option.bind_eq_some] at h
    obtain ⟨u, hu, hb⟩ := h
    by_cases hkm : k = m
    · subst hkm
      exact ⟨u, t, hu, hb⟩
    · exact ih u hu (by omega)

/-- The parts of the state that the loops of `OP_Dxyn` read but never change:
memory, index and the size of the framebuffer. -/
theorem drawPixel_same {s u u' : Chip8} {xPos yPos row b col : Nat}
    (hu : u.memory = s.memory ∧ u.index = s.index ∧ u.video.length = s.video.length)
    (h : drawPixel xPos yPos row b col u = some u') :
    u'.memory = s.memory ∧ u'.index = s.index ∧ u'.video.length = s.video.length := by
  simp only [drawPixel] at h
  by_cases hp : (b &&& (0x80 >>> col)) % 256 ≠ 0
  · rw [if_pos hp] at h
    simp only [Option.bind_eq_some, Option.map_eq_some'] at h
    obtain ⟨cell, -, s1, h1, vid, hvid, rfl⟩ := h
    have hs1 : s1.memory = u.memory ∧ s1.index = u.index ∧ s1.video = u.video := by
      by_cases hc : cell = 0xFFFFFFFF
      · rw [if_pos hc] at h1
        rw [setReg_some h1]
        exact ⟨rfl, rfl, rfl⟩
      · rw [if_neg hc] at h1
        cases h1
        exact ⟨rfl, rfl, rfl⟩
    simp only [writeAt] at hvid
    split at hvid
    · simp only [Option.some.injEq] at hvid
      refine ⟨hs1.1.trans hu.1, hs1.2.1.trans hu.2.1, ?_⟩
      show vid.length = s.video.length
      rw [← hvid, List.length_set, hs1.2.2]
      exact hu.2.2
    · cases hvid
  · rw [if_neg hp] at h
    cases h
    exact hu

theorem drawRow_same {s u u' : Chip8} {xPos yPos row : Nat}
    (hu : u.memory = s.memory ∧ u.index = s.index ∧ u.video.length = s.video.length)
    (h : drawRow xPos yPos row u = some u') :
    u'.memory = s.memory ∧ u'.index = s.index ∧ u'.video.length = s.video.length := by
  simp only [drawRow] at h
  refine of_bind (P := fun w : Chip8 =>
    w.memory = s.memory ∧ w.index = s.index ∧ w.video.length = s.video.length)
    (fun b w hb => ?_) h
  exact forLoop_preserves _ (fun w : Chip8 =>
    w.memory = s.memory ∧ w.index = s.index ∧ w.video.length = s.video.length)
    (fun i w w' hw hw' => drawPixel_same hw hw') 8 u w hu hb

theorem OP_Dxyn_bounds_of_some {s t : Chip8} (h : OP_Dxyn s = some t) :
    ∃ xPos yPos, dxynOrigin s = some (xPos, yPos) ∧
      (∀ row, row < s.opcode % 16 → s.index + row < s.memory.length) ∧
      (∀ row col, row < s.opcode % 16 → col < 8 → spriteBit s row col = true →
        cellPos xPos yPos row col < s.video.length) := by
  simp only [OP_Dxyn, Option.bind_eq_some, fieldN_eq] at h
  obtain ⟨o, ho, s1, h1, hl⟩ := h
  have hs1 : s1.memory = s.memory ∧ s1.index = s.index ∧ s1.video.length = s.video.length := by
    rw [setReg_some h1]
    exact ⟨rfl, rfl, rfl⟩
  have hrow : ∀ row, row < s.opcode % 16 →
      ∃ u u' m, (u.memory = s.memory ∧ u.index = s.index ∧ u.video.length = s.video.length) ∧
        s.memory[s.index + row]? = some m ∧
        forLoop 8 (drawPixel o.1 o.2 row m) u = some u' := by
    intro row hr
    obtain ⟨u, u', hu, hb⟩ := forLoop_prefix _ s1 t _ row hl hr
    have hsame := forLoop_preserves _ (fun w : Chip8 =>
      w.memory = s.memory ∧ w.index = s.index ∧ w.video.length = s.video.length)
      (fun i w w' hw hw' => drawRow_same hw hw') row s1 u hs1 hu
    simp only [drawRow, Option.bind_eq_some] at hb
    obtain ⟨m, hm, hinner⟩ := hb
    rw [hsame.1, hsame.2.1] at hm
    exact ⟨u, u', m, hsame, hm, hinner⟩
  refine ⟨o.1, o.2, ho, ?_, ?_⟩
  · intro row hr
    obtain ⟨u, u', m, -, hm, -⟩ := hrow row hr
    exact (List.getElem?_eq_some.mp hm).1
  · intro row col hr hc hb
    obtain ⟨u, u', m, hsame, hm, hinner⟩ := hrow row hr
    obtain ⟨w, w', hw, hpix⟩ := forLoop_prefix _ u u' 8 col hinner hc
    have hwsame := forLoop_preserves _ (fun w : Chip8 =>
      w.memory = s.memory ∧ w.index = s.index ∧ w.video.length = s.video.length)
      (fun i w w' hw hw' => drawPixel_same hw hw') col u w hsame hw
    have hbit : (m &&& (0x80 >>> col)) % 256 ≠ 0 := by
      simp only [spriteBit, hm, decide_eq_true_eq] at hb
      exact hb
    simp only [drawPixel, if_pos hbit, Option.bind_eq_some] at hpix
    obtain ⟨cell, hcell, -⟩ := hpix
    have hlt := (List.getElem?_eq_some.mp hcell).1
    rw [hwsame.2.2] at hlt
    exact hlt

theorem edgeInput_wf : edgeInput.WF where
  registers_length := by decide
  registers_byte := by decide
  memory_length := List.length_replicate _ _
  memory_byte := by
    intro v hv
    have hv' : v = 0x80 := List.eq_of_mem_replicate hv
    omega
  index_lt := by decide
  pc_lt := zeroState_wf.pc_lt
  stack_length := zeroState_wf.stack_length
  stack_word := zeroState_wf.stack_word
  sp_lt := zeroState_wf.sp_lt
  delayTimer_lt := zeroState_wf.delayTimer_lt
  soundTimer_lt := zeroState_wf.soundTimer_lt
  keypad_length := zeroState_wf.keypad_length
  video_length := zeroState_wf.video_length
  video_word := zeroState_wf.video_word
  opcode_lt := by decide

theorem edgeInput_bit : spriteBit edgeInput 1 0 = true := by
  have h : edgeInput.memory[edgeInput.index + 1]? = some 0x80 := by
    show (List.replicate 4096 0x80)[0 + 1]? = some 0x80
    rw [List.getElem?_replicate]
    decide
  rw [spriteBit_iff edgeInput 1 0 (by decide)]
  exact ⟨0x80, h, by decide⟩

theorem edgeInput_undefined : OP_Dxyn edgeInput = none := by
  cases h : OP_Dxyn edgeInput with
  | none => rfl
  | some t =>
    obtain ⟨xPos, yPos, ho, -, hin⟩ := OP_Dxyn_bounds_of_some h
    have ho' : dxynOrigin edgeInput = some (0, 31) := by decide
    rw [ho', Option.some.injEq, Prod.mk.injEq] at ho
    obtain ⟨hx, hy⟩ := ho
    subst hx hy
    have hlt := hin 1 0 (by decide) (by decide) edgeInput_bit
    rw [edgeInput_wf.video_length] at hlt
    exact absurd hlt (by decide)

/-- C20: for a word with X = 0 (so that the register index of `yPos` is the Y
nibble), with vx = V[0] and vy = V[Y]: if vx mod 64 <= 56,
(vy mod 32) + N <= 32 and index + N <= 4096, then `OP_Dxyn` computes the origin
(vx mod 64, vy mod 32) and has a result, every memory read index + row (row < N)
is below 4096, and every framebuffer position
(yPos + row) * 64 + (xPos + col) (row < N, col < 8) is below 2048.  Whenever
`OP_Dxyn` has a result, the position of every set sprite bit is below 2048.
Without the fitting precondition this fails: on `edgeInput` (X = 0, N = 15,
yPos = 31, the sprite inside memory and xPos = 0) the set sprite bit at row 1,
column 0 has position 2048, and `OP_Dxyn` has no result. -/
theorem C20_draw_in_bounds (s : Chip8) (hs : s.WF) (vx vy : Nat)
    (hX : s.opcode / 256 % 16 = 0)
    (hvx : s.registers[0]? = some vx) (hvy : s.registers[s.opcode / 16 % 16]? = some vy)
    (hfitx : vx % 64 ≤ 56) (hfity : vy % 32 + s.opcode % 16 ≤ 32)
    (hidx : s.index + s.opcode % 16 ≤ 4096) :
    dxynOrigin s = some (vx % 64, vy % 32) ∧
    (∃ t, OP_Dxyn s = some t) ∧
    (∀ row, row < s.opcode % 16 →
      s.index + row < 4096 ∧ ∃ m, s.memory[s.index + row]? = some m) ∧
    (∀ row col, row < s.opcode % 16 → col < 8 →
      (vy % 32 + row) * 64 + (vx % 64 + col) < 2048 ∧
      ∃ cell, s.video[(vy % 32 + row) * 64 + (vx % 64 + col)]? = some cell) ∧
    (∀ t, OP_Dxyn s = some t → ∀ row col, row < s.opcode % 16 → col < 8 →
      spriteBit s row col = true → (vy % 32 + row) * 64 + (vx % 64 + col) < 2048) ∧
    (edgeInput.WF ∧ edgeInput.opcode / 256 % 16 = 0 ∧ edgeInput.opcode % 16 = 15 ∧
      dxynOrigin edgeInput = some (0, 31) ∧
      edgeInput.index + edgeInput.opcode % 16 ≤ 4096 ∧
      spriteBit edgeInput 1 0 = true ∧ 2048 ≤ (31 + 1) * 64 + (0 + 0) ∧
      OP_Dxyn edgeInput = none) := by
  have hrl := hs.registers_length
  have hml := hs.memory_length
  have hvl := hs.video_length
  have h15 : 15 < s.registers.length := by omega
  have hVy : s.opcode / 16 % 256 = s.opcode / 16 % 16 := by omega
  have horigin : dxynOrigin s = some (vx % 64, vy % 32) := by
    have h64 : vx % 64 % 256 = vx % 64 := by omega
    have h32 : vy % 32 % 256 = vy % 32 := by omega
    simp only [dxynOrigin, fieldX_eq, dxynVy_eq, hX, hVy, hvx, hvy, Option.some_bind,
      Option.map_some', VIDEO_WIDTH, VIDEO_HEIGHT, h64, h32]
  have hpos : ∀ row col, row < s.opcode % 16 → col < 8 →
      (vy % 32 + row) * 64 + (vx % 64 + col) < 2048 := by
    intro row col hr hc
    exact @cellPos_lt (vx % 64) (vy % 32) (s.opcode % 16) row col (by omega) hfity hr hc
  have hmem : ∀ r, r < s.opcode % 16 → s.index + r < s.memory.length := by
    intro r hr; omega
  obtain ⟨t, ht, -⟩ := OP_Dxyn_spec s (vx % 64) (vy % 32) h15 horigin hmem
    (fun r c hr hc _ => by rw [hvl]; exact hpos r c hr hc)
  refine ⟨horigin, ⟨t, ht⟩, ?_, ?_, ?_, ?_⟩
  · intro row hr
    exact ⟨by omega, _, List.getElem?_eq_getElem (hmem row hr)⟩
  · intro row col hr hc
    have hp := hpos row col hr hc
    exact ⟨hp, _, List.getElem?_eq_getElem (by rw [hvl]; exact hp)⟩
  · intro t' _ row col hr hc _
    exact hpos row col hr hc
  · exact ⟨edgeInput_wf, by decide, by decide, by decide, by decide, edgeInput_bit,
      by decide, edgeInput_undefined⟩

/-- C20, a concrete instance: the glyph of digit 0 drawn with `D015` at origin
(0, 0), five rows read at 0x50..0x54. -/
theorem C20_draw_in_bounds_witness :
    glyphInput.WF ∧ dxynOrigin glyphInput = some (0, 0) ∧
    (∃ t, OP_Dxyn glyphInput = some t) ∧
    (∀ row col, row < 5 → col < 8 → (0 + row) * 64 + (0 + col) < 2048) :=
  have h := C20_draw_in_bounds glyphInput glyphInput_wf 0 0 (by decide) (by decide)
    (by decide) (by decide) (by decide) (by decide)
  ⟨glyphInput_wf, h.1, h.2.1, fun row col hr hc => (h.2.2.2.1 row col hr hc).1⟩

end Chip8Emu
